import Mathlib

/-!
# IPFSniffer: a shallow embedding of the discovery-to-index pipeline

Go strings that travel in protobuf messages are valid UTF-8, so they are
embedded as Lean `String`s (sequences of runes); byte-level views are obtained
through UTF-8 encoding.  `int64` values are embedded as `Int` together with an
explicit two's-complement wrap wherever the Go code performs arithmetic.
-/

namespace IPFSniffer

/-! ## Go runtime helpers (package `strings`, `path`, `unicode`) -/

namespace Go

/-- The rune test `unicode.IsSpace`: the Latin-1 spaces and the code points with
the White_Space property. -/
def isSpace (c : Char) : Bool :=
  let n := c.toNat
  n == 0x09 || n == 0x0A || n == 0x0B || n == 0x0C || n == 0x0D || n == 0x20 ||
  n == 0x85 || n == 0xA0 || n == 0x1680 || (0x2000 ≤ n && n ≤ 0x200A) ||
  n == 0x2028 || n == 0x2029 || n == 0x202F || n == 0x205F || n == 0x3000

/-- The function `strings.TrimSpace` on the rune sequence. -/
def trimSpaceRunes (s : List Char) : List Char :=
  ((s.dropWhile isSpace).reverse.dropWhile isSpace).reverse

/-- The function `strings.TrimSpace`. -/
def TrimSpace (s : String) : String := String.mk (trimSpaceRunes s.data)

/-- The function `strings.HasPrefix`. -/
def HasPrefix (s p : String) : Bool := p.data.isPrefixOf s.data

/-- The function `strings.HasSuffix`. -/
def HasSuffix (s p : String) : Bool := p.data.reverse.isPrefixOf s.data.reverse

/-- The function `strings.TrimPrefix`: `s` without the leading `p`, or `s` itself. -/
def TrimPrefix (s p : String) : String :=
  if HasPrefix s p then String.mk (s.data.drop p.data.length) else s

/-- The function `strings.TrimSuffix`: `s` without the trailing `p`, or `s` itself. -/
def TrimSuffix (s p : String) : String :=
  if HasSuffix s p then String.mk (s.data.take (s.data.length - p.data.length)) else s

/-- Substring search on rune sequences: does `sub` occur in `s`? -/
def containsRunes (sub : List Char) : List Char → Bool
  | [] => sub.isPrefixOf []
  | c :: cs => sub.isPrefixOf (c :: cs) || containsRunes sub cs

/-- The function `strings.Contains`. -/
def Contains (s sub : String) : Bool := containsRunes sub.data s.data

/-- The conversion `[]byte(s)`: the UTF-8 encoding of one rune. -/
def utf8Rune (c : Char) : List Nat :=
  let n := c.toNat
  if n < 0x80 then [n]
  else if n < 0x800 then [0xC0 + n / 64, 0x80 + n % 64]
  else if n < 0x10000 then [0xE0 + n / 4096, 0x80 + n / 64 % 64, 0x80 + n % 64]
  else [0xF0 + n / 262144, 0x80 + n / 4096 % 64, 0x80 + n / 64 % 64, 0x80 + n % 64]

/-- The conversion `[]byte(s)`. -/
def bytes (s : String) : List Nat := s.data.flatMap utf8Rune

end Go

/-! ## `crypto/sha256` and `encoding/hex` -/

namespace Sha256

/-- Addition of 32-bit words. -/
def add32 (a b : Nat) : Nat := (a + b) % 2 ^ 32

/-- Right rotation of a 32-bit word. -/
def rotr (x k : Nat) : Nat := (x >>> k ||| x <<< (32 - k)) % 2 ^ 32

/-- Bitwise complement of a 32-bit word. -/
def not32 (x : Nat) : Nat := 2 ^ 32 - 1 - x % 2 ^ 32

/-- Trial-division primality test. -/
def isPrime (n : Nat) : Bool :=
  decide (2 ≤ n) && (List.range n).all (fun d => decide (d < 2) || n % d != 0)

/-- The first 64 primes. -/
def primes : List Nat := (List.range 312).filter isPrime

/-- The largest `r` below `2 ^ bits` with `r ^ k ≤ n`, found bit by bit from the top. -/
def iroot (k bits n : Nat) : Nat :=
  (List.range bits).reverse.foldl (fun r b => if (r + 2 ^ b) ^ k ≤ n then r + 2 ^ b else r) 0

/-- The first 32 bits of the fractional part of the `k`-th root of `p`. -/
def rootFraction (k p : Nat) : Nat := iroot k 35 (p * 2 ^ (32 * k)) % 2 ^ 32

/-- The round constants: the fractional parts of the cube roots of the first 64 primes. -/
def K : List Nat := primes.map (rootFraction 3)

/-- The eight chaining words. -/
structure Digest where
  a : Nat
  b : Nat
  c : Nat
  d : Nat
  e : Nat
  f : Nat
  g : Nat
  h : Nat
deriving DecidableEq, Repr

/-- The initial chaining value: the fractional parts of the square roots of the
first eight primes. -/
def init : Digest :=
  ⟨rootFraction 2 2, rootFraction 2 3, rootFraction 2 5, rootFraction 2 7,
   rootFraction 2 11, rootFraction 2 13, rootFraction 2 17, rootFraction 2 19⟩

/-- Message padding: a `0x80` byte, zeros up to 56 mod 64, then the bit length
as a big-endian 64-bit integer. -/
def pad (msg : List Nat) : List Nat :=
  let len := msg.length
  let zeros := (64 + 55 - len % 64) % 64
  let bits := (8 * len) % 2 ^ 64
  msg ++ [0x80] ++ List.replicate zeros 0 ++
    (List.range 8).map (fun i => bits / 2 ^ (8 * (7 - i)) % 256)

/-- The big-endian word at index `i` of a block. -/
def wordAt (blk : List Nat) (i : Nat) : Nat :=
  blk.getD (4 * i) 0 * 2 ^ 24 + blk.getD (4 * i + 1) 0 * 2 ^ 16 +
    blk.getD (4 * i + 2) 0 * 2 ^ 8 + blk.getD (4 * i + 3) 0

/-- One step of the message-schedule extension. -/
def extend (w : List Nat) (_ : Nat) : List Nat :=
  let t := w.length
  let w15 := w.getD (t - 15) 0
  let w2 := w.getD (t - 2) 0
  let s0 := rotr w15 7 ^^^ rotr w15 18 ^^^ (w15 >>> 3)
  let s1 := rotr w2 17 ^^^ rotr w2 19 ^^^ (w2 >>> 10)
  w ++ [add32 (add32 (add32 (w.getD (t - 16) 0) s0) (w.getD (t - 7) 0)) s1]

/-- The 64-word message schedule of a block. -/
def schedule (blk : List Nat) : List Nat :=
  (List.range 48).foldl extend ((List.range 16).map (wordAt blk))

/-- One compression round with round constant `k` and schedule word `w`. -/
def round (s : Digest) (kw : Nat × Nat) : Digest :=
  let S1 := rotr s.e 6 ^^^ rotr s.e 11 ^^^ rotr s.e 25
  let ch := (s.e &&& s.f) ^^^ (not32 s.e &&& s.g)
  let t1 := add32 (add32 (add32 (add32 s.h S1) ch) kw.1) kw.2
  let S0 := rotr s.a 2 ^^^ rotr s.a 13 ^^^ rotr s.a 22
  let maj := (s.a &&& s.b) ^^^ (s.a &&& s.c) ^^^ (s.b &&& s.c)
  let t2 := add32 S0 maj
  ⟨add32 t1 t2, s.a, s.b, s.c, add32 s.d t1, s.e, s.f, s.g⟩

/-- The compression function on one 64-byte block. -/
def compress (s : Digest) (blk : List Nat) : Digest :=
  let r := (K.zip (schedule blk)).foldl round s
  ⟨add32 s.a r.a, add32 s.b r.b, add32 s.c r.c, add32 s.d r.d,
   add32 s.e r.e, add32 s.f r.f, add32 s.g r.g, add32 s.h r.h⟩

/-- The four big-endian bytes of a word. -/
def wordBytes (w : Nat) : List Nat :=
  [w / 2 ^ 24 % 256, w / 2 ^ 16 % 256, w / 2 ^ 8 % 256, w % 256]

/-- The function `sha256.Sum256`: the 32-byte digest of a byte string. -/
def Sum256 (msg : List Nat) : List Nat :=
  let p := pad msg
  let blocks := (List.range (p.length / 64)).map (fun i => (p.drop (64 * i)).take 64)
  let s := blocks.foldl compress init
  wordBytes s.a ++ wordBytes s.b ++ wordBytes s.c ++ wordBytes s.d ++
    wordBytes s.e ++ wordBytes s.f ++ wordBytes s.g ++ wordBytes s.h

end Sha256

namespace Hex

/-- The digit table `hextable` of `encoding/hex`. -/
def hextable : List Char := "0123456789abcdef".data

/-- The two digits `hextable[v>>4], hextable[v&0x0f]` of one byte. -/
def encodeByte (v : Nat) : List Char :=
  [hextable.getD (v / 16) '0', hextable.getD (v % 16) '0']

/-- The function `hex.EncodeToString`. -/
def EncodeToString (src : List Nat) : String := String.mk (src.flatMap encodeByte)

end Hex

/-! ## `internal/docid` and `indexprep.deterministicID` -/

namespace docid

/-- The function `docid.ForRootAndPath`. -/
def ForRootAndPath (rootCID path : String) : String :=
  let h := Sha256.Sum256 (Go.bytes (rootCID ++ ":" ++ path))
  Hex.EncodeToString h

end docid

namespace indexprep

/-- The function `indexprep.deterministicID`. -/
def deterministicID (rootCID p : String) : String :=
  let sum := Sha256.Sum256 (Go.bytes (rootCID ++ ":" ++ p))
  Hex.EncodeToString sum

end indexprep

/-! ## More of the Go runtime: `path.Ext`, `strings.ToLower`, `int64`, `encoding/base64` -/

namespace Go

/-- The scan of `path.Ext` over the reversed path: `acc` holds the runes already
passed, in path order. -/
def extScan (acc : List Char) : List Char → List Char
  | [] => []
  | c :: cs =>
    if c = '/' then [] else if c = '.' then c :: acc else extScan (c :: acc) cs

/-- The function `path.Ext` (and `filepath.Ext` with the slash separator): the
suffix beginning at the final dot of the final slash-separated element. -/
def Ext (path : String) : String := String.mk (extScan [] path.data.reverse)

/-- The function `unicode.ToLower` on one rune: the ASCII letters are lowered
directly, every other rune goes through the Unicode case table `tbl`. -/
def toLowerRune (tbl : Char → Char) (c : Char) : Char :=
  if c.toNat < 0x80 then
    (if 0x41 ≤ c.toNat ∧ c.toNat ≤ 0x5A then Char.ofNat (c.toNat + 32) else c)
  else tbl c

/-- The function `strings.ToLower`, relative to the Unicode case table `tbl`. -/
def ToLower (tbl : Char → Char) (s : String) : String :=
  String.mk (s.data.map (toLowerRune tbl))

/-- Two's-complement wrap of an integer into the `int64` range. -/
def wrap64 (x : Int) : Int := (x + 2 ^ 63) % 2 ^ 64 - 2 ^ 63

/-- The alphabet of `base64.StdEncoding`. -/
def b64table : List Char :=
  "ABCDEFGHIJKLMNOPQRSTUVWXYZabcdefghijklmnopqrstuvwxyz0123456789+/".data

/-- One digit of the standard base64 alphabet. -/
def b64digit (n : Nat) : Char := b64table.getD (n % 64) 'A'

/-- The runes of `base64.StdEncoding.EncodeToString`, three bytes at a time,
padded with `=`. -/
def b64runes : List Nat → List Char
  | [] => []
  | [a] => [b64digit (a / 4), b64digit (a % 4 * 16), '=', '=']
  | [a, b] => [b64digit (a / 4), b64digit (a % 4 * 16 + b / 16), b64digit (b % 16 * 4), '=']
  | a :: b :: c :: rest =>
    b64digit (a / 4) :: b64digit (a % 4 * 16 + b / 16) ::
      b64digit (b % 16 * 4 + c / 64) :: b64digit (c % 64) :: b64runes rest

/-- The function `base64.StdEncoding.EncodeToString`. -/
def b64EncodeToString (src : List Nat) : String := String.mk (b64runes src)

/-- The function `base64.StdEncoding.DecodedLen` corrected for the padding: the
number of bytes a padded base64 text stands for. -/
def b64PayloadLen (s : String) : Nat :=
  s.data.length / 4 * 3 - (s.data.filter (fun c => c == '=')).length

/-- The function `strings.Trim` with a one-rune cutset. -/
def Trim (s : String) (cut : Char) : String :=
  String.mk (((s.data.dropWhile (fun c => c == cut)).reverse.dropWhile
    (fun c => c == cut)).reverse)

/-- The function `strings.Split` with a one-rune separator, on rune sequences. -/
def splitRunes (sep : Char) : List Char → List (List Char)
  | [] => [[]]
  | c :: cs =>
    if c = sep then [] :: splitRunes sep cs
    else match splitRunes sep cs with
      | [] => [[c]]
      | h :: t => (c :: h) :: t

/-- The function `strings.Split` with a one-rune separator. -/
def Split (s : String) (sep : Char) : List String := (splitRunes sep s.data).map String.mk

/-- The function `strings.SplitN` with a one-rune separator and `n = 2`: the text
before the first separator and, when there is a separator, the text after it. -/
def SplitN2 (s : String) (sep : Char) : List String :=
  match s.data.span (fun c => c != sep) with
  | (a, []) => [String.mk a]
  | (a, _ :: b) => [String.mk a, String.mk b]

/-- The function `strings.Count` with a one-rune pattern. -/
def Count (s : String) (c : Char) : Nat := (s.data.filter (fun x => x == c)).length

end Go

/-! ## `internal/filter` -/

namespace filter

/-- The struct `filter.Policy`. -/
structure Policy where
  SkipExt : List String
  SkipMimePrefix : List String
  MaxFileBytes : Int
deriving DecidableEq, Repr

/-- The struct `filter.Decision`. -/
structure Decision where
  Allowed : Bool
  SkipReason : String
deriving DecidableEq, Repr

/-- The function `filter.Decide`. -/
def Decide (tbl : Char → Char) (path mime : String) (sizeBytes : Int) (p : Policy) : Decision :=
  if p.MaxFileBytes > 0 ∧ sizeBytes > p.MaxFileBytes then ⟨false, "too_large"⟩
  else
    let ext := Go.ToLower tbl (Go.Ext path)
    if p.SkipExt.any (fun s => decide (Go.ToLower tbl s = ext) && decide (ext ≠ "")) then
      ⟨false, "ext_denied"⟩
    else
      let mime := Go.ToLower tbl (Go.TrimSpace mime)
      if p.SkipMimePrefix.any (fun pref =>
          let pref := Go.ToLower tbl (Go.TrimSpace pref)
          decide (pref ≠ "") && Go.HasPrefix mime pref) then
        ⟨false, "mime_denied"⟩
      else ⟨true, ""⟩

end filter

/-! ## `internal/fetcher`: bounded DAG traversal -/

namespace fetcher

/-- The message `FetchContentResult`. -/
structure FetchContentResult where
  Mode : String
  InlineBase64 : String
deriving DecidableEq, Repr

/-- The message `FetchDirectory`. -/
structure FetchDirectory where
  Entries : List String
  Truncated : Bool
deriving DecidableEq, Repr

/-- The message `FetchResultData`; the two sub-messages are pointers and may be nil. -/
structure FetchResultData where
  RootCid : String
  Path : String
  NodeType : String
  SizeBytes : Int
  Mime : String
  Ext : String
  Content : Option FetchContentResult
  Directory : Option FetchDirectory
  Status : String
  SkipReason : String
  Error : String
  FetchedAt : String
deriving DecidableEq, Repr

/-- A `boxofiles.Node`.  `size` is the result of `Size()` (`none` when it returns
an error).  A file is the bytes its reader delivers, followed by end of file
(`readErr = none`) or by a read error.  A directory is the entries its iterator
yields, followed by normal exhaustion (`iterErr = none`) or by an iterator error.
`other` is a node that is neither a `File` nor a `Directory` (a symlink). -/
inductive Node where
  | file (size : Option Int) (data : List Nat) (readErr : Option String)
  | dir (size : Option Int) (entries : List (String × Node)) (iterErr : Option String)
  | other (size : Option Int)
deriving Repr

/-- The result of `node.Size()`. -/
def Node.size : Node → Option Int
  | .file s _ _ => s
  | .dir s _ _ => s
  | .other s => s

/-- The struct `traverseLimits`. -/
structure traverseLimits where
  maxTotalBytes : Int
  maxFileBytes : Int
  maxDagNodes : Int
  maxDepth : Int
  inlineMaxBytes : Int
deriving DecidableEq, Repr

/-- The collaborators of one job: the state of the context at each poll of
`ctx.Err()`, the outcome of each call of `emit` (marshal and publish), and the
Unicode case table behind `strings.ToLower`. -/
structure Env where
  ctxErr : Nat → Option String
  emitErr : Nat → Option String
  lowerTable : Char → Char

/-- The collaborators of a job whose context stays live and whose publishes all
succeed. -/
def Env.quiet : Env := ⟨fun _ => none, fun _ => none, id⟩

/-- The state threaded through one job: the struct `traverseState` (the field
`totalBytes`), the results handed to `emit` so far, in order, and the number of
context polls so far. -/
structure traverseState where
  totalBytes : Int
  emitted : List FetchResultData
  polls : Nat
deriving DecidableEq, Repr

/-- The fresh state `&traverseState{}` of `handleMsg`. -/
def traverseState.fresh : traverseState := ⟨0, [], 0⟩

/-- One call of the `emit` closure: the result is handed to the bus and the
outcome of the publish is returned. -/
def emit (env : Env) (st : traverseState) (d : FetchResultData) : traverseState × Option String :=
  ({ st with emitted := st.emitted ++ [d] }, env.emitErr st.emitted.length)

/-- The function `readUpToN` on a reader that delivers `data` and then ends with
end of file or with `readErr`: `io.ReadFull` fills the buffer of `n` bytes when
the data suffices, and otherwise reports how the reader ended. -/
def readUpToN (data : List Nat) (readErr : Option String) (n : Int) :
    Except String (List Nat × Int) :=
  if n ≤ 0 then .ok ([], 0)
  else if n ≤ data.length then .ok (data.take n.toNat, n)
  else match readErr with
    | none => .ok (data, data.length)
    | some e => .error e

/-- The record emitted at a node beyond `max_depth`. -/
def depthSkip (rootCID basePath : String) : FetchResultData :=
  { RootCid := rootCID, Path := basePath, NodeType := "unknown", SizeBytes := 0, Mime := "",
    Ext := "", Content := none, Directory := none, Status := "skipped",
    SkipReason := "limit_exceeded", Error := "max_depth exceeded", FetchedAt := "" }

/-- The record emitted at a node whose size does not fit `max_total_bytes`. -/
def totalSkip (rootCID basePath : String) : FetchResultData :=
  { RootCid := rootCID, Path := basePath, NodeType := "unknown", SizeBytes := 0, Mime := "",
    Ext := "", Content := none, Directory := none, Status := "skipped",
    SkipReason := "limit_exceeded", Error := "max_total_bytes exceeded", FetchedAt := "" }

/-- The record `d` that `traverse` prepares for a node before specialising it. -/
def baseResult (env : Env) (rootCID basePath nodeType : String) (sizeBytes : Int) :
    FetchResultData :=
  { RootCid := rootCID, Path := basePath, NodeType := nodeType, SizeBytes := sizeBytes,
    Mime := "", Ext := Go.ToLower env.lowerTable (Go.Ext basePath),
    Content := some ⟨"none", ""⟩, Directory := some ⟨[], false⟩, Status := "ok",
    SkipReason := "", Error := "", FetchedAt := "" }

/-- The path of a directory entry: the parent path, less one trailing slash,
then a slash and the entry name. -/
def childPath (basePath name : String) : String :=
  (if Go.HasSuffix basePath "/" then Go.TrimSuffix basePath "/" else basePath) ++ "/" ++ name

/-- How the loop over a directory iterator ended: the iterator was exhausted, the
loop was left by `break` after a limit error of a child, or `traverse` returned
the error of a child. -/
inductive LoopExit where
  | exhausted
  | truncated
  | abort (err : String)
deriving DecidableEq, Repr

/-- The file branch of `traverse` (lines 97-143 and 186), for a node that is not
a directory; `reader` is the reader of a `File`, absent for other nodes. -/
def traverseFile (env : Env) (st : traverseState) (lim : traverseLimits) (pol : filter.Policy)
    (d : FetchResultData) (reader : Option (List Nat × Option String)) :
    traverseState × Option String :=
  let decision := filter.Decide env.lowerTable d.Path "" d.SizeBytes pol
  if !decision.Allowed then
    emit env st { d with Status := "skipped", SkipReason := decision.SkipReason }
  else if lim.maxFileBytes > 0 ∧ d.SizeBytes > lim.maxFileBytes then
    emit env st { d with Status := "skipped", SkipReason := "too_large" }
  else if lim.inlineMaxBytes > 0 then
    match reader with
    | none => emit env st d
    | some (data, readErr) =>
      let remaining := Go.wrap64 (lim.maxTotalBytes - st.totalBytes)
      if lim.maxTotalBytes > 0 ∧ remaining ≤ 0 then
        emit env st { d with Status := "skipped", SkipReason := "limit_exceeded",
                             Error := "max_total_bytes exceeded" }
      else
        let budget :=
          if lim.maxTotalBytes > 0 ∧ remaining < lim.inlineMaxBytes then remaining
          else lim.inlineMaxBytes
        match readUpToN data readErr budget with
        | .error e => emit env st { d with Status := "failed", Error := e }
        | .ok (inlineBytes, readN) =>
          let st := { st with totalBytes := Go.wrap64 (st.totalBytes + readN) }
          if inlineBytes.length > 0 then
            emit env st { d with Content := some ⟨"inline", Go.b64EncodeToString inlineBytes⟩ }
          else emit env st d
  else emit env st d

/-- The entry of `traverse` (lines 49-55): the poll of the context and the depth
gate; `body` is the rest of the function, run on the state after the poll. -/
def enter (env : Env) (rootCID basePath : String) (depth : Int) (st : traverseState)
    (lim : traverseLimits) (body : traverseState → traverseState × Option String) :
    traverseState × Option String :=
  match env.ctxErr st.polls with
  | some e => ({ st with polls := st.polls + 1 }, some e)
  | none =>
    let st := { st with polls := st.polls + 1 }
    if lim.maxDepth > 0 ∧ depth > lim.maxDepth then emit env st (depthSkip rootCID basePath)
    else body st

mutual

/-- The rest of `traverse` (lines 57-187), for a node that passed the depth gate:
the size accounting, the file branch and the directory branch.  After a `break`
the iterator has not failed, so `it.Err()` is nil there. -/
def traverseNode (env : Env) (rootCID basePath : String) (node : Node) (depth : Int)
    (st : traverseState) (lim : traverseLimits) (pol : filter.Policy) :
    traverseState × Option String :=
  let sizeBytes := node.size.getD 0
  if sizeBytes > 0 ∧ lim.maxTotalBytes > 0 ∧
      Go.wrap64 (st.totalBytes + sizeBytes) > lim.maxTotalBytes then
    emit env st (totalSkip rootCID basePath)
  else
    let st :=
      if sizeBytes > 0 then { st with totalBytes := Go.wrap64 (st.totalBytes + sizeBytes) }
      else st
    match node with
    | .file _ data readErr =>
      traverseFile env st lim pol (baseResult env rootCID basePath "file" sizeBytes)
        (some (data, readErr))
    | .other _ =>
      traverseFile env st lim pol (baseResult env rootCID basePath "file" sizeBytes) none
    | .dir _ entries iterErr =>
      let d := baseResult env rootCID basePath "dir" sizeBytes
      match traverseEntries env rootCID basePath entries depth st lim pol [] with
      | (st, _, .abort e) => (st, some e)
      | (st, names, .truncated) => emit env st { d with Directory := some ⟨names, true⟩ }
      | (st, names, .exhausted) =>
        match iterErr with
        | some e => ((emit env st { d with Status := "failed", Error := e }).1, some e)
        | none => emit env st { d with Directory := some ⟨names, false⟩ }

/-- The loop `for it.Next()` of `traverse` over the entries the iterator has
still to yield; `names` is the slice `entries` collected so far.  The recursive
call of `traverse` on the child is its entry followed by the rest of it. -/
def traverseEntries (env : Env) (rootCID basePath : String) (entries : List (String × Node))
    (depth : Int) (st : traverseState) (lim : traverseLimits) (pol : filter.Policy)
    (names : List String) : traverseState × List String × LoopExit :=
  match entries with
  | [] => (st, names, .exhausted)
  | (name, child) :: rest =>
    let names := names ++ [name]
    match enter env rootCID (childPath basePath name) (Go.wrap64 (depth + 1)) st lim
        (fun st => traverseNode env rootCID (childPath basePath name) child
          (Go.wrap64 (depth + 1)) st lim pol) with
    | (st, some e) =>
      if Go.Contains e "max_" then (st, names, .truncated) else (st, names, .abort e)
    | (st, none) => traverseEntries env rootCID basePath rest depth st lim pol names

end

/-- The function `traverse`: its entry, then the rest of it. -/
def traverse (env : Env) (rootCID basePath : String) (node : Node) (depth : Int)
    (st : traverseState) (lim : traverseLimits) (pol : filter.Policy) :
    traverseState × Option String :=
  enter env rootCID basePath depth st lim
    (fun st => traverseNode env rootCID basePath node depth st lim pol)


/-- The function `depthOfPath`. -/
def depthOfPath (p : String) : Int :=
  let p := Go.TrimSpace p
  if Go.HasPrefix p "/ipfs/" then
    let p := Go.TrimPrefix p "/ipfs/"
    let parts := Go.Split (Go.Trim p '/') '/'
    if parts.length ≤ 1 then 0 else (parts.length : Int) - 1
  else (Go.Count (Go.Trim p '/') '/' : Int)

/-- The record `handleMsg` emits when the start path itself lies beyond `max_depth`. -/
def pathDepthSkip (root p : String) : FetchResultData :=
  { RootCid := root, Path := p, NodeType := "unknown", SizeBytes := 0, Mime := "", Ext := "",
    Content := some ⟨"none", ""⟩, Directory := some ⟨[], false⟩, Status := "skipped",
    SkipReason := "limit_exceeded", Error := "path depth exceeded", FetchedAt := "" }

/-- The final record `handleMsg` emits when `traverse` returned the error `err`. -/
def terminalFailed (root p err : String) : FetchResultData :=
  { RootCid := root, Path := p, NodeType := "unknown", SizeBytes := 0, Mime := "", Ext := "",
    Content := some ⟨"none", ""⟩, Directory := some ⟨[], true⟩, Status := "failed",
    SkipReason := "limit_exceeded", Error := err, FetchedAt := "" }

/-- The method `Worker.handleMsg` from the default of the start path on, for a
request whose start node resolved to `node` (lines 152-156 and 238-249): the
depth gate on the start path, the traversal from depth 0 with a fresh state, and
the terminal record when the traversal fails. -/
def handleMsg (env : Env) (root p : String) (node : Node) (lim : traverseLimits)
    (pol : filter.Policy) : traverseState × Option String :=
  let p := if p = "" then "/ipfs/" ++ root else p
  if lim.maxDepth > 0 ∧ depthOfPath p > lim.maxDepth then
    emit env traverseState.fresh (pathDepthSkip root p)
  else
    match traverse env root p node 0 traverseState.fresh lim pol with
    | (st, some e) => ((emit env st (terminalFailed root p e)).1, some e)
    | (st, none) => (st, none)

/-- The struct `countingDAGService` without its inner service: the limit, the set
`seen` of block identifiers (as their strings) and the counter. -/
structure countingDAGService where
  limit : Int
  seen : List String
  count : Int
deriving DecidableEq, Repr

/-- The function `newCountingDAG`. -/
def newCountingDAG (limit : Int) : countingDAGService := ⟨limit, [], 0⟩

/-- What a call of `countingDAGService.Get` does: it returns the context error,
it returns the error "max_dag_nodes exceeded", or it delegates to `inner.Get`
with the identifier. -/
inductive GetResult where
  | ctxErr (err : String)
  | limitErr (err : String)
  | inner (k : String)
deriving DecidableEq, Repr

/-- The method `countingDAGService.Get`; `ctxErr` is the state of the context at
the call and `k` the string of the requested identifier. -/
def countingDAGService.Get (d : countingDAGService) (ctxErr : Option String) (k : String) :
    countingDAGService × GetResult :=
  match ctxErr with
  | some e => (d, .ctxErr e)
  | none =>
    if k ∈ d.seen then (d, .inner k)
    else
      let d := { d with seen := k :: d.seen, count := Go.wrap64 (d.count + 1) }
      if d.limit > 0 ∧ d.count > d.limit then (d, .limitErr "max_dag_nodes exceeded")
      else (d, .inner k)

/-- A sequence of `Get` calls on one wrapper, each with the state of its context. -/
def countingDAGService.run (d : countingDAGService) :
    List (Option String × String) → countingDAGService × List GetResult
  | [] => (d, [])
  | (c, k) :: rest =>
    let r := d.Get c k
    let rs := countingDAGService.run r.1 rest
    (rs.1, r.2 :: rs.2)

/-- The identifiers for which a sequence of results reached the inner service. -/
def delegated : List GetResult → List String
  | [] => []
  | .inner k :: rest => k :: delegated rest
  | _ :: rest => delegated rest

/-! ### Notions used in the statements about the traversal -/

/-- The limits with every bound switched off. -/
def noLimits : traverseLimits := ⟨0, 0, 0, 0, 0⟩

/-- The policy that skips nothing. -/
def noPolicy : filter.Policy := ⟨[], [], 0⟩

/-- The number of content bytes a result carries inline. -/
def inlinedBytes (d : FetchResultData) : Nat :=
  match d.Content with
  | some c => if c.Mode = "inline" then Go.b64PayloadLen c.InlineBase64 else 0
  | none => 0

/-- The total number of content bytes a sequence of results carries inline. -/
def totalInlined (rs : List FetchResultData) : Nat := (rs.map inlinedBytes).sum

mutual

/-- The paths of a tree in depth-first pre-order: a directory before everything
beneath it, its entries in iterator order. -/
def preorder : Node → String → List String
  | .dir _ entries _, base => base :: preorderEntries entries base
  | .file _ _ _, base => [base]
  | .other _, base => [base]

/-- The pre-order paths of the entries of a directory at `base`. -/
def preorderEntries : List (String × Node) → String → List String
  | [], _ => []
  | (name, child) :: rest, base =>
    preorder child (childPath base name) ++ preorderEntries rest base

end

mutual

/-- The paths of a tree in depth-first post-order: a directory after everything
beneath it, its entries in iterator order. -/
def postorder : Node → String → List String
  | .dir _ entries _, base => postorderEntries entries base ++ [base]
  | .file _ _ _, base => [base]
  | .other _, base => [base]

/-- The post-order paths of the entries of a directory at `base`. -/
def postorderEntries : List (String × Node) → String → List String
  | [], _ => []
  | (name, child) :: rest, base =>
    postorder child (childPath base name) ++ postorderEntries rest base

end

mutual

/-- Does every size reported in the tree lie below `bound`? -/
def sizesBelow (bound : Int) : Node → Bool
  | .dir size entries _ => decide (size.getD 0 < bound) && entrySizesBelow bound entries
  | .file size _ _ => decide (size.getD 0 < bound)
  | .other size => decide (size.getD 0 < bound)

/-- Does every size reported beneath the entries lie below `bound`? -/
def entrySizesBelow (bound : Int) : List (String × Node) → Bool
  | [] => true
  | (_, child) :: rest => sizesBelow bound child && entrySizesBelow bound rest

end

/-- The budget invariant of a job with `max_total_bytes = M`: the running total
lies between the bytes inlined so far and `M`. -/
def WithinBudget (M : Int) (st : traverseState) : Prop :=
  (totalInlined st.emitted : Int) ≤ st.totalBytes ∧ st.totalBytes ≤ M

mutual

/-- Do all directory iterators of the tree complete without error? -/
def iteratorsComplete : Node → Bool
  | .dir _ entries iterErr => iterErr.isNone && entriesComplete entries
  | .file _ _ _ => true
  | .other _ => true

/-- Do all directory iterators beneath the entries complete without error? -/
def entriesComplete : List (String × Node) → Bool
  | [] => true
  | (_, child) :: rest => iteratorsComplete child && entriesComplete rest

end

/-- The entry names a result reports as iterated. -/
def reportedEntries (d : FetchResultData) : List String :=
  match d.Directory with
  | some dir => dir.Entries
  | none => []

mutual

/-- The relation "`rs` holds exactly one result for each visited node of the tree
at `base`": a node whose entries were not iterated contributes the single result
carrying its path; a directory whose entries were iterated contributes the
results of every entry, in iterator order, then its own result, which lists
exactly those entries. -/
inductive OnePerVisit : Node → String → List FetchResultData → Prop
  | leaf (node : Node) (base : String) (d : FetchResultData) :
      d.Path = base → reportedEntries d = [] → OnePerVisit node base [d]
  | dir (size : Option Int) (entries : List (String × Node)) (iterErr : Option String)
      (base : String) (rs : List FetchResultData) (d : FetchResultData) :
      OnePerEntry entries base rs → d.Path = base →
      reportedEntries d = entries.map Prod.fst →
      OnePerVisit (.dir size entries iterErr) base (rs ++ [d])

/-- The results of the entries of a directory at `base`, entry by entry. -/
inductive OnePerEntry : List (String × Node) → String → List FetchResultData → Prop
  | nil (base : String) : OnePerEntry [] base []
  | cons (name : String) (child : Node) (rest : List (String × Node)) (base : String)
      (rs₁ rs₂ : List FetchResultData) :
      OnePerVisit child (childPath base name) rs₁ → OnePerEntry rest base rs₂ →
      OnePerEntry ((name, child) :: rest) base (rs₁ ++ rs₂)

end

end fetcher

/-! ## `internal/redis`: the dedup primitive -/

namespace redis

/-- The struct `redis.Dedupe`; the TTL is a duration in nanoseconds. -/
structure Dedupe where
  Prefix : String
  TTL : Int
deriving DecidableEq, Repr

/-- The method `Dedupe.key`. -/
def Dedupe.key (d : Dedupe) (cid : String) : String := d.Prefix ++ ":" ++ cid

/-- The outcome of one `SETNX` round-trip as the key-value store decides it: it
answers, or the call fails with an error, the write having been applied or not. -/
inductive Reply where
  | answered
  | failed (err : String) (applied : Bool)
deriving DecidableEq, Repr

/-- The method `Dedupe.Seen` against a store whose marks do not expire: `store`
is the set of keys present. -/
def Dedupe.Seen (d : Dedupe) (reply : Reply) (store : List String) (cid : String) :
    List String × Except String Bool :=
  if cid = "" then (store, .error "cid required")
  else
    let d := if d.Prefix = "" then { d with Prefix := "ipfsniffer:seen" } else d
    let d := if d.TTL = 0 then { d with TTL := 24 * 3600 * 1000000000 } else d
    match reply with
    | .failed e applied =>
      (if applied ∧ d.key cid ∉ store then d.key cid :: store else store,
        .error ("redis setnx: " ++ e))
    | .answered =>
      if d.key cid ∈ store then (store, .ok true) else (d.key cid :: store, .ok false)

end redis

/-! ## `internal/enqueue`: Fetch-Enqueue -/

namespace enqueue

/-- The struct `FetchDefaults`; the timeout is a duration in nanoseconds. -/
structure FetchDefaults where
  MaxTotalBytes : Int
  MaxFileBytes : Int
  MaxDAGNodes : Int
  MaxDepth : Int
  Timeout : Int
deriving DecidableEq, Repr

/-- The struct `FetchPolicyDefaults`. -/
structure FetchPolicyDefaults where
  SkipExt : List String
  SkipMimePrefix : List String
deriving DecidableEq, Repr

/-- The configuration fields of the struct `FetchEnqueuer`. -/
structure FetchEnqueuer where
  Dedupe : redis.Dedupe
  Limits : FetchDefaults
  Policy : FetchPolicyDefaults
  InlineMaxBytes : Int
deriving DecidableEq, Repr

/-- The message `FetchRequestData` together with the trace of its envelope. -/
structure FetchRequest where
  Trace : Option String
  RootCid : String
  Path : String
  ObservedAt : String
  MaxTotalBytes : Int
  MaxFileBytes : Int
  MaxDagNodes : Int
  MaxDepth : Int
  TimeoutMs : Int
  SkipExt : List String
  SkipMimePrefix : List String
  InlineMaxBytes : Int
deriving DecidableEq, Repr

/-- The message `CidDiscoveredData`. -/
structure CidDiscoveredData where
  Cid : String
  Source : String
  SourceDetail : String
  PeerId : String
  ObservedAt : String
deriving DecidableEq, Repr

/-- An inbound `cid.discovered` message: a payload that does not decode, or an
envelope with its trace and its (possibly nil) data. -/
inductive Inbound where
  | malformed (err : String)
  | envelope (trace : Option String) (data : Option CidDiscoveredData)
deriving DecidableEq, Repr

/-- The collaborators of the worker: the reply of the key-value store to each
`SETNX`, by call number, and the outcome of each publish on `fetch.request`, by
attempt number. -/
structure Env where
  redisReply : Nat → redis.Reply
  publishErr : Nat → Option String

/-- The world the worker acts on: the keys present in the store, the number of
`SETNX` calls made, the requests handed to `Publish` on `fetch.request` (in
order), and those handed to `PublishDLQ`. -/
structure World where
  store : List String
  redisCalls : Nat
  requests : List FetchRequest
  dlq : List FetchRequest
deriving DecidableEq, Repr

/-- The function `normalizeToFetchTarget`. -/
def normalizeToFetchTarget (s : String) : String × String :=
  let s := Go.TrimSpace s
  if s = "" then ("", "")
  else if Go.HasPrefix s "/ipfs/" then
    let rest := Go.TrimPrefix s "/ipfs/"
    let parts := Go.SplitN2 rest '/'
    let root := parts.headD ""
    if root = "" then ("", "") else (root, s)
  else if Go.HasPrefix s "bafy" || Go.HasPrefix s "Qm" then (s, "/ipfs/" ++ s)
  else ("", "")

/-- The method `FetchEnqueuer.enqueueFetch`. -/
def enqueueFetch (env : Env) (w : FetchEnqueuer) (world : World) (trace : Option String)
    (rootCID path observedAt : String) : World × Option String :=
  let key := rootCID ++ ":" ++ path
  let r := w.Dedupe.Seen (env.redisReply world.redisCalls) world.store key
  let world := { world with store := r.1, redisCalls := world.redisCalls + 1 }
  match r.2 with
  | .error e => (world, some e)
  | .ok true => (world, none)
  | .ok false =>
    let req : FetchRequest :=
      { Trace := trace, RootCid := rootCID, Path := path, ObservedAt := observedAt,
        MaxTotalBytes := w.Limits.MaxTotalBytes, MaxFileBytes := w.Limits.MaxFileBytes,
        MaxDagNodes := w.Limits.MaxDAGNodes, MaxDepth := w.Limits.MaxDepth,
        TimeoutMs := Int.tdiv w.Limits.Timeout 1000000,
        SkipExt := w.Policy.SkipExt, SkipMimePrefix := w.Policy.SkipMimePrefix,
        InlineMaxBytes := w.InlineMaxBytes }
    match env.publishErr world.requests.length with
    | some e =>
      ({ world with requests := world.requests ++ [req], dlq := world.dlq ++ [req] },
        some ("publish fetch.request: " ++ e))
    | none => ({ world with requests := world.requests ++ [req] }, none)

/-- The method `FetchEnqueuer.handleDiscovered`. -/
def handleDiscovered (env : Env) (w : FetchEnqueuer) (world : World) (msg : Inbound) :
    World × Option String :=
  match msg with
  | .malformed e => (world, some e)
  | .envelope _ none => (world, none)
  | .envelope trace (some d) =>
    if d.Source = "dht" ∧ Go.HasPrefix d.SourceDetail "datastore_" ∧
        ¬ (Go.Contains d.SourceDetail ":providers" ∨ Go.Contains d.SourceDetail ":provider") then
      (world, none)
    else
      let cand := Go.TrimSpace d.Cid
      if cand = "" then (world, none)
      else
        let target := normalizeToFetchTarget cand
        if target.1 = "" then (world, none)
        else enqueueFetch env w world trace target.1 target.2 d.ObservedAt

/-- The loop of `Run` and `pollDiscovered` over the messages the bus delivers, a
redelivered message appearing again in the sequence. -/
def process (env : Env) (w : FetchEnqueuer) (world : World) : List Inbound → World
  | [] => world
  | m :: rest => process env w (handleDiscovered env w world m).1 rest

/-! ### Notions used in the statements about Fetch-Enqueue -/

/-- The text of `t` between the leading "/ipfs/" and the next "/". -/
def ipfsRootOf (t : String) : String :=
  String.mk ((t.data.drop 6).takeWhile (fun c => c != '/'))

/-- The key under which `Dedupe.Seen` marks the target `(root, path)`: the text
"<root>:<path>" under the prefix the worker is configured with. -/
def markKey (w : FetchEnqueuer) (rootCID path : String) : String :=
  (if w.Dedupe.Prefix = "" then "ipfsniffer:seen" else w.Dedupe.Prefix) ++ ":" ++
    (rootCID ++ ":" ++ path)

end enqueue

/-! ## `internal/nats`: subjects -/

namespace nats

/-- The constant `SubjectIndexRequest`. -/
def SubjectIndexRequest : String := "index.request"

/-- The constant `SubjectStreamChunkPrefix`. -/
def SubjectStreamChunkPrefix : String := "stream.chunk."

/-- The function `StreamChunkSubject`. -/
def StreamChunkSubject (streamID : String) : String := SubjectStreamChunkPrefix ++ streamID

/-- The function `DLQSubject`. -/
def DLQSubject (subject : String) : String := subject ++ ".dlq"

end nats

/-! ## `internal/fetcher`: the stream server -/

namespace fetcher

/-- The message `StreamGetData`. -/
structure StreamGetData where
  RootCid : String
  Path : String
  MaxBytes : Int
deriving DecidableEq, Repr

/-- The message `StreamChunkData`. -/
structure StreamChunkData where
  StreamId : String
  Seq : Int
  Data : List Nat
  Eof : Bool
  Error : String
deriving DecidableEq, Repr

/-- One call of `Publish` by the stream server: the subject and the chunk. -/
structure Publication where
  subject : String
  chunk : StreamChunkData
deriving DecidableEq, Repr

/-- An inbound `stream.get` message: a payload that does not decode, or an
envelope with its (possibly nil) data. -/
inductive StreamInbound where
  | malformed (err : String)
  | envelope (data : Option StreamGetData)
deriving DecidableEq, Repr

/-- The error of a `Read`: `io.EOF` or another error. -/
inductive ReadErr where
  | eof
  | failure (msg : String)
deriving DecidableEq, Repr

/-- The result `(n, rerr)` of a `Read`, with the bytes written to the buffer. -/
structure ReadResult where
  data : List Nat
  err : Option ReadErr
deriving DecidableEq, Repr

/-- An `io.Reader` with states of type `σ`: the result of `Read` on a buffer of
`want` bytes and the state it leaves.  The reader writes at most `want` bytes;
what `data` holds beyond that is not delivered. -/
structure Reader (σ : Type) where
  read : σ → Nat → ReadResult × σ

/-- What the path of a request leads to: an error (of `NewPath`, `ResolveNode` or
`NewUnixfsFile`), a node without a `Read` method, or a reader in its start state. -/
inductive Opened (σ : Type) where
  | failed (err : String)
  | notReadable
  | readable (rd : Reader σ) (start : σ)

/-- The collaborators of one request: the state of the context at each poll of
`ctx.Err()` and the outcome of each publish, by number. -/
structure StreamEnv where
  ctxErr : Nat → Option String
  publishErr : Nat → Option String

/-- The collaborators of a request whose context stays live and whose publishes
all succeed. -/
def StreamEnv.quiet : StreamEnv := ⟨fun _ => none, fun _ => none⟩

/-- How far `handle` got: it returned (with or without an error), or it is still
in its loop after the iterations looked at. -/
inductive Outcome where
  | returned (err : Option String)
  | running
deriving DecidableEq, Repr

/-- One `Publish` of a chunk on the subject; `log` holds the publications so far. -/
def publishChunk (env : StreamEnv) (log : List Publication) (subject : String)
    (chunk : StreamChunkData) : List Publication × Option String :=
  (log ++ [⟨subject, chunk⟩], env.publishErr log.length)

/-- The method `StreamServer.sendEOF`. -/
def sendEOF (env : StreamEnv) (log : List Publication) (subject streamID : String)
    (seq : Int) : List Publication × Option String :=
  publishChunk env log subject ⟨streamID, seq + 1, [], true, ""⟩

/-- The method `StreamServer.sendErr`. -/
def sendErr (env : StreamEnv) (log : List Publication) (subject streamID err : String) :
    List Publication × Option String :=
  publishChunk env log subject ⟨streamID, 1, [], true, err⟩

/-- The loop of `StreamServer.handle` (lines 118-158), run for at most `fuel`
iterations from the reader state `s` with the counters `sent` and `seq`.
`seq` never exceeds `sent`, which never exceeds `maxBytes`, so neither counter
leaves the `int64` range inside the loop. -/
def streamLoop {σ : Type} (env : StreamEnv) (rd : Reader σ) (subject streamID : String)
    (chunkSize maxBytes : Int) :
    Nat → σ → Int → Int → Nat → List Publication → List Publication × Outcome
  | 0, _, _, _, _, log => (log, .running)
  | fuel + 1, s, sent, seq, polls, log =>
    match env.ctxErr polls with
    | some e => (log, .returned (some e))
    | none =>
      if sent ≥ maxBytes then
        ((sendEOF env log subject streamID seq).1,
          .returned (sendEOF env log subject streamID seq).2)
      else
        let want := if maxBytes - sent < chunkSize then maxBytes - sent else chunkSize
        let r := rd.read s want.toNat
        let data := r.1.data.take want.toNat
        let step : List Publication × Int × Int × Option String :=
          if data.length > 0 then
            ((publishChunk env log subject ⟨streamID, seq + 1, data, false, ""⟩).1,
              seq + 1, sent + data.length,
              (publishChunk env log subject ⟨streamID, seq + 1, data, false, ""⟩).2)
          else (log, seq, sent, none)
        match step with
        | (log, _, _, some e) => (log, .returned (some e))
        | (log, seq, sent, none) =>
          match r.1.err with
          | none => streamLoop env rd subject streamID chunkSize maxBytes fuel r.2 sent seq
              (polls + 1) log
          | some .eof =>
            ((sendEOF env log subject streamID seq).1,
              .returned (sendEOF env log subject streamID seq).2)
          | some (.failure msg) =>
            ((sendErr env log subject streamID msg).1,
              .returned (sendErr env log subject streamID msg).2)

/-- The chunk size `Run` leaves in `s.ChunkSize` (lines 39-41). -/
def effectiveChunkSize (chunkSize : Int) : Int :=
  if chunkSize ≤ 0 then 32 * 1024 else chunkSize

/-- The method `StreamServer.handle`, its loop run for at most `fuel` iterations.
`newID` is the identifier `uuid.NewString()` yields on line 84 and `opened`
what the path of the request leads to. -/
def StreamServer.handle {σ : Type} (env : StreamEnv) (chunkSize : Int) (newID : String)
    (opened : String → Opened σ) (fuel : Nat) (msg : StreamInbound) :
    List Publication × Outcome :=
  match msg with
  | .malformed e => ([], .returned (some e))
  | .envelope data =>
    let streamID := newID
    let chunkSubject := nats.StreamChunkSubject streamID
    let p := (data.map (fun d => d.Path)).getD ""
    let maxBytes := (data.map (fun d => d.MaxBytes)).getD 0
    let maxBytes := if maxBytes ≤ 0 then 1 else maxBytes
    match opened p with
    | .failed err =>
      ((sendErr env [] chunkSubject streamID err).1,
        .returned (sendErr env [] chunkSubject streamID err).2)
    | .notReadable =>
      ((sendErr env [] chunkSubject streamID "not readable").1,
        .returned (sendErr env [] chunkSubject streamID "not readable").2)
    | .readable rd start =>
      streamLoop env rd chunkSubject streamID chunkSize maxBytes fuel start 0 0 0 []

/-! ### Notions used in the statements about the stream server -/

/-- Is the chunk a terminal message? -/
def StreamChunkData.terminal (c : StreamChunkData) : Bool := c.Eof || decide (c.Error ≠ "")

/-- The number of data bytes a sequence of publications carries. -/
def dataBytes (log : List Publication) : Nat := (log.map (fun p => p.chunk.Data.length)).sum

/-- The shape of what the loop of `handle` adds to the publications `log` when it
starts with `sent` bytes sent: data chunks `ds`, each with bytes, not more than
`maxBytes` in total, then at most one terminal message without data; a return
without error comes after a terminal message; and when the context stays live
and every publish succeeds, every return is one without error. -/
def LoopShape (env : StreamEnv) (maxBytes sent : Int) (log : List Publication)
    (r : List Publication × Outcome) : Prop :=
  ∃ ds ts, r.1 = log ++ ds ++ ts ∧
    (∀ d ∈ ds, d.chunk.Eof = false ∧ d.chunk.Error = "" ∧ d.chunk.Data ≠ []) ∧
    (ts = [] ∨ ∃ t, ts = [t] ∧ t.chunk.Eof = true ∧ t.chunk.Data = []) ∧
    (sent ≤ maxBytes → sent + (dataBytes ds : Int) ≤ maxBytes) ∧
    (r.2 = .returned none → ts ≠ []) ∧
    ((∀ k, env.ctxErr k = none) → (∀ k, env.publishErr k = none) →
      ∀ e, r.2 = .returned e → e = none)

/-- A reader following a script: each `Read` delivers the next scripted result,
and end of file once the script is used up. -/
def scriptedReader : Reader (List ReadResult) :=
  ⟨fun s _ => match s with
    | [] => (⟨[], some .eof⟩, [])
    | r :: rest => (r, rest)⟩

/-- A reader over the bytes of a file that fills each requested buffer until the
data runs out; the state is the data still to deliver.  An `eager` reader
reports end of file together with the last bytes, the other one on the next
`Read`. -/
def fillingReader (eager : Bool) : Reader (List Nat) :=
  ⟨fun rest want =>
    if rest.take want = [] then (⟨[], some .eof⟩, rest)
    else (⟨rest.take want, if eager && (rest.drop want).isEmpty then some .eof else none⟩,
      rest.drop want)⟩

/-- The pieces of `data` of `size` bytes each, the last one possibly shorter;
`fuel` bounds the number of pieces. -/
def piecesAux (size : Nat) : Nat → List Nat → List (List Nat)
  | 0, _ => []
  | fuel + 1, data =>
    if data = [] then [] else data.take size :: piecesAux size fuel (data.drop size)

/-- The pieces of `data` of `size` bytes each, the last one possibly shorter. -/
def pieces (size : Nat) (data : List Nat) : List (List Nat) := piecesAux size data.length data

/-- The data chunks carrying the given pieces on a stream, numbered from `seq + 1`. -/
def dataChunks (subject streamID : String) : Int → List (List Nat) → List Publication
  | _, [] => []
  | seq, piece :: rest =>
    ⟨subject, ⟨streamID, seq + 1, piece, false, ""⟩⟩ :: dataChunks subject streamID (seq + 1) rest

end fetcher

/-! ## `internal/extractor`: the request for a stream -/

namespace extractor

/-- The method `Worker.streamReader` when the subscription and the publish
succeed: the subject it subscribes to and the `StreamGet` it then publishes on
`stream.get`.  `newID` is the identifier `uuid.NewString()` yields on line 201. -/
def streamReader (streamMaxBytes : Int) (newID : String) (rootCID p : String)
    (maxBytes : Int) : String × fetcher.StreamGetData :=
  let maxBytes := if maxBytes ≤ 0 then streamMaxBytes else maxBytes
  let maxBytes := if maxBytes ≤ 0 then 10 * 1024 * 1024 else maxBytes
  let streamID := newID
  let chunkSubject := nats.StreamChunkSubject streamID
  (chunkSubject, ⟨rootCID, p, maxBytes⟩)

end extractor

/-! ## `internal/codec` and `internal/nats`: decoding and publishing -/

namespace codec

/-- The function `Unmarshal` for a non-nil message, relative to the library
decoder `protoUnmarshal`. -/
def Unmarshal {α : Type} (protoUnmarshal : List Nat → Except String α) (b : List Nat) :
    Except String α :=
  if b.length = 0 then .error "empty payload"
  else
    match protoUnmarshal b with
    | .error e => .error ("proto unmarshal: " ++ e)
    | .ok m => .ok m

end codec

namespace nats

/-- The function `Publish`: `log` holds the messages handed to the bus, `busErr`
is the outcome the bus gives to this one. -/
def Publish (busErr : Option String) (log : List (String × List Nat)) (subject : String)
    (payload : List Nat) : List (String × List Nat) × Option String :=
  if subject = "" then (log, some "subject required")
  else if payload.length = 0 then (log, some "payload required")
  else
    (log ++ [(subject, payload)], busErr.map (fun e => "publish " ++ subject ++ ": " ++ e))

/-- The function `PublishDLQ`. -/
def PublishDLQ (busErr : Option String) (log : List (String × List Nat)) (subject : String)
    (payload : List Nat) : List (String × List Nat) × Option String :=
  Publish busErr log (DLQSubject subject) payload

end nats

/-! ## `internal/indexer`: the indexer -/

namespace indexer

/-- A delivered message `*nats.Msg`: the delivery it stands for and its payload. -/
structure Msg where
  Delivery : Nat
  Data : List Nat
deriving DecidableEq, Repr

/-- The message `IndexRequestData`; the document is kept as its JSON text. -/
structure IndexRequestData where
  Index : String
  DocId : String
  Document : String
deriving DecidableEq, Repr

/-- One action of a bulk body: the line that names the action "index" with its
index and document id, and the document line after it. -/
structure BulkAction where
  Index : String
  Id : String
  Document : String
deriving DecidableEq, Repr

/-- The fields of `osapi.BulkRespItem` the indexer reads: the status and the type
and reason of the error, when there is one. -/
structure BulkRespItem where
  Status : Int
  Error : Option (String × String)
deriving DecidableEq, Repr

/-- The fields of `osapi.BulkResp` the indexer reads: the HTTP status code (none
when the response carries no HTTP response), the flag `errors`, and the items,
each a map from the action name to its result, given in the order in which the
runtime iterates it. -/
structure BulkResp where
  StatusCode : Option Int
  Errors : Bool
  Items : List (List (String × BulkRespItem))
deriving DecidableEq, Repr

/-- The outcome of one call of `client.Bulk`. -/
inductive BulkReply where
  | failed (err : String)
  | response (resp : BulkResp)
deriving DecidableEq, Repr

/-- The errors of `flushBatch` and of the closure `flush`. -/
inductive FlushErr where
  | bulk (err : String)
  | httpStatus (code : Int)
  | itemsMismatch (got want : Nat)
  | ackMismatch (got want : Nat)
deriving DecidableEq, Repr

/-- The local struct `bulkItem` of `flushBatch`. -/
structure bulkItem where
  msg : Msg
  id : String
deriving DecidableEq, Repr

/-- The collaborators of the indexer: the library decoder of `IndexRequest` (an
error, or the possibly nil data of the envelope), the reply of the search engine
to each bulk call, by call number, and the outcome the bus gives to each publish,
by the number of messages handed to it before. -/
structure Env where
  protoUnmarshal : List Nat → Except String (Option IndexRequestData)
  bulk : Nat → List BulkAction → BulkReply
  publishErr : Nat → Option String

/-- The first loop of `flushBatch`: the items, the bulk body and the messages
handed to the bus after the messages `msgs`. -/
def prepare (env : Env) : List Msg → List bulkItem → List BulkAction →
    List (String × List Nat) → List bulkItem × List BulkAction × List (String × List Nat)
  | [], items, body, dlq => (items, body, dlq)
  | m :: rest, items, body, dlq =>
    match codec.Unmarshal env.protoUnmarshal m.Data with
    | .error _ =>
      prepare env rest (items ++ [⟨m, ""⟩]) body
        (nats.PublishDLQ (env.publishErr dlq.length) dlq nats.SubjectIndexRequest m.Data).1
    | .ok none => prepare env rest (items ++ [⟨m, ""⟩]) body dlq
    | .ok (some d) =>
      prepare env rest (items ++ [⟨m, d.DocId⟩]) (body ++ [⟨d.Index, d.DocId, d.Document⟩]) dlq

/-- The result the last loop of `flushBatch` reads off one entry of the response:
that of the first action the iteration of the map yields, the zero value when
the map is empty. -/
def firstItem (entry : List (String × BulkRespItem)) : BulkRespItem :=
  (entry.head?.map Prod.snd).getD ⟨0, none⟩

/-- The last loop of `flushBatch`, over the items and the entries of the response
side by side. -/
def settle (env : Env) : List bulkItem → List (List (String × BulkRespItem)) → List Msg →
    List (String × List Nat) → List Msg × List (String × List Nat)
  | it :: its, entry :: entries, acks, dlq =>
    if (firstItem entry).Status ≥ 200 ∧ (firstItem entry).Status < 300 then
      settle env its entries (acks ++ [it.msg]) dlq
    else
      settle env its entries (acks ++ [it.msg])
        (nats.PublishDLQ (env.publishErr dlq.length) dlq nats.SubjectIndexRequest it.msg.Data).1
  | _, _, acks, dlq => (acks, dlq)

/-- The method `Worker.flushBatch`: the messages handed to the bus so far, and
the messages to acknowledge or the error. `reply` is the answer of the search
engine to the bulk call. -/
def flushBatch (env : Env) (reply : List BulkAction → BulkReply)
    (dlq : List (String × List Nat)) (msgs : List Msg) :
    List (String × List Nat) × Except FlushErr (List Msg) :=
  let p := prepare env msgs [] [] dlq
  match reply p.2.1 with
  | .failed e => (p.2.2, .error (.bulk e))
  | .response resp =>
    match resp.StatusCode.filter (fun code => code < 200 || code ≥ 300) with
    | some code => (p.2.2, .error (.httpStatus code))
    | none =>
      if !resp.Errors then (p.2.2, .ok (p.1.map bulkItem.msg))
      else if resp.Items.length ≠ p.1.length then
        (p.2.2, .error (.itemsMismatch resp.Items.length p.1.length))
      else
        let r := settle env p.1 resp.Items [] p.2.2
        (r.2, .ok r.1)

/-- The state of the loop of `Worker.Run`: the pending batch, the messages
acknowledged, the messages handed to the bus, and the batch behind each bulk
call made, in order. -/
structure RunState where
  batch : List Msg
  acked : List Msg
  dlq : List (String × List Nat)
  bulkCalls : List (List Msg)
deriving DecidableEq, Repr

/-- The closure `flush` of `Worker.Run`. -/
def flush (env : Env) (st : RunState) : RunState × Option FlushErr :=
  if st.batch.length = 0 then (st, none)
  else
    let r := flushBatch env (env.bulk st.bulkCalls.length) st.dlq st.batch
    let st1 := { st with dlq := r.1, bulkCalls := st.bulkCalls ++ [st.batch] }
    match r.2 with
    | .error e => (st1, some e)
    | .ok ackMsgs =>
      if ackMsgs.length ≠ st.batch.length then
        (st1, some (.ackMismatch ackMsgs.length st.batch.length))
      else ({ st1 with acked := st1.acked ++ ackMsgs, batch := [] }, none)

/-- What one turn of the loop of `Worker.Run` meets: the context is done, the
fetch times out (with the flush interval elapsed or not), the fetch fails
otherwise, or the fetch of one message delivers it. -/
inductive Event where
  | cancelled (err : String)
  | timeout (due : Bool)
  | fetchFailed (err : String)
  | message (m : Msg)
deriving DecidableEq, Repr

/-- The default of `Worker.Run` for the field `BulkMax`. -/
def effectiveBulkMax (bulkMax : Int) : Int := if bulkMax ≤ 0 then 100 else bulkMax

/-- The loop of `Worker.Run` over the turns `events`, with `bulkMax` the field
`BulkMax` after its default: the state reached, and the error returned when the
loop has returned. -/
def runLoop (env : Env) (bulkMax : Int) : RunState → List Event → RunState × Option String
  | st, [] => (st, none)
  | st, .cancelled e :: _ => (st, some e)
  | st, .fetchFailed e :: _ => (st, some e)
  | st, .timeout due :: rest =>
    if due then runLoop env bulkMax (flush env st).1 rest else runLoop env bulkMax st rest
  | st, .message m :: rest =>
    let st1 := { st with batch := st.batch ++ [m] }
    if (st1.batch.length : Int) ≥ bulkMax then runLoop env bulkMax (flush env st1).1 rest
    else runLoop env bulkMax st1 rest

/-- The method `Worker.Run` once the consumer and the subscription are set up. -/
def Worker.Run (env : Env) (BulkMax : Int) (events : List Event) : RunState × Option String :=
  runLoop env (effectiveBulkMax BulkMax) ⟨[], [], [], []⟩ events

/-! ### Notions used in the statements about the indexer -/

/-- The messages of a batch whose entry of the response has a status outside
200-299, in batch order. -/
def rejected : List Msg → List (List (String × BulkRespItem)) → List Msg
  | m :: ms, entry :: entries =>
    if 200 ≤ (firstItem entry).Status ∧ (firstItem entry).Status < 300 then rejected ms entries
    else m :: rejected ms entries
  | _, _ => []

/-- A decoder for the examples: the payload `[1, n]` is the request for the
document `doc-n`, every other payload is not a message. -/
def exampleDecoder (b : List Nat) : Except String (Option IndexRequestData) :=
  match b with
  | [1, n] => .ok (some ⟨"ipfsniffer-docs", "doc-" ++ toString n, "\x7b\x7d"⟩)
  | _ => .error "cannot parse invalid wire-format data"

end indexer

/-! ## `internal/ipnssniff` and `internal/dhtsniff`: the sniffing wrappers -/

namespace Go

/-- The pieces of a rune sequence between the runes that satisfy `f`. -/
def splitOnRunes (f : Char → Bool) : List Char → List (List Char)
  | [] => [[]]
  | c :: cs =>
    if f c then [] :: splitOnRunes f cs
    else match splitOnRunes f cs with
      | [] => [[c]]
      | h :: t => (c :: h) :: t

/-- The function `strings.FieldsFunc`: the maximal runs of runes that do not
satisfy `f`. -/
def FieldsFunc (s : String) (f : Char → Bool) : List String :=
  ((splitOnRunes f s.data).filter (fun p => !p.isEmpty)).map String.mk

end Go

namespace nats

/-- The constant `SubjectCidDiscovered`. -/
def SubjectCidDiscovered : String := "cid.discovered"

end nats

namespace ipnssniff

/-- The struct `Sniffer`: whether the bus and the key-value store are set, and
the dedup configuration. -/
structure Sniffer where
  NATS : Bool
  Redis : Bool
  Dedupe : redis.Dedupe
deriving DecidableEq, Repr

/-- The collaborators of the sniffer: the reply of the key-value store to each
`SETNX`, by call number, the outcome the bus gives to each publish on
`cid.discovered`, by attempt number, and the clock, by attempt number. -/
structure Env where
  redisReply : Nat → redis.Reply
  publishErr : Nat → Option String
  now : Nat → String

/-- The world the sniffer acts on: the keys present in the store, the number of
`SETNX` calls made, the number of publishes attempted on `cid.discovered`, the
events the bus accepted there (in order), and the events handed to `PublishDLQ`. -/
structure World where
  store : List String
  redisCalls : Nat
  attempts : Nat
  events : List enqueue.CidDiscoveredData
  dlq : List enqueue.CidDiscoveredData
deriving DecidableEq, Repr

/-- The method `Sniffer.PublishCID`. -/
def Sniffer.PublishCID (env : Env) (s : Sniffer) (w : World)
    (cidOrPath source sourceDetail peerID : String) : World × Option String :=
  if s.NATS = false ∨ s.Redis = false then (w, none)
  else
    let d : redis.Dedupe :=
      if s.Dedupe.Prefix = "" then { s.Dedupe with Prefix := "ipfsniffer:seen:cid" } else s.Dedupe
    let d : redis.Dedupe := if d.TTL = 0 then { d with TTL := 24 * 3600 * 1000000000 } else d
    let r := d.Seen (env.redisReply w.redisCalls) w.store (source ++ ":" ++ cidOrPath)
    let w := { w with store := r.1, redisCalls := w.redisCalls + 1 }
    match r.2 with
    | .error e => (w, some e)
    | .ok true => (w, none)
    | .ok false =>
      let ev : enqueue.CidDiscoveredData :=
        { Cid := cidOrPath, Source := source, SourceDetail := sourceDetail, PeerId := peerID,
          ObservedAt := env.now w.attempts }
      match env.publishErr w.attempts with
      | some e =>
        ({ w with attempts := w.attempts + 1, dlq := w.dlq ++ [ev] },
          some ("publish " ++ nats.SubjectCidDiscovered ++ ": " ++ e))
      | none => ({ w with attempts := w.attempts + 1, events := w.events ++ [ev] }, none)

/-- The library `boxo/ipns` as the sniffing code uses it: the name of a routing
key, as text, and the value of a record, as text (none when the record does not
parse or has no value). -/
structure Lib where
  nameFromRoutingKey : List Nat → Option String
  recordValue : List Nat → Option String

/-- The function `ExtractIPFSPathFromIPNSRecord`. -/
def ExtractIPFSPathFromIPNSRecord (lib : Lib) (recordBytes : List Nat) : Option String :=
  match lib.recordValue recordBytes with
  | none => none
  | some s => if Go.HasPrefix s "/ipfs/" then some s else none

/-- The function `IPNSRoutingKeyBytesToNamePath`. -/
def IPNSRoutingKeyBytesToNamePath (lib : Lib) (keyBytes : List Nat) : Option String :=
  if keyBytes.length = 0 then none
  else
    match lib.nameFromRoutingKey (Go.bytes "/ipns/" ++ keyBytes) with
    | none => none
    | some n => some ("/ipns/" ++ n)

end ipnssniff

namespace dhtsniff

/-- The type `datastore.Key`. -/
structure Key where
  string : String
deriving DecidableEq, Repr

/-- The type `query.Query`: its prefix, and its other fields as one value. -/
structure Query where
  Prefix : String
  Rest : String
deriving DecidableEq, Repr

/-- A call on the inner datastore, with its arguments. -/
inductive Op where
  | get (key : Key)
  | has (key : Key)
  | getSize (key : Key)
  | query (q : Query)
  | put (key : Key) (value : List Nat)
  | delete (key : Key)
deriving DecidableEq, Repr

/-- The libraries the wrapper calls: the segments of a key (`Key.List`), the key
of a text (`datastore.NewKey`), the raw standard base32 decoder, the CID parser
on bytes and on text (returning the text of the CID, and whether the text is a
CID), the Unicode case table, and the IPNS library. -/
structure Lib where
  keyList : Key → List String
  newKey : String → Key
  base32Decode : String → Option (List Nat)
  cidFromBytes : List Nat → Option String
  cidDecode : String → Bool
  lowerTable : Char → Char
  ipns : ipnssniff.Lib

/-- The world of the wrapper: that of its sniffer, and the calls made on the
inner datastore, in order. -/
structure World where
  sniff : ipnssniff.World
  calls : List Op
deriving DecidableEq, Repr

/-- The struct `PublishingDatastore`: the inner datastore, which answers a call
given the calls made before with a result and error of type `ρ`, and the sniffer,
if any. -/
structure PublishingDatastore (ρ : Type) where
  Inner : List Op → Op → ρ
  Sniff : Option ipnssniff.Sniffer

/-- The loop of `extractCIDStrings` over the fields; a field is in `seen` exactly
when it is in `out`. -/
def extractLoop (cidDecode : String → Bool) : List String → List String → List String
  | [], out => out
  | f :: rest, out =>
    if Go.TrimSpace f = "" then extractLoop cidDecode rest out
    else if Go.TrimSpace f ∈ out then extractLoop cidDecode rest out
    else if cidDecode (Go.TrimSpace f) = false then extractLoop cidDecode rest out
    else extractLoop cidDecode rest (out ++ [Go.TrimSpace f])

/-- The function `extractCIDStrings`. -/
def extractCIDStrings (cidDecode : String → Bool) (s : String) : List String :=
  if s = "" then []
  else
    extractLoop cidDecode
      (Go.FieldsFunc s (fun r => r == '/' || r == ':' || r == '_' || r == '-' || r == '.')) []

/-- One statement `_ = s.Sniff.PublishCID(ctx, c, source, detail, "")`. -/
def publish (env : ipnssniff.Env) (sn : ipnssniff.Sniffer) (w : World)
    (c source detail : String) : World :=
  { w with sniff := (sn.PublishCID env w.sniff c source detail "").1 }

/-- The fallback of `sniffKey`: the candidate taken as text. -/
def fallback (lib : Lib) (env : ipnssniff.Env) (sn : ipnssniff.Sniffer) (w : World)
    (op ns cand : String) : World :=
  (extractCIDStrings lib.cidDecode (Go.ToLower lib.lowerTable cand)).foldl
    (fun w c => publish env sn w c "dht" ("datastore_" ++ op ++ ":" ++ ns)) w

/-- The method `PublishingDatastore.sniffKey` on a non-nil receiver. -/
def PublishingDatastore.sniffKey {ρ : Type} (lib : Lib) (env : ipnssniff.Env)
    (s : PublishingDatastore ρ) (w : World) (op : String) (key : Key) (value : List Nat) :
    World :=
  match s.Sniff with
  | none => w
  | some sn =>
    match lib.keyList key with
    | [] => w
    | [_] => w
    | ns :: cand :: _ =>
      if ¬ (ns = "providers" ∨ ns = "provider" ∨ ns = "ipns" ∨ ns = "pk") then w
      else if cand = "" then w
      else
        match lib.base32Decode cand with
        | none => fallback lib env sn w op ns cand
        | some byts =>
          match lib.cidFromBytes byts with
          | some id => publish env sn w id "dht" ("datastore_" ++ op ++ ":" ++ ns)
          | none =>
            if ns = "ipns" then
              let w1 :=
                match ipnssniff.IPNSRoutingKeyBytesToNamePath lib.ipns byts with
                | some namePath =>
                  publish env sn w namePath "ipns-dht" ("datastore_" ++ op ++ ":routing_key")
                | none => w
              let w2 :=
                if value.length > 0 then
                  match ipnssniff.ExtractIPFSPathFromIPNSRecord lib.ipns value with
                  | some ipfsPath =>
                    publish env sn w1 ipfsPath "ipns-dht" ("datastore_" ++ op ++ ":record_value")
                  | none => w1
                else w1
              fallback lib env sn w2 op ns cand
            else fallback lib env sn w op ns cand

/-- The call of the inner datastore and the return of its result. -/
def PublishingDatastore.delegate {ρ : Type} (s : PublishingDatastore ρ) (w : World) (op : Op) :
    World × ρ :=
  ({ w with calls := w.calls ++ [op] }, s.Inner w.calls op)

/-- The method `PublishingDatastore.Get`. -/
def PublishingDatastore.Get {ρ : Type} (lib : Lib) (env : ipnssniff.Env)
    (s : PublishingDatastore ρ) (w : World) (key : Key) : World × ρ :=
  s.delegate (s.sniffKey lib env w "get" key []) (.get key)

/-- The method `PublishingDatastore.Has`. -/
def PublishingDatastore.Has {ρ : Type} (lib : Lib) (env : ipnssniff.Env)
    (s : PublishingDatastore ρ) (w : World) (key : Key) : World × ρ :=
  s.delegate (s.sniffKey lib env w "has" key []) (.has key)

/-- The method `PublishingDatastore.GetSize`. -/
def PublishingDatastore.GetSize {ρ : Type} (lib : Lib) (env : ipnssniff.Env)
    (s : PublishingDatastore ρ) (w : World) (key : Key) : World × ρ :=
  s.delegate (s.sniffKey lib env w "getsize" key []) (.getSize key)

/-- The method `PublishingDatastore.Query`. -/
def PublishingDatastore.Query {ρ : Type} (lib : Lib) (env : ipnssniff.Env)
    (s : PublishingDatastore ρ) (w : World) (q : Query) : World × ρ :=
  s.delegate
    (if q.Prefix ≠ "" then s.sniffKey lib env w "query" (lib.newKey q.Prefix) [] else w)
    (.query q)

/-- The method `PublishingDatastore.Put`. -/
def PublishingDatastore.Put {ρ : Type} (lib : Lib) (env : ipnssniff.Env)
    (s : PublishingDatastore ρ) (w : World) (key : Key) (value : List Nat) : World × ρ :=
  s.delegate (s.sniffKey lib env w "put" key value) (.put key value)

/-- The method `PublishingDatastore.Delete`. -/
def PublishingDatastore.Delete {ρ : Type} (lib : Lib) (env : ipnssniff.Env)
    (s : PublishingDatastore ρ) (w : World) (key : Key) : World × ρ :=
  s.delegate (s.sniffKey lib env w "delete" key []) (.delete key)

/-! ### Notions used in the statements about the wrapper -/

/-- The namespaces `sniffKey` looks at. -/
def sniffedNamespace (ns : String) : Prop :=
  ns = "providers" ∨ ns = "provider" ∨ ns = "ipns" ∨ ns = "pk"

/-- Whether a namespace is admitted can be computed. -/
instance sniffedNamespace.decidable (ns : String) : Decidable (sniffedNamespace ns) := by
  unfold sniffedNamespace
  exact inferInstance

/-- The key under which `PublishCID` marks `(source, cidOrPath)`. -/
def markKey (sn : ipnssniff.Sniffer) (source cidOrPath : String) : String :=
  (if sn.Dedupe.Prefix = "" then "ipfsniffer:seen:cid" else sn.Dedupe.Prefix) ++ ":" ++
    (source ++ ":" ++ cidOrPath)

/-- An instance of the libraries for the examples: keys are split at "/", the one
base32 text "AFKQAAA" decodes to the bytes of the CID "bafkqaaa", and nothing
else decodes. -/
def exampleLib : Lib where
  keyList k := (Go.Split k.string '/').drop 1
  newKey s := ⟨s⟩
  base32Decode s := if s = "AFKQAAA" then some [1, 85, 0, 0] else none
  cidFromBytes b := if b = [1, 85, 0, 0] then some "bafkqaaa" else none
  cidDecode _ := false
  lowerTable c := c
  ipns := ⟨fun _ => none, fun _ => none⟩

/-- Collaborators for the examples: the store answers, the bus accepts. -/
def exampleEnv : ipnssniff.Env := ⟨fun _ => .answered, fun _ => none, fun _ => "t"⟩

end dhtsniff

namespace fetcher

/-- A result whose mime is empty and whose skip reason is not "mime_denied". -/
def NoMime (d : FetchResultData) : Prop := d.Mime = "" ∧ d.SkipReason ≠ "mime_denied"

end fetcher

/-! ## `internal/cidutil` -/

namespace cidutil

/-- The class `\w` of the regular expression: the ASCII word characters. -/
def isWordChar (c : Char) : Bool :=
  (0x30 ≤ c.toNat && c.toNat ≤ 0x39) || (0x41 ≤ c.toNat && c.toNat ≤ 0x5A) ||
  (0x61 ≤ c.toNat && c.toNat ≤ 0x7A) || c.toNat == 0x5F

/-- The class `[a-z0-9]` of the regular expression `cidLikeRe`. -/
def inClass (c : Char) : Bool :=
  (0x61 ≤ c.toNat && c.toNat ≤ 0x7A) || (0x30 ≤ c.toNat && c.toNat ≤ 0x39)

/-- Whether the rune at one side of a position, if any, is a word character. -/
def isWordAt (o : Option Char) : Bool :=
  match o with
  | some c => isWordChar c
  | none => false

/-- The assertion `\b` between the rune before a position and the rune after it:
a word character on exactly one side. -/
def wordBoundary (before after : Option Char) : Bool := isWordAt before != isWordAt after

/-- The end of a match of `[a-z0-9]{10,}\b` that starts at the head of `rest`: the
greedy repetition has taken `k` runes of the class and gives them back one at a
time while the closing `\b` fails or fewer than 10 would remain. -/
def matchEnd (rest : List Char) : Nat → Option Nat
  | 0 => none
  | k + 1 =>
    if k + 1 < 10 then none
    else if wordBoundary rest[k]? rest[k + 1]? then some (k + 1)
    else matchEnd rest k

/-- The match of `cidLikeRe` that starts at the head of `rest`, the rune before it
being `before`: its length, if there is one. -/
def matchAt (before : Option Char) (rest : List Char) : Option Nat :=
  if wordBoundary before rest.head? then matchEnd rest (rest.takeWhile inClass).length
  else none

/-- The search of `FindAllStringSubmatch(s, -1)` from left to right: `skip` runes
of the last match are still to be passed, `before` is the rune before the
position; a match is looked for at each position in turn and the search resumes
at the end of a match. -/
def scan : Nat → Option Char → List Char → List (List Char)
  | _, _, [] => []
  | skip + 1, _, c :: cs => scan skip (some c) cs
  | 0, before, c :: cs =>
    match matchAt before (c :: cs) with
    | some k => (c :: cs).take k :: scan (k - 1) (some c) cs
    | none => scan 0 (some c) cs

/-- The call `cidLikeRe.FindAllStringSubmatch(s, -1)`: for each match the matched
text and the text of the one group, which spans the whole match. -/
def FindAllStringSubmatch (s : String) : List (List String) :=
  (scan 0 none s.data).map (fun m => [String.mk m, String.mk m])

/-- The loop of `ExtractCIDStrings` over the matches; a candidate is in `seen`
exactly when it is in `out`. -/
def extractLoop (cidDecode : String → Bool) : List (List String) → List String → List String
  | [], out => out
  | m :: rest, out =>
    if m.length < 2 then extractLoop cidDecode rest out
    else if m.getD 1 "" ∈ out then extractLoop cidDecode rest out
    else if cidDecode (m.getD 1 "") = false then extractLoop cidDecode rest out
    else extractLoop cidDecode rest (out ++ [m.getD 1 ""])

/-- The function `ExtractCIDStrings`, relative to the library parser `cid.Decode`
(whether a text decodes as a CID). -/
def ExtractCIDStrings (cidDecode : String → Bool) (s : String) : List String :=
  if s = "" then []
  else if (FindAllStringSubmatch s).length = 0 then []
  else extractLoop cidDecode (FindAllStringSubmatch s) []

/-! ### Notions used in the statements about `ExtractCIDStrings` -/

/-- The tokens of a text that match the CID-like pattern, in order. -/
def cidLikeTokens (s : String) : List String := (scan 0 none s.data).map String.mk

/-- The distinct elements of a list, each once, in order of first occurrence. -/
def keepFirst : List String → List String
  | [] => []
  | a :: l => a :: (keepFirst l).filter (fun x => x != a)

/-- The CID of the test `TestExtractCIDStrings`. -/
def testCid : String := "bafkreibm6jg3ux5qumhcn2b3flc3tyu6dmlb4xa7u5bf44yegnrjhc4yeq"

end cidutil

/-! ## `internal/tika`: the client of the extraction service -/

namespace tika

/-- The struct `Client`, without its HTTP client. -/
structure Client where
  BaseURL : String
deriving DecidableEq, Repr

/-- The struct `ExtractResult`. -/
structure ExtractResult where
  Text : List Nat
  Truncated : Bool
deriving DecidableEq, Repr

/-- The request `ExtractText` hands to the HTTP client: method, URL, the header
`Accept`, the body, and the timeout of its context, if one is set. -/
structure Request where
  Method : String
  URL : String
  Accept : String
  Body : List Nat
  Timeout : Option Int
deriving DecidableEq, Repr

/-- A response as `ExtractText` reads it: the status code and the body, which
delivers `Body` and then ends with end of file or with the read error `BodyErr`. -/
structure Response where
  StatusCode : Int
  Body : List Nat
  BodyErr : Option String
deriving DecidableEq, Repr

/-- The errors `ExtractText` returns. -/
inductive Error where
  | baseURLRequired
  | maxTextBytesRequired
  | request (err : String)
  | transport (err : String)
  | status (code : Int) (body : List Nat)
  | read (err : String)
deriving DecidableEq, Repr

/-- The outcome of `ExtractText`. -/
inductive Outcome where
  | failed (err : Error)
  | ok (res : ExtractResult)
deriving DecidableEq, Repr

/-- The collaborators: whether `http.NewRequestWithContext` refuses a URL, and the
answer of the HTTP client to a request. -/
structure Env where
  newRequestErr : String → Option String
  roundTrip : Request → Except String Response

/-- The call `io.ReadAll(io.LimitReader(body, n))` on a body that delivers `data`
and then ends with end of file or with `err`: nothing is read when `n ≤ 0`, the
read stops at the limit when the data reaches it, and otherwise meets the end of
the body. -/
def readAllLimited (data : List Nat) (err : Option String) (n : Int) :
    Except String (List Nat) :=
  if n ≤ 0 then .ok []
  else if n ≤ data.length then .ok (data.take n.toNat)
  else
    match err with
    | none => .ok data
    | some e => .error e

/-- The method `Client.ExtractText`: the requests handed to the HTTP client, and
the outcome. The limit `maxTextBytes+1` is computed in `int64`. -/
def Client.ExtractText (env : Env) (c : Client) (r : List Nat) (timeout maxTextBytes : Int) :
    List Request × Outcome :=
  if c.BaseURL = "" then ([], .failed .baseURLRequired)
  else if maxTextBytes ≤ 0 then ([], .failed .maxTextBytesRequired)
  else
    match env.newRequestErr (c.BaseURL ++ "/tika") with
    | some e => ([], .failed (.request e))
    | none =>
      let req : Request :=
        ⟨"PUT", c.BaseURL ++ "/tika", "text/plain", r, if timeout > 0 then some timeout else none⟩
      match env.roundTrip req with
      | .error e => ([req], .failed (.transport e))
      | .ok resp =>
        if resp.StatusCode < 200 ∨ resp.StatusCode ≥ 300 then
          ([req], .failed (.status resp.StatusCode
            (match readAllLimited resp.Body resp.BodyErr 4096 with
              | .ok b => b
              | .error _ => resp.Body)))
        else
          match readAllLimited resp.Body resp.BodyErr (Go.wrap64 (maxTextBytes + 1)) with
          | .error e => ([req], .failed (.read e))
          | .ok out =>
            if (out.length : Int) > maxTextBytes then
              ([req], .ok ⟨out.take maxTextBytes.toNat, true⟩)
            else ([req], .ok ⟨out, false⟩)

/-- A service for the examples: every URL is accepted and every request is
answered with status 200 and the body "hello world". -/
def exampleEnv : Env :=
  ⟨fun _ => none, fun _ => .ok ⟨200, [104, 101, 108, 108, 111, 32, 119, 111, 114, 108, 100], none⟩⟩

end tika

/-! ## `internal/search`: the search client -/

namespace search

/-- The struct `SearchParams`; the field `Sort` is named `SortParam` here. -/
structure SearchParams where
  Q : String
  From : Int
  Size : Int
  RootCID : String
  Path : String
  Mime : String
  Ext : String
  Source : String
  SortParam : String
deriving DecidableEq, Repr

/-- The method `SearchParams.Normalize`. -/
def SearchParams.Normalize (p : SearchParams) : SearchParams :=
  let p := { p with Q := Go.TrimSpace p.Q, RootCID := Go.TrimSpace p.RootCID,
                    Path := Go.TrimSpace p.Path, Mime := Go.TrimSpace p.Mime,
                    Ext := Go.TrimSpace p.Ext, Source := Go.TrimSpace p.Source,
                    SortParam := Go.TrimSpace p.SortParam }
  let p := if p.From < 0 then { p with From := 0 } else p
  let p := if p.Size ≤ 0 then { p with Size := 20 } else p
  if p.Size > 100 then { p with Size := 100 } else p

/-- One sort clause of a search body: the field and its order. -/
structure SortClause where
  Field : String
  Order : String
deriving DecidableEq, Repr

/-- The errors of `parseSort`: "sort: field required", "sort: unsupported field"
with the field, and "sort: dir must be asc or desc". -/
inductive SortError where
  | fieldRequired
  | unsupportedField (field : String)
  | dirInvalid
deriving DecidableEq, Repr

/-- The function `parseSort`, relative to the Unicode case table `tbl`; the nil
slice is the empty list. -/
def parseSort (tbl : Char → Char) (p : SearchParams) : Except SortError (List SortClause) :=
  if Go.TrimSpace p.SortParam = "" ∧ Go.TrimSpace p.Q ≠ "" then .ok []
  else
    let sort := if Go.TrimSpace p.SortParam = "" then "processed_at:desc" else Go.TrimSpace p.SortParam
    let field :=
      Go.TrimSpace (if Go.Contains sort ":" then (Go.SplitN2 sort ':').getD 0 "" else sort)
    let dir := Go.ToLower tbl
      (Go.TrimSpace (if Go.Contains sort ":" then (Go.SplitN2 sort ':').getD 1 "" else "asc"))
    if field = "" then .error .fieldRequired
    else if ¬ (field = "processed_at" ∨ field = "size_bytes") then
      .error (.unsupportedField field)
    else if dir ≠ "asc" ∧ dir ≠ "desc" then .error .dirInvalid
    else .ok [⟨field, dir⟩]

/-- The error values `Search` returns: a plain error with its text, an error of
`parseSort`, the error for an HTTP status, an error of the transport, and the
result of `errors.Join` on two errors. -/
inductive Error where
  | text (msg : String)
  | sort (err : SortError)
  | httpStatus (code : Int)
  | transport (err : String)
  | join (a b : Error)
deriving DecidableEq, Repr

/-- The function `errors.Is` on these values. -/
def Error.Is : Error → Error → Bool
  | .join a b, target => decide (Error.join a b = target) || a.Is target || b.Is target
  | .text msg, target => decide (Error.text msg = target)
  | .sort e, target => decide (Error.sort e = target)
  | .httpStatus code, target => decide (Error.httpStatus code = target)
  | .transport e, target => decide (Error.transport e = target)

/-- The function `IsBadRequest`, relative to the sentinel `ErrBadRequest`. -/
def IsBadRequest (ErrBadRequest : Error) (err : Error) : Bool := err.Is ErrBadRequest

/-- The struct `Client`: whether the search engine client is set, and the index. -/
structure Client where
  OS : Bool
  Index : String
deriving DecidableEq, Repr

/-- The query `buildQuery` builds: the free text, if any (otherwise match_all),
and the filters, each with its kind, field and value. -/
structure Query where
  Text : Option String
  Filter : List (String × String × String)
deriving DecidableEq, Repr

/-- The function `buildQuery`. -/
def buildQuery (p : SearchParams) : Query :=
  ⟨if p.Q ≠ "" then some p.Q else none,
   (if p.RootCID ≠ "" then [("term", "root_cid", p.RootCID)] else []) ++
   (if p.Path ≠ "" then [("prefix", "path", p.Path)] else []) ++
   (if p.Mime ≠ "" then [("term", "mime", p.Mime)] else []) ++
   (if p.Ext ≠ "" then [("term", "ext", p.Ext)] else []) ++
   (if p.Source ≠ "" then [("term", "sources", p.Source)] else [])⟩

/-- The body of the search request as far as it depends on the parameters; the
key "sort" is present only for a non-nil sort. -/
structure SearchBody where
  From : Int
  Size : Int
  Query : Query
  SortSpec : Option (List SortClause)
deriving DecidableEq, Repr

/-- The response of the search engine as `Search` reads it: the HTTP status, if
there is an HTTP response, the total and the hits. -/
structure ApiResponse (H : Type) where
  StatusCode : Option Int
  Total : Int
  Hits : List H

/-- The struct `SearchResult`. -/
structure SearchResult (H : Type) where
  Total : Int
  From : Int
  Size : Int
  Hits : List H

/-- The method `Client.Search`, relative to the case table, the sentinel
`ErrBadRequest` and the search engine, which answers a body sent to an index. -/
def Client.Search {H : Type} (tbl : Char → Char) (ErrBadRequest : Error)
    (api : String → SearchBody → Except Error (ApiResponse H)) (c : Client)
    (p : SearchParams) : Except Error (SearchResult H) :=
  if c.OS = false then .error (.text "opensearch client required")
  else if c.Index = "" then .error (.text "index required")
  else
    match parseSort tbl p.Normalize with
    | .error e => .error (.join ErrBadRequest (.sort e))
    | .ok sortSpec =>
      match api c.Index ⟨p.Normalize.From, p.Normalize.Size, buildQuery p.Normalize,
          if sortSpec = [] then none else some sortSpec⟩ with
      | .error e => .error e
      | .ok resp =>
        match resp.StatusCode.filter (fun code => code < 200 || code ≥ 300) with
        | some code => .error (.httpStatus code)
        | none => .ok ⟨resp.Total, p.Normalize.From, p.Normalize.Size, resp.Hits⟩

end search

/-! ## `internal/ipnssniff`: the validator wrapper -/

namespace ipnssniff

/-- A value of the interface `record.Validator`: a validator of the host, known
by reference; a `*SniffingValidator` with its fields; or a
`record.NamespacedValidator`, a map, known by the address of its table. -/
inductive Validator where
  | host (ref : Nat)
  | sniffing (Inner : Validator) (Sniff : Option Sniffer)
  | namespaced (addr : Nat)
deriving DecidableEq, Repr

/-- The bindings of a map from namespaces to validators (which may be nil). -/
abbrev Table := List (String × Option Validator)

/-- The read `v, ok := m[k]`. -/
def mapGet (m : Table) (k : String) : Option (Option Validator) := List.lookup k m

/-- The write `m[k] = v`: the binding of `k` is replaced, or added. -/
def mapSet : Table → String → Option Validator → Table
  | [], k, v => [(k, v)]
  | (k0, v0) :: rest, k, v =>
    if k0 = k then (k, v) :: rest else (k0, v0) :: mapSet rest k v

/-- The loop `for k, v := range nv` with the body `out[k] = v`, over the bindings
still to come. -/
def copyInto (out : Table) : Table → Table
  | [] => out
  | (k, v) :: rest => copyInto (mapSet out k v) rest

/-- The function `WrapIPNSValidator`, on the heap of the tables allocated so far
(a map value is the address of its table): the heap afterwards and the validator
returned. -/
def WrapIPNSValidator (heap : List Table) (inner : Option Validator) (sniff : Option Sniffer) :
    List Table × Option Validator :=
  match inner with
  | none => (heap, none)
  | some (.namespaced addr) =>
    let out := copyInto [] (heap.getD addr [])
    match mapGet out "ipns" with
    | some (some ipnsv) =>
      (heap ++ [mapSet out "ipns" (some (.sniffing ipnsv sniff))],
        some (.namespaced heap.length))
    | _ => (heap ++ [out], some (.namespaced heap.length))
  | some v => (heap, some (.sniffing v sniff))

end ipnssniff

end IPFSniffer

/-! # Theorems -/

namespace IPFSniffer

/-- A digest has 32 bytes. -/
theorem Sha256.Sum256_length (msg : List Nat) : (Sha256.Sum256 msg).length = 32 := by
  simp [Sha256.Sum256, Sha256.wordBytes]

/-- Every table lookup yields a hexadecimal digit. -/
theorem Hex.getD_mem_hextable (i : Nat) : Hex.hextable.getD i '0' ∈ Hex.hextable := by
  by_cases h : i < 16
  · interval_cases i <;> decide
  · have : Hex.hextable.length ≤ i := by simp [Hex.hextable]; omega
    rw [List.getD_eq_default _ _ this]; decide

/-- Hex encoding doubles the length. -/
theorem Hex.flatMap_encodeByte_length (src : List Nat) :
    (src.flatMap Hex.encodeByte).length = 2 * src.length := by
  induction src with
  | nil => rfl
  | cons v vs ih => simp [List.flatMap_cons, Hex.encodeByte, ih]; omega

/-- Hex encoding yields hexadecimal digits only. -/
theorem Hex.mem_flatMap_encodeByte (src : List Nat) (c : Char)
    (h : c ∈ src.flatMap Hex.encodeByte) : c ∈ Hex.hextable := by
  simp only [List.mem_flatMap, Hex.encodeByte, List.mem_cons, List.mem_singleton, List.not_mem_nil, or_false] at h
  obtain ⟨v, _, hc | hc⟩ := h <;> (rw [hc]; exact Hex.getD_mem_hextable _)

/-- C1. -/
theorem doc_id_is_hex_sha256 (rootCID path : String) :
    docid.ForRootAndPath rootCID path
        = Hex.EncodeToString (Sha256.Sum256 (Go.bytes rootCID ++ [0x3A] ++ Go.bytes path)) ∧
    indexprep.deterministicID rootCID path = docid.ForRootAndPath rootCID path ∧
    (docid.ForRootAndPath rootCID path).length = 64 ∧
    ∀ c ∈ (docid.ForRootAndPath rootCID path).data, c ∈ "0123456789abcdef".data := by
  refine ⟨?_, rfl, ?_, ?_⟩
  · simp [docid.ForRootAndPath, Go.bytes, Go.utf8Rune]
  · show (List.flatMap _ Hex.encodeByte).length = 64
    rw [Hex.flatMap_encodeByte_length, Sha256.Sum256_length]
  · intro c hc
    exact Hex.mem_flatMap_encodeByte _ c hc

set_option maxRecDepth 100000 in
/-- The document id of scenario E1, evaluated. -/
theorem doc_id_scenario_E1 :
    docid.ForRootAndPath "bafyroot" "/ipfs/bafyroot/index.html"
      = "6c6818fcdfe2dc504a373bce014fcf77343bc1daea912b7e8c872b0ede01e7ca" := by decide

namespace fetcher

/-- C2 (failing input): with `max_total_bytes = 3` and `inline_max_bytes = 4`, two
directories reporting sizes `2^63 - 1` and `2^63 - 5` wrap the running total
from 2 to -4, and the two files around them inline 1 + 3 = 4 bytes. -/
theorem inlined_total_exceeds_budget :
    totalInlined (traverse Env.quiet "r" "/ipfs/r"
      (.dir none
        [("a", .file (some 1) [7] none),
         ("g1", .dir (some (2 ^ 63 - 1)) [] none),
         ("g2", .dir (some (2 ^ 63 - 5)) [] none),
         ("b", .file (some 3) [8, 9, 10] none)] none)
      0 traverseState.fresh { noLimits with maxTotalBytes := 3, inlineMaxBytes := 4 }
      noPolicy).1.emitted = 4 := by
  decide!

/-- C3 (counterexample): for a directory with one file the result of the file is
emitted first and the result of the directory last, which is not pre-order. -/
theorem traverse_not_preorder :
    (traverse Env.quiet "r" "/ipfs/r" (.dir none [("a", .file none [] none)] none)
      0 traverseState.fresh noLimits noPolicy).1.emitted.map (fun d => d.Path)
      = ["/ipfs/r/a", "/ipfs/r"] ∧
    preorder (.dir none [("a", .file none [] none)] none) "/ipfs/r" = ["/ipfs/r", "/ipfs/r/a"] ∧
    ¬ ((traverse Env.quiet "r" "/ipfs/r" (.dir none [("a", .file none [] none)] none)
      0 traverseState.fresh noLimits noPolicy).1.emitted.map (fun d => d.Path)).Sublist
        (preorder (.dir none [("a", .file none [] none)] none) "/ipfs/r") := by
  decide

/-- C4 (counterexample): from the start path "/ipfs/r/" the entry "a" is reported
at "/ipfs/r/a"; no result carries the parent path followed by "/" and the name. -/
theorem child_path_not_plain_concat :
    (traverse Env.quiet "r" "/ipfs/r/" (.dir none [("a", .file none [] none)] none)
      0 traverseState.fresh noLimits noPolicy).1.emitted.map (fun d => d.Path)
      = ["/ipfs/r/a", "/ipfs/r/"] ∧
    "/ipfs/r/" ++ "/" ++ "a" ∉
      (traverse Env.quiet "r" "/ipfs/r/" (.dir none [("a", .file none [] none)] none)
        0 traverseState.fresh noLimits noPolicy).1.emitted.map (fun d => d.Path) := by
  decide

/-- C5 (failing inputs): a limit is exceeded and no terminal record follows.  With
`max_depth = 1` the directory "a/b" at depth 2 is reported as skipped and what
lies beneath it is not visited; with `max_total_bytes = 4` the file "a" of 5
bytes is reported as skipped and the traversal goes on to "b"; when the iterator
of the directory "x" fails with "max_dag_nodes exceeded" the parent is marked
truncated.  Each time `handleMsg` returns without error and the last result is
the root directory with status "ok"; no result has status "failed" together with
skip reason "limit_exceeded". -/
theorem limit_exceeded_without_terminal_failed :
    (handleMsg Env.quiet "r" "/ipfs/r"
      (.dir none [("a", .dir none [("b", .dir none [("c", .file none [] none)] none)] none)] none)
      { noLimits with maxDepth := 1 } noPolicy).1.emitted.map
        (fun d => (d.Path, d.Status, d.SkipReason, d.Error))
      = [("/ipfs/r/a/b", "skipped", "limit_exceeded", "max_depth exceeded"),
         ("/ipfs/r/a", "ok", "", ""),
         ("/ipfs/r", "ok", "", "")] ∧
    (handleMsg Env.quiet "r" "/ipfs/r"
      (.dir none [("a", .file (some 5) [1, 2, 3, 4, 5] none), ("b", .file (some 1) [9] none)] none)
      { noLimits with maxTotalBytes := 4 } noPolicy).1.emitted.map
        (fun d => (d.Path, d.Status, d.SkipReason, d.Error))
      = [("/ipfs/r/a", "skipped", "limit_exceeded", "max_total_bytes exceeded"),
         ("/ipfs/r/b", "ok", "", ""),
         ("/ipfs/r", "ok", "", "")] ∧
    (handleMsg Env.quiet "r" "/ipfs/r"
      (.dir none [("x", .dir none [] (some "max_dag_nodes exceeded")), ("y", .file none [] none)]
        none)
      { noLimits with maxDagNodes := 1 } noPolicy).1.emitted.map
        (fun d => (d.Path, d.Status, d.SkipReason, d.Error))
      = [("/ipfs/r/x", "failed", "", "max_dag_nodes exceeded"),
         ("/ipfs/r", "ok", "", "")] ∧
    (handleMsg Env.quiet "r" "/ipfs/r"
      (.dir none [("a", .dir none [("b", .dir none [("c", .file none [] none)] none)] none)] none)
      { noLimits with maxDepth := 1 } noPolicy).2 = none := by
  decide

/-- C7 (failing input): with limit 1, after "a" was fetched the first `Get` of "b"
is refused, but "b" is now in `seen`, so the second `Get` of "b" reaches the inner
service: two distinct identifiers are delegated. -/
theorem counting_dag_delegates_beyond_limit :
    ((newCountingDAG 1).run [(none, "a"), (none, "b"), (none, "b")]).2
      = [.inner "a", .limitErr "max_dag_nodes exceeded", .inner "b"] ∧
    (delegated ((newCountingDAG 1).run [(none, "a"), (none, "b"), (none, "b")]).2).dedup.length
      = 2 := by
  decide

/-! ### The byte budget while the running total cannot overflow -/

/-- No base64 digit is the padding rune. -/
theorem b64digit_ne_pad (n : Nat) : Go.b64digit n ≠ '=' := by
  unfold Go.b64digit
  have h : n % 64 < Go.b64table.length := by
    have : Go.b64table.length = 64 := by decide
    rw [this]; exact Nat.mod_lt _ (by decide)
  rw [List.getD_eq_getElem _ _ h]
  have hall : ∀ c ∈ Go.b64table, c ≠ '=' := by decide
  exact hall _ (List.getElem_mem h)

/-- A base64 text has `4 * k` runes and stands for `3 * k` bytes less the padding. -/
theorem b64runes_shape (bs : List Nat) :
    ∃ k, (Go.b64runes bs).length = 4 * k ∧
      ((Go.b64runes bs).filter (fun c => c == '=')).length + bs.length = 3 * k := by
  induction bs using Go.b64runes.induct with
  | case1 => exact ⟨0, rfl, rfl⟩
  | case2 a =>
    refine ⟨1, rfl, ?_⟩
    simp [Go.b64runes, List.filter_cons, b64digit_ne_pad]
  | case3 a b =>
    refine ⟨1, rfl, ?_⟩
    simp [Go.b64runes, List.filter_cons, b64digit_ne_pad]
  | case4 a b c rest ih =>
    obtain ⟨k, h1, h2⟩ := ih
    refine ⟨k + 1, ?_, ?_⟩
    · simp [Go.b64runes, h1]; omega
    · simp [Go.b64runes, List.filter_cons, b64digit_ne_pad]; omega

/-- The payload length of an encoded text is the length of the source. -/
theorem b64PayloadLen_encode (bs : List Nat) :
    Go.b64PayloadLen (Go.b64EncodeToString bs) = bs.length := by
  obtain ⟨k, h1, h2⟩ := b64runes_shape bs
  unfold Go.b64PayloadLen Go.b64EncodeToString
  simp only [h1]
  omega

/-- The wrap is the identity on the `int64` range. -/
theorem wrap64_of_range (x : Int) (h1 : -(2 ^ 63) ≤ x) (h2 : x < 2 ^ 63) : Go.wrap64 x = x := by
  unfold Go.wrap64
  rw [Int.emod_eq_of_lt (by omega) (by omega)]
  omega

/-- The inlined total after one more result. -/
theorem totalInlined_append (rs : List FetchResultData) (d : FetchResultData) :
    totalInlined (rs ++ [d]) = totalInlined rs + inlinedBytes d := by
  simp [totalInlined]

/-- Emitting a result without inline content keeps the budget invariant. -/
theorem emit_within (env : Env) (M : Int) (st : traverseState) (d : FetchResultData)
    (hd : inlinedBytes d = 0) (h : WithinBudget M st) : WithinBudget M (emit env st d).1 := by
  unfold WithinBudget emit
  simp only [totalInlined_append, hd, Nat.add_zero]
  exact h

/-- A successful `readUpToN` reports the length of what it returns, at most `n`. -/
theorem readUpToN_ok (data : List Nat) (readErr : Option String) (n : Int)
    (bytes : List Nat) (readN : Int) (h : readUpToN data readErr n = .ok (bytes, readN)) :
    readN = bytes.length ∧ (0 < n → readN ≤ n) ∧ (n ≤ 0 → readN = 0) := by
  unfold readUpToN at h
  split at h
  · next hn =>
    simp only [Except.ok.injEq, Prod.mk.injEq] at h
    obtain ⟨h1, h2⟩ := h
    subst h1 h2
    exact ⟨rfl, fun _ => by omega, fun _ => rfl⟩
  · next hn =>
    split at h
    · next hle =>
      simp only [Except.ok.injEq, Prod.mk.injEq] at h
      obtain ⟨h1, h2⟩ := h
      subst h1 h2
      refine ⟨?_, fun _ => le_refl _, fun h0 => absurd h0 hn⟩
      rw [List.length_take]
      omega
    · next hgt =>
      split at h
      · simp only [Except.ok.injEq, Prod.mk.injEq] at h
        obtain ⟨h1, h2⟩ := h
        subst h1 h2
        exact ⟨rfl, fun _ => by omega, fun h0 => absurd h0 hn⟩
      · cases h

/-- The file branch keeps the budget invariant. -/
theorem traverseFile_within (env : Env) (st : traverseState) (lim : traverseLimits)
    (pol : filter.Policy) (d : FetchResultData) (reader : Option (List Nat × Option String))
    (hM : 0 < lim.maxTotalBytes) (hM2 : lim.maxTotalBytes < 2 ^ 63)
    (hd : inlinedBytes d = 0) (h : WithinBudget lim.maxTotalBytes st) :
    WithinBudget lim.maxTotalBytes (traverseFile env st lim pol d reader).1 := by
  have hkeep : ∀ (s r e : String), inlinedBytes { d with Status := s, SkipReason := r, Error := e } = 0 :=
    fun _ _ _ => hd
  unfold traverseFile
  simp only []
  split
  · exact emit_within env _ st _ (hkeep _ _ _) h
  · split
    · exact emit_within env _ st _ (hkeep _ _ _) h
    · split
      · split
        · exact emit_within env _ st _ hd h
        · next data readErr =>
          have hpos : (0 : Int) ≤ totalInlined st.emitted := Int.natCast_nonneg _
          have hrem : Go.wrap64 (lim.maxTotalBytes - st.totalBytes)
              = lim.maxTotalBytes - st.totalBytes :=
            wrap64_of_range _ (by have := h.1; have := h.2; omega) (by have := h.1; have := h.2; omega)
          split
          · exact emit_within env _ st _ (hkeep _ _ _) h
          · next hnot =>
            rw [hrem] at hnot
            have hlt : 0 < lim.maxTotalBytes - st.totalBytes := by
              by_contra hc
              exact hnot ⟨hM, by omega⟩
            split
            · exact emit_within env _ st _ (hkeep _ _ _) h
            · next inlineBytes readN heq =>
              obtain ⟨hlen, hle, _⟩ := readUpToN_ok _ _ _ _ _ heq
              have hbud : readN ≤ lim.maxTotalBytes - st.totalBytes := by
                rw [hrem] at hle
                split at hle
                · exact hle hlt
                · next hn =>
                  have h1 : ¬ (lim.maxTotalBytes - st.totalBytes < lim.inlineMaxBytes) :=
                    fun hc => hn ⟨hM, hc⟩
                  have hp : 0 < lim.inlineMaxBytes := by omega
                  have := hle hp
                  omega
              have hge : 0 ≤ readN := by rw [hlen]; exact Int.natCast_nonneg _
              have hw : Go.wrap64 (st.totalBytes + readN) = st.totalBytes + readN :=
                wrap64_of_range _ (by have := h.1; omega) (by have := h.1; have := h.2; omega)
              have hst : WithinBudget lim.maxTotalBytes
                  { st with totalBytes := Go.wrap64 (st.totalBytes + readN) } := by
                rw [hw]
                constructor
                · show (totalInlined st.emitted : Int) ≤ st.totalBytes + readN
                  have := h.1
                  omega
                · show st.totalBytes + readN ≤ lim.maxTotalBytes
                  omega
              split
              · have hin : inlinedBytes
                    { d with Content := some ⟨"inline", Go.b64EncodeToString inlineBytes⟩ }
                    = inlineBytes.length := by
                  simp [inlinedBytes, b64PayloadLen_encode]
                unfold WithinBudget emit
                simp only [totalInlined_append, hw, hin]
                have := h.1
                push_cast
                constructor
                · show (totalInlined st.emitted : Int) + (inlineBytes.length : Int)
                    ≤ st.totalBytes + readN
                  omega
                · show st.totalBytes + readN ≤ lim.maxTotalBytes
                  omega
              · exact emit_within env _ _ _ hd hst
      · exact emit_within env _ st _ hd h

/-- The size accounting keeps the budget invariant when the sum cannot overflow. -/
theorem size_step_within (st : traverseState) (lim : traverseLimits) (size : Int)
    (hM : 0 < lim.maxTotalBytes) (hsz : size < 2 ^ 63 - lim.maxTotalBytes)
    (hgate : ¬ (size > 0 ∧ lim.maxTotalBytes > 0 ∧
      Go.wrap64 (st.totalBytes + size) > lim.maxTotalBytes))
    (h : WithinBudget lim.maxTotalBytes st) :
    WithinBudget lim.maxTotalBytes
      (if size > 0 then { st with totalBytes := Go.wrap64 (st.totalBytes + size) } else st) := by
  have hpos : (0 : Int) ≤ totalInlined st.emitted := Int.natCast_nonneg _
  split
  · next hs =>
    have hw : Go.wrap64 (st.totalBytes + size) = st.totalBytes + size :=
      wrap64_of_range _ (by have := h.1; omega) (by have := h.2; omega)
    rw [hw] at hgate ⊢
    constructor
    · show (totalInlined st.emitted : Int) ≤ st.totalBytes + size
      have := h.1
      omega
    · show st.totalBytes + size ≤ lim.maxTotalBytes
      by_contra hc
      exact hgate ⟨hs, hM, by omega⟩
  · exact h

/-- The entry of `traverse` keeps the budget invariant when the rest does. -/
theorem enter_within (env : Env) (rootCID basePath : String) (depth : Int)
    (st : traverseState) (lim : traverseLimits)
    (body : traverseState → traverseState × Option String)
    (h : WithinBudget lim.maxTotalBytes st)
    (hbody : ∀ st', WithinBudget lim.maxTotalBytes st' →
      WithinBudget lim.maxTotalBytes (body st').1) :
    WithinBudget lim.maxTotalBytes (enter env rootCID basePath depth st lim body).1 := by
  unfold enter
  split
  · exact h
  · simp only []
    split
    · exact emit_within env _ _ _ rfl h
    · exact hbody _ h

mutual

/-- The rest of `traverse` keeps the budget invariant. -/
theorem traverseNode_within (env : Env) (rootCID : String) (lim : traverseLimits)
    (hM : 0 < lim.maxTotalBytes) (hM2 : lim.maxTotalBytes < 2 ^ 63) :
    ∀ (node : Node) (basePath : String) (depth : Int) (st : traverseState)
      (pol : filter.Policy), sizesBelow (2 ^ 63 - lim.maxTotalBytes) node = true →
      WithinBudget lim.maxTotalBytes st →
      WithinBudget lim.maxTotalBytes
        (traverseNode env rootCID basePath node depth st lim pol).1
  | .file size data readErr, basePath, depth, st, pol, hsz, h => by
    rw [traverseNode]
    simp only [sizesBelow, decide_eq_true_eq] at hsz
    simp only []
    split
    · exact emit_within env _ _ _ rfl h
    · next hgate =>
      exact traverseFile_within env _ lim pol _ _ hM hM2 rfl
        (size_step_within st lim _ hM hsz hgate h)
  | .other size, basePath, depth, st, pol, hsz, h => by
    rw [traverseNode]
    simp only [sizesBelow, decide_eq_true_eq] at hsz
    simp only []
    split
    · exact emit_within env _ _ _ rfl h
    · next hgate =>
      exact traverseFile_within env _ lim pol _ _ hM hM2 rfl
        (size_step_within st lim _ hM hsz hgate h)
  | .dir size entries iterErr, basePath, depth, st, pol, hsz, h => by
    rw [traverseNode]
    simp only [sizesBelow, Bool.and_eq_true, decide_eq_true_eq] at hsz
    simp only []
    split
    · exact emit_within env _ _ _ rfl h
    · next hgate =>
      have hes := traverseEntries_within env rootCID lim hM hM2 entries basePath depth _ pol []
        hsz.2 (size_step_within st lim _ hM hsz.1 hgate h)
      split
      · next st1 names e heq => simp only [Node.size] at heq; rw [heq] at hes; exact hes
      · next st1 names heq =>
        simp only [Node.size] at heq
        rw [heq] at hes
        exact emit_within env _ _ _ rfl hes
      · next st1 names heq =>
        simp only [Node.size] at heq
        rw [heq] at hes
        split
        · exact emit_within env _ _ _ rfl hes
        · exact emit_within env _ _ _ rfl hes

/-- The loop over the entries keeps the budget invariant. -/
theorem traverseEntries_within (env : Env) (rootCID : String) (lim : traverseLimits)
    (hM : 0 < lim.maxTotalBytes) (hM2 : lim.maxTotalBytes < 2 ^ 63) :
    ∀ (entries : List (String × Node)) (basePath : String) (depth : Int) (st : traverseState)
      (pol : filter.Policy) (names : List String),
      entrySizesBelow (2 ^ 63 - lim.maxTotalBytes) entries = true →
      WithinBudget lim.maxTotalBytes st →
      WithinBudget lim.maxTotalBytes
        (traverseEntries env rootCID basePath entries depth st lim pol names).1
  | [], basePath, depth, st, pol, names, _, h => by
    rw [traverseEntries]
    exact h
  | (name, child) :: rest, basePath, depth, st, pol, names, hsz, h => by
    rw [traverseEntries]
    simp only [entrySizesBelow, Bool.and_eq_true] at hsz
    have hc := enter_within env rootCID (childPath basePath name) (Go.wrap64 (depth + 1)) st lim
      (fun st => traverseNode env rootCID (childPath basePath name) child
        (Go.wrap64 (depth + 1)) st lim pol) h
      (fun st' hst' => traverseNode_within env rootCID lim hM hM2 child _ _ st' pol hsz.1 hst')
    split
    · next st1 e heq =>
      rw [heq] at hc
      split
      · exact hc
      · exact hc
    · next st1 heq =>
      rw [heq] at hc
      exact traverseEntries_within env rootCID lim hM hM2 rest basePath depth st1 pol _ hsz.2 hc

end

/-- The budget holds while the running total cannot overflow: with
`0 < max_total_bytes = M`, over every tree whose nodes report sizes below
`2^63 - M`, whatever the context and the publishes do, the contents inlined into
the results of one job sum to at most `M` bytes. -/
theorem traverse_inlined_within_budget (env : Env) (rootCID basePath : String) (node : Node)
    (depth : Int) (lim : traverseLimits) (pol : filter.Policy)
    (hM : 0 < lim.maxTotalBytes) (hM2 : lim.maxTotalBytes < 2 ^ 63)
    (hsz : sizesBelow (2 ^ 63 - lim.maxTotalBytes) node = true) :
    (totalInlined (traverse env rootCID basePath node depth traverseState.fresh lim
      pol).1.emitted : Int) ≤ lim.maxTotalBytes := by
  have hfresh : WithinBudget lim.maxTotalBytes traverseState.fresh :=
    ⟨by simp [traverseState.fresh, totalInlined], by simp [traverseState.fresh]; omega⟩
  have h := enter_within env rootCID basePath depth traverseState.fresh lim
    (fun st => traverseNode env rootCID basePath node depth st lim pol) hfresh
    (fun st' hst' => traverseNode_within env rootCID lim hM hM2 node basePath depth st' pol
      hsz hst')
  exact le_trans h.1 h.2

/-- The budget theorem at a concrete job: `max_total_bytes = 3`, two files of 1 and
3 bytes. -/
theorem traverse_inlined_within_budget_witness :
    (totalInlined (traverse Env.quiet "r" "/ipfs/r"
      (.dir none [("a", .file (some 1) [7] none), ("b", .file (some 3) [8, 9, 10] none)] none)
      0 traverseState.fresh { noLimits with maxTotalBytes := 3, inlineMaxBytes := 4 }
      noPolicy).1.emitted : Int) ≤ 3 :=
  traverse_inlined_within_budget Env.quiet "r" "/ipfs/r"
    (.dir none [("a", .file (some 1) [7] none), ("b", .file (some 3) [8, 9, 10] none)] none)
    0 { noLimits with maxTotalBytes := 3, inlineMaxBytes := 4 } noPolicy
    (by decide) (by decide) (by decide)

/-! ### The depth gate -/

/-- C6. With `max_depth = D > 0` and a live context, a node at depth `D` passes the
depth gate and is handled by the rest of `traverse`; a node at depth `D + 1`
yields exactly one result, the record with status "skipped" and skip reason
"limit_exceeded", whatever the node is and whatever lies beneath it. -/
theorem depth_gate_boundary (env : Env) (rootCID basePath : String) (node : Node)
    (st : traverseState) (lim : traverseLimits) (pol : filter.Policy) (D : Int)
    (hD : 0 < D) (hlim : lim.maxDepth = D) (hctx : env.ctxErr st.polls = none) :
    traverse env rootCID basePath node D st lim pol
      = traverseNode env rootCID basePath node D { st with polls := st.polls + 1 } lim pol ∧
    traverse env rootCID basePath node (D + 1) st lim pol
      = emit env { st with polls := st.polls + 1 } (depthSkip rootCID basePath) ∧
    (traverse env rootCID basePath node (D + 1) st lim pol).1.emitted
      = st.emitted ++ [depthSkip rootCID basePath] ∧
    (traverse env rootCID basePath node (D + 1) st lim pol).1.totalBytes = st.totalBytes ∧
    (depthSkip rootCID basePath).Path = basePath ∧
    (depthSkip rootCID basePath).Status = "skipped" ∧
    (depthSkip rootCID basePath).SkipReason = "limit_exceeded" := by
  have h1 : ¬ (lim.maxDepth > 0 ∧ D > lim.maxDepth) := by rw [hlim]; omega
  have h2 : lim.maxDepth > 0 ∧ D + 1 > lim.maxDepth := by rw [hlim]; omega
  refine ⟨?_, ?_, ?_, ?_, rfl, rfl, rfl⟩
  · simp only [traverse, enter, hctx, if_neg h1]
  · simp only [traverse, enter, hctx, if_pos h2]
  · simp only [traverse, enter, hctx, if_pos h2, emit]
  · simp only [traverse, enter, hctx, if_pos h2, emit]

/-- C6 (witness): `max_depth = 2`, a directory reached at depth 2 and at depth 3. -/
theorem depth_gate_boundary_witness :
    traverse Env.quiet "r" "/ipfs/r/a/b" (.dir none [("c", .other none)] none) 2
        traverseState.fresh { noLimits with maxDepth := 2 } noPolicy
      = traverseNode Env.quiet "r" "/ipfs/r/a/b" (.dir none [("c", .other none)] none) 2
          { traverseState.fresh with polls := traverseState.fresh.polls + 1 }
          { noLimits with maxDepth := 2 } noPolicy ∧
    traverse Env.quiet "r" "/ipfs/r/a/b" (.dir none [("c", .other none)] none) (2 + 1)
        traverseState.fresh { noLimits with maxDepth := 2 } noPolicy
      = emit Env.quiet { traverseState.fresh with polls := traverseState.fresh.polls + 1 }
          (depthSkip "r" "/ipfs/r/a/b") ∧
    (traverse Env.quiet "r" "/ipfs/r/a/b" (.dir none [("c", .other none)] none) (2 + 1)
        traverseState.fresh { noLimits with maxDepth := 2 } noPolicy).1.emitted
      = traverseState.fresh.emitted ++ [depthSkip "r" "/ipfs/r/a/b"] ∧
    (traverse Env.quiet "r" "/ipfs/r/a/b" (.dir none [("c", .other none)] none) (2 + 1)
        traverseState.fresh { noLimits with maxDepth := 2 } noPolicy).1.totalBytes
      = traverseState.fresh.totalBytes ∧
    (depthSkip "r" "/ipfs/r/a/b").Path = "/ipfs/r/a/b" ∧
    (depthSkip "r" "/ipfs/r/a/b").Status = "skipped" ∧
    (depthSkip "r" "/ipfs/r/a/b").SkipReason = "limit_exceeded" :=
  depth_gate_boundary Env.quiet "r" "/ipfs/r/a/b" (.dir none [("c", .other none)] none)
    traverseState.fresh { noLimits with maxDepth := 2 } noPolicy 2 (by decide) rfl rfl

/-! ### Shape of the emitted sequence -/

/-- `emit` appends its argument to the emitted sequence. -/
theorem emit_emitted (env : Env) (st : traverseState) (d : FetchResultData) :
    (emit env st d).1.emitted = st.emitted ++ [d] := rfl

/-- The file branch emits exactly one result, at the path of the node. -/
theorem traverseFile_emitted (env : Env) (st : traverseState) (lim : traverseLimits)
    (pol : filter.Policy) (d : FetchResultData) (reader : Option (List Nat × Option String)) :
    ∃ d', (traverseFile env st lim pol d reader).1.emitted = st.emitted ++ [d'] ∧
      d'.Path = d.Path ∧ reportedEntries d' = reportedEntries d := by
  unfold traverseFile
  simp only []
  repeat' (first | exact ⟨_, rfl, rfl, rfl⟩ | split)

/-- The path of a node occurs in its post-order. -/
theorem base_sublist_postorder (node : Node) (base : String) :
    [base].Sublist (postorder node base) := by
  cases node <;> simp [postorder]

/-- The entry of `traverse` emits within the post-order when the rest does. -/
theorem enter_postorder (env : Env) (rootCID basePath : String) (depth : Int)
    (st : traverseState) (lim : traverseLimits) (paths : List String)
    (body : traverseState → traverseState × Option String)
    (hbase : [basePath].Sublist paths)
    (hbody : ∀ st', st'.emitted = st.emitted →
      ∃ rs, (body st').1.emitted = st.emitted ++ rs ∧
        (rs.map (fun d => d.Path)).Sublist paths) :
    ∃ rs, (enter env rootCID basePath depth st lim body).1.emitted = st.emitted ++ rs ∧
      (rs.map (fun d => d.Path)).Sublist paths := by
  unfold enter
  split
  · exact ⟨[], by simp, by simp⟩
  · simp only []
    split
    · exact ⟨[depthSkip rootCID basePath], rfl, hbase⟩
    · exact hbody _ rfl

mutual

/-- The rest of `traverse` emits a subsequence of the post-order of the node. -/
theorem traverseNode_postorder (env : Env) (rootCID : String) :
    ∀ (node : Node) (basePath : String) (depth : Int) (st : traverseState)
      (lim : traverseLimits) (pol : filter.Policy),
      ∃ rs, (traverseNode env rootCID basePath node depth st lim pol).1.emitted
          = st.emitted ++ rs ∧
        (rs.map (fun d => d.Path)).Sublist (postorder node basePath)
  | .file size data readErr, basePath, depth, st, lim, pol => by
    rw [traverseNode]
    simp only []
    split
    · exact ⟨[totalSkip rootCID basePath], rfl, by simp [postorder, totalSkip]⟩
    · obtain ⟨d', h1, h2, _⟩ := traverseFile_emitted env
        (if (Node.file size data readErr).size.getD 0 > 0 then
          { st with totalBytes := Go.wrap64 (st.totalBytes + (Node.file size data readErr).size.getD 0) }
          else st) lim pol
        (baseResult env rootCID basePath "file" ((Node.file size data readErr).size.getD 0))
        (some (data, readErr))
      refine ⟨[d'], ?_, by simp [postorder, h2, baseResult]⟩
      rw [h1]; split <;> rfl
  | .other size, basePath, depth, st, lim, pol => by
    rw [traverseNode]
    simp only []
    split
    · exact ⟨[totalSkip rootCID basePath], rfl, by simp [postorder, totalSkip]⟩
    · obtain ⟨d', h1, h2, _⟩ := traverseFile_emitted env
        (if (Node.other size).size.getD 0 > 0 then
          { st with totalBytes := Go.wrap64 (st.totalBytes + (Node.other size).size.getD 0) }
          else st) lim pol
        (baseResult env rootCID basePath "file" ((Node.other size).size.getD 0)) none
      refine ⟨[d'], ?_, by simp [postorder, h2, baseResult]⟩
      rw [h1]; split <;> rfl
  | .dir size entries iterErr, basePath, depth, st, lim, pol => by
    rw [traverseNode]
    simp only []
    split
    · exact ⟨[totalSkip rootCID basePath], rfl, by simp [postorder, totalSkip]⟩
    · obtain ⟨rs, h1, h2⟩ := traverseEntries_postorder env rootCID entries basePath depth
        (if (Node.dir size entries iterErr).size.getD 0 > 0 then
          { st with totalBytes := Go.wrap64 (st.totalBytes + (Node.dir size entries iterErr).size.getD 0) }
          else st) lim pol []
      have hst : (if (Node.dir size entries iterErr).size.getD 0 > 0 then
          { st with totalBytes := Go.wrap64 (st.totalBytes + (Node.dir size entries iterErr).size.getD 0) }
          else st).emitted = st.emitted := by split <;> rfl
      rw [hst] at h1
      split
      · next st1 names e heq =>
        rw [heq] at h1
        exact ⟨rs, h1, by simpa [postorder] using h2.trans (List.sublist_append_left _ _)⟩
      · next st1 names heq =>
        rw [heq] at h1
        refine ⟨rs ++ [_], by rw [emit_emitted, h1, List.append_assoc], ?_⟩
        simpa [postorder, baseResult] using h2.append (List.Sublist.refl [basePath])
      · next st1 names heq =>
        rw [heq] at h1
        split
        · refine ⟨rs ++ [_], by rw [emit_emitted, h1, List.append_assoc], ?_⟩
          simpa [postorder, baseResult] using h2.append (List.Sublist.refl [basePath])
        · refine ⟨rs ++ [_], by rw [emit_emitted, h1, List.append_assoc], ?_⟩
          simpa [postorder, baseResult] using h2.append (List.Sublist.refl [basePath])

/-- The loop emits a subsequence of the post-order of the entries. -/
theorem traverseEntries_postorder (env : Env) (rootCID : String) :
    ∀ (entries : List (String × Node)) (basePath : String) (depth : Int) (st : traverseState)
      (lim : traverseLimits) (pol : filter.Policy) (names : List String),
      ∃ rs, (traverseEntries env rootCID basePath entries depth st lim pol names).1.emitted
          = st.emitted ++ rs ∧
        (rs.map (fun d => d.Path)).Sublist (postorderEntries entries basePath)
  | [], basePath, depth, st, lim, pol, names => by
    rw [traverseEntries]
    exact ⟨[], by simp, by simp [postorderEntries]⟩
  | (name, child) :: rest, basePath, depth, st, lim, pol, names => by
    rw [traverseEntries]
    obtain ⟨rs₁, h1, h2⟩ := enter_postorder env rootCID (childPath basePath name)
      (Go.wrap64 (depth + 1)) st lim (postorder child (childPath basePath name))
      (fun st => traverseNode env rootCID (childPath basePath name) child
        (Go.wrap64 (depth + 1)) st lim pol)
      (base_sublist_postorder _ _)
      (fun st' hst' => by
        have := traverseNode_postorder env rootCID child (childPath basePath name)
          (Go.wrap64 (depth + 1)) st' lim pol
        rwa [hst'] at this)
    split
    · next st1 e heq =>
      rw [heq] at h1
      have hsub : (rs₁.map (fun d => d.Path)).Sublist
          (postorderEntries ((name, child) :: rest) basePath) := by
        simpa [postorderEntries] using h2.trans (List.sublist_append_left _ _)
      split
      · exact ⟨rs₁, h1, hsub⟩
      · exact ⟨rs₁, h1, hsub⟩
    · next st1 heq =>
      rw [heq] at h1
      obtain ⟨rs₂, h3, h4⟩ := traverseEntries_postorder env rootCID rest basePath depth st1
        lim pol (names ++ [name])
      refine ⟨rs₁ ++ rs₂, by rw [h3, h1, List.append_assoc], ?_⟩
      simpa [postorderEntries] using h2.append h4

end

/-- C3 (amended). Whatever the context, the publishes, the limits and the tree do,
the results `traverse` emits are in depth-first post-order: their paths form a
subsequence of the post-order of the tree, in which every directory comes after
everything beneath it and the entries of a directory follow iterator order. -/
theorem traverse_emits_in_postorder (env : Env) (rootCID basePath : String) (node : Node)
    (depth : Int) (st : traverseState) (lim : traverseLimits) (pol : filter.Policy) :
    ∃ rs, (traverse env rootCID basePath node depth st lim pol).1.emitted = st.emitted ++ rs ∧
      (rs.map (fun d => d.Path)).Sublist (postorder node basePath) := by
  unfold traverse
  exact enter_postorder env rootCID basePath depth st lim (postorder node basePath) _
    (base_sublist_postorder _ _)
    (fun st' hst' => by
      have := traverseNode_postorder env rootCID node basePath depth st' lim pol
      rwa [hst'] at this)

/-! ### One result per visited node -/

/-- The file branch returns no error when every emit succeeds. -/
theorem traverseFile_ok (env : Env) (hemit : ∀ k, env.emitErr k = none) (st : traverseState)
    (lim : traverseLimits) (pol : filter.Policy) (d : FetchResultData)
    (reader : Option (List Nat × Option String)) :
    (traverseFile env st lim pol d reader).2 = none := by
  unfold traverseFile
  simp only []
  repeat' (first | exact hemit _ | split)

/-- The entry of `traverse`, under a live context and succeeding emits. -/
theorem enter_onePerVisit (env : Env) (hctx : ∀ k, env.ctxErr k = none)
    (hemit : ∀ k, env.emitErr k = none) (rootCID basePath : String) (depth : Int)
    (st : traverseState) (lim : traverseLimits) (node : Node)
    (body : traverseState → traverseState × Option String)
    (hbody : ∀ st', st'.emitted = st.emitted →
      (body st').2 = none ∧
      ∃ rs, (body st').1.emitted = st.emitted ++ rs ∧ OnePerVisit node basePath rs) :
    (enter env rootCID basePath depth st lim body).2 = none ∧
    ∃ rs, (enter env rootCID basePath depth st lim body).1.emitted = st.emitted ++ rs ∧
      OnePerVisit node basePath rs := by
  unfold enter
  rw [hctx]
  simp only []
  split
  · exact ⟨hemit _, [depthSkip rootCID basePath], rfl, OnePerVisit.leaf _ _ _ rfl rfl⟩
  · exact hbody _ rfl

mutual

/-- The rest of `traverse` emits one result per visited node. -/
theorem traverseNode_onePerVisit (env : Env) (hctx : ∀ k, env.ctxErr k = none)
    (hemit : ∀ k, env.emitErr k = none) (rootCID : String) :
    ∀ (node : Node) (basePath : String) (depth : Int) (st : traverseState)
      (lim : traverseLimits) (pol : filter.Policy), iteratorsComplete node = true →
      (traverseNode env rootCID basePath node depth st lim pol).2 = none ∧
      ∃ rs, (traverseNode env rootCID basePath node depth st lim pol).1.emitted
          = st.emitted ++ rs ∧ OnePerVisit node basePath rs
  | .file size data readErr, basePath, depth, st, lim, pol, _ => by
    rw [traverseNode]
    simp only []
    split
    · exact ⟨hemit _, [totalSkip rootCID basePath], rfl, OnePerVisit.leaf _ _ _ rfl rfl⟩
    · obtain ⟨d', h1, h2, h3⟩ := traverseFile_emitted env
        (if (Node.file size data readErr).size.getD 0 > 0 then
          { st with totalBytes := Go.wrap64 (st.totalBytes + (Node.file size data readErr).size.getD 0) }
          else st) lim pol
        (baseResult env rootCID basePath "file" ((Node.file size data readErr).size.getD 0))
        (some (data, readErr))
      refine ⟨traverseFile_ok env hemit _ _ _ _ _, [d'], ?_, OnePerVisit.leaf _ _ _ h2 h3⟩
      rw [h1]; split <;> rfl
  | .other size, basePath, depth, st, lim, pol, _ => by
    rw [traverseNode]
    simp only []
    split
    · exact ⟨hemit _, [totalSkip rootCID basePath], rfl, OnePerVisit.leaf _ _ _ rfl rfl⟩
    · obtain ⟨d', h1, h2, h3⟩ := traverseFile_emitted env
        (if (Node.other size).size.getD 0 > 0 then
          { st with totalBytes := Go.wrap64 (st.totalBytes + (Node.other size).size.getD 0) }
          else st) lim pol
        (baseResult env rootCID basePath "file" ((Node.other size).size.getD 0)) none
      refine ⟨traverseFile_ok env hemit _ _ _ _ _, [d'], ?_, OnePerVisit.leaf _ _ _ h2 h3⟩
      rw [h1]; split <;> rfl
  | .dir size entries iterErr, basePath, depth, st, lim, pol, hit => by
    rw [traverseNode]
    simp only []
    simp only [iteratorsComplete, Bool.and_eq_true, Option.isNone_iff_eq_none] at hit
    obtain ⟨hnone, hes⟩ := hit
    split
    · exact ⟨hemit _, [totalSkip rootCID basePath], rfl, OnePerVisit.leaf _ _ _ rfl rfl⟩
    · obtain ⟨hexit, hnames, rs, h1, h2⟩ := traverseEntries_onePerEntry env hctx hemit rootCID
        entries basePath depth
        (if (Node.dir size entries iterErr).size.getD 0 > 0 then
          { st with totalBytes := Go.wrap64 (st.totalBytes + (Node.dir size entries iterErr).size.getD 0) }
          else st) lim pol [] hes
      have hst : (if (Node.dir size entries iterErr).size.getD 0 > 0 then
          { st with totalBytes := Go.wrap64 (st.totalBytes + (Node.dir size entries iterErr).size.getD 0) }
          else st).emitted = st.emitted := by split <;> rfl
      rw [hst] at h1
      split
      · next st1 names e heq => rw [heq] at hexit; cases hexit
      · next st1 names heq => rw [heq] at hexit; cases hexit
      · next st1 names heq =>
        rw [heq] at h1 hnames
        subst hnone
        simp only [List.nil_append] at hnames
        refine ⟨hemit _, rs ++ [_], by rw [emit_emitted, h1, List.append_assoc], ?_⟩
        exact OnePerVisit.dir _ _ _ _ _ _ h2 rfl hnames

/-- The loop exhausts the iterator, collects every name and emits the results of
every entry. -/
theorem traverseEntries_onePerEntry (env : Env) (hctx : ∀ k, env.ctxErr k = none)
    (hemit : ∀ k, env.emitErr k = none) (rootCID : String) :
    ∀ (entries : List (String × Node)) (basePath : String) (depth : Int) (st : traverseState)
      (lim : traverseLimits) (pol : filter.Policy) (names : List String),
      entriesComplete entries = true →
      (traverseEntries env rootCID basePath entries depth st lim pol names).2.2
          = LoopExit.exhausted ∧
      (traverseEntries env rootCID basePath entries depth st lim pol names).2.1
          = names ++ entries.map Prod.fst ∧
      ∃ rs, (traverseEntries env rootCID basePath entries depth st lim pol names).1.emitted
          = st.emitted ++ rs ∧ OnePerEntry entries basePath rs
  | [], basePath, depth, st, lim, pol, names, _ => by
    rw [traverseEntries]
    exact ⟨rfl, by simp, [], by simp, OnePerEntry.nil _⟩
  | (name, child) :: rest, basePath, depth, st, lim, pol, names, hit => by
    rw [traverseEntries]
    simp only [entriesComplete, Bool.and_eq_true] at hit
    obtain ⟨hchild, hrest⟩ := hit
    obtain ⟨herr, rs₁, h1, h2⟩ := enter_onePerVisit env hctx hemit rootCID
      (childPath basePath name) (Go.wrap64 (depth + 1)) st lim child
      (fun st => traverseNode env rootCID (childPath basePath name) child
        (Go.wrap64 (depth + 1)) st lim pol)
      (fun st' hst' => by
        have := traverseNode_onePerVisit env hctx hemit rootCID child (childPath basePath name)
          (Go.wrap64 (depth + 1)) st' lim pol hchild
        rwa [hst'] at this)
    split
    · next st1 e heq => rw [heq] at herr; cases herr
    · next st1 heq =>
      rw [heq] at h1
      obtain ⟨h3, h4, rs₂, h5, h6⟩ := traverseEntries_onePerEntry env hctx hemit rootCID rest
        basePath depth st1 lim pol (names ++ [name]) hrest
      refine ⟨h3, by rw [h4]; simp, rs₁ ++ rs₂, by rw [h5, h1, List.append_assoc], ?_⟩
      exact OnePerEntry.cons _ _ _ _ _ _ h2 h6

end

/-- C4 (amended). For every tree whose directory iterators complete without error,
with every emit succeeding and the context live, `traverse` returns no error and
emits exactly one result for each node it visits, carrying that node's path: the
start path for the start node and, for a directory entry, the parent path less
one trailing slash, then "/" and the entry name. -/
theorem traverse_one_result_per_visit (env : Env) (hctx : ∀ k, env.ctxErr k = none)
    (hemit : ∀ k, env.emitErr k = none) (rootCID basePath : String) (node : Node)
    (depth : Int) (st : traverseState) (lim : traverseLimits) (pol : filter.Policy)
    (hiter : iteratorsComplete node = true) :
    (traverse env rootCID basePath node depth st lim pol).2 = none ∧
    ∃ rs, (traverse env rootCID basePath node depth st lim pol).1.emitted = st.emitted ++ rs ∧
      OnePerVisit node basePath rs := by
  unfold traverse
  exact enter_onePerVisit env hctx hemit rootCID basePath depth st lim node _
    (fun st' hst' => by
      have := traverseNode_onePerVisit env hctx hemit rootCID node basePath depth st' lim pol
        hiter
      rwa [hst'] at this)

/-- C4 (witness): a directory with a file and a sub-directory, from "/ipfs/r/". -/
theorem traverse_one_result_per_visit_witness :
    iteratorsComplete (.dir none [("a", .file (some 1) [7] none),
      ("b", .dir none [("c", .other none)] none)] none) = true ∧
    (traverse Env.quiet "r" "/ipfs/r/" (.dir none [("a", .file (some 1) [7] none),
      ("b", .dir none [("c", .other none)] none)] none) 0 traverseState.fresh noLimits
      noPolicy).2 = none ∧
    ∃ rs, (traverse Env.quiet "r" "/ipfs/r/" (.dir none [("a", .file (some 1) [7] none),
        ("b", .dir none [("c", .other none)] none)] none) 0 traverseState.fresh noLimits
        noPolicy).1.emitted = traverseState.fresh.emitted ++ rs ∧
      OnePerVisit (.dir none [("a", .file (some 1) [7] none),
        ("b", .dir none [("c", .other none)] none)] none) "/ipfs/r/" rs :=
  ⟨by decide,
   traverse_one_result_per_visit Env.quiet (fun _ => rfl) (fun _ => rfl) "r" "/ipfs/r/"
    (.dir none [("a", .file (some 1) [7] none), ("b", .dir none [("c", .other none)] none)] none)
    0 traverseState.fresh noLimits noPolicy (by decide)⟩

end fetcher

/-! ## Fetch-Enqueue -/

namespace enqueue

/-- C8. A `CidDiscovered` with source "dht" whose source detail starts with
"datastore_" and contains neither ":providers" nor ":provider" is dropped: the
handler returns without error, hands nothing to the bus and leaves the dedup
store (and the rest of the world) as it was, whatever `cid_or_path` it carries. -/
theorem bookkeeping_never_enqueued (env : Env) (w : FetchEnqueuer) (world : World)
    (trace : Option String) (d : CidDiscoveredData)
    (hsrc : d.Source = "dht")
    (hpre : Go.HasPrefix d.SourceDetail "datastore_" = true)
    (hps : Go.Contains d.SourceDetail ":providers" = false)
    (hp : Go.Contains d.SourceDetail ":provider" = false) :
    handleDiscovered env w world (.envelope trace (some d)) = (world, none) ∧
    (handleDiscovered env w world (.envelope trace (some d))).1.requests = world.requests ∧
    (handleDiscovered env w world (.envelope trace (some d))).1.store = world.store := by
  have h : handleDiscovered env w world (.envelope trace (some d)) = (world, none) := by
    simp [handleDiscovered, hsrc, hpre, hps, hp]
  rw [h]
  exact ⟨rfl, rfl, rfl⟩

/-- C8 (witness): an IPNS routing key sniffed from the datastore. -/
theorem bookkeeping_never_enqueued_witness :
    handleDiscovered ⟨fun _ => .answered, fun _ => none⟩
        ⟨⟨"ipfsniffer:seen:fetch", 0⟩, ⟨0, 0, 0, 0, 0⟩, ⟨[], []⟩, 0⟩ ⟨[], 0, [], []⟩
        (.envelope none (some ⟨"bafyabc", "dht", "datastore_put:ipns", "", ""⟩))
      = (⟨[], 0, [], []⟩, none) ∧
    (handleDiscovered ⟨fun _ => .answered, fun _ => none⟩
        ⟨⟨"ipfsniffer:seen:fetch", 0⟩, ⟨0, 0, 0, 0, 0⟩, ⟨[], []⟩, 0⟩ ⟨[], 0, [], []⟩
        (.envelope none (some ⟨"bafyabc", "dht", "datastore_put:ipns", "", ""⟩))).1.requests
      = [] ∧
    (handleDiscovered ⟨fun _ => .answered, fun _ => none⟩
        ⟨⟨"ipfsniffer:seen:fetch", 0⟩, ⟨0, 0, 0, 0, 0⟩, ⟨[], []⟩, 0⟩ ⟨[], 0, [], []⟩
        (.envelope none (some ⟨"bafyabc", "dht", "datastore_put:ipns", "", ""⟩))).1.store
      = [] :=
  bookkeeping_never_enqueued _ _ ⟨[], 0, [], []⟩ none
    ⟨"bafyabc", "dht", "datastore_put:ipns", "", ""⟩ rfl (by decide) (by decide) (by decide)

/-! ### Normalisation of the candidate -/

/-- The first part of `SplitN(rest, "/", 2)` is the text before the first slash. -/
theorem splitN2_head (rest : String) :
    (Go.SplitN2 rest '/').headD "" = String.mk (rest.data.takeWhile (fun c => c != '/')) := by
  unfold Go.SplitN2
  rw [List.span_eq_take_drop]
  split
  · next a h => simp only [Prod.mk.injEq] at h; rw [← h.1]; rfl
  · next a x b h => simp only [Prod.mk.injEq] at h; rw [← h.1]; rfl

/-- The three cases of the normalisation. With `t` the input stripped of surrounding whitespace,
`normalizeToFetchTarget` returns the text between "/ipfs/" and the next "/"
together with `t` when `t` starts with "/ipfs/" and that text is non-empty; it
returns `t` and "/ipfs/" followed by `t` when `t` does not start with "/ipfs/"
but starts with "bafy" or "Qm"; and it returns the empty target otherwise. -/
theorem normalizeToFetchTarget_cases (s : String) :
    normalizeToFetchTarget s =
      if Go.HasPrefix (Go.TrimSpace s) "/ipfs/" = true ∧ ipfsRootOf (Go.TrimSpace s) ≠ "" then
        (ipfsRootOf (Go.TrimSpace s), Go.TrimSpace s)
      else if Go.HasPrefix (Go.TrimSpace s) "/ipfs/" = false ∧
          (Go.HasPrefix (Go.TrimSpace s) "bafy" = true ∨
            Go.HasPrefix (Go.TrimSpace s) "Qm" = true) then
        (Go.TrimSpace s, "/ipfs/" ++ Go.TrimSpace s)
      else ("", "") := by
  unfold normalizeToFetchTarget
  simp only []
  generalize Go.TrimSpace s = t
  by_cases ht : t = ""
  · subst ht
    simp [Go.HasPrefix]
  · rw [if_neg ht]
    by_cases hp : Go.HasPrefix t "/ipfs/" = true
    · have hroot : (Go.SplitN2 (Go.TrimPrefix t "/ipfs/") '/').headD "" = ipfsRootOf t := by
        rw [splitN2_head]
        simp [Go.TrimPrefix, hp, ipfsRootOf]
      rw [if_pos hp, hroot]
      by_cases hr : ipfsRootOf t = ""
      · simp [hr, hp]
      · simp [hr, hp]
    · rw [if_neg hp]
      simp only [Bool.not_eq_true] at hp
      simp [hp]

/-- Nothing is dropped from a list no element of which satisfies the test. -/
theorem dropWhile_of_all_false (f : Char → Bool) (l : List Char)
    (h : ∀ c ∈ l, f c = false) : l.dropWhile f = l := by
  cases l with
  | nil => rfl
  | cons a l => simp [List.dropWhile_cons, h a (List.mem_cons_self _ _)]

/-- Trimming keeps a leading run of non-space runes. -/
theorem trimSpaceRunes_append (p r : List Char) (hne : p ≠ [])
    (hall : ∀ c ∈ p, Go.isSpace c = false) :
    ∃ r', Go.trimSpaceRunes (p ++ r) = p ++ r' := by
  unfold Go.trimSpaceRunes
  have h1 : (p ++ r).dropWhile Go.isSpace = p ++ r := by
    cases p with
    | nil => exact absurd rfl hne
    | cons a p => simp [List.dropWhile_cons, hall a (List.mem_cons_self _ _)]
  have h2 : p.reverse.dropWhile Go.isSpace = p.reverse :=
    dropWhile_of_all_false _ _ (fun c hc => hall c (List.mem_reverse.mp hc))
  rw [h1, List.reverse_append, List.dropWhile_append, h2]
  split
  · exact ⟨[], by simp⟩
  · exact ⟨(r.reverse.dropWhile Go.isSpace).reverse, by simp⟩

/-- A name starting with "/ipns/" still starts with it after trimming. -/
theorem ipns_name_stays_ipns (s : String) (h : Go.HasPrefix s "/ipns/" = true) :
    ∃ r, (Go.TrimSpace s).data = "/ipns/".data ++ r := by
  unfold Go.HasPrefix at h
  rw [List.isPrefixOf_iff_prefix] at h
  obtain ⟨r, hr⟩ := h
  obtain ⟨r', hr'⟩ := trimSpaceRunes_append "/ipns/".data r (by decide) (by decide)
  exact ⟨r', by rw [Go.TrimSpace, ← hr, hr']⟩

/-- A text of the shape "/ipns/..." gets the empty target. -/
theorem ipns_shape_dropped (t : String) (r : List Char) (h : t.data = "/ipns/".data ++ r) :
    normalizeToFetchTarget t = ("", "") := by
  obtain ⟨r', hr'⟩ := trimSpaceRunes_append "/ipns/".data r (by decide) (by decide)
  have ht : (Go.TrimSpace t).data = "/ipns/".data ++ r' := by rw [Go.TrimSpace, h, hr']
  rw [normalizeToFetchTarget_cases]
  have h1 : Go.HasPrefix (Go.TrimSpace t) "/ipfs/" = false := by
    simp [Go.HasPrefix, ht, List.isPrefixOf]
  have h2 : Go.HasPrefix (Go.TrimSpace t) "bafy" = false := by
    simp [Go.HasPrefix, ht, List.isPrefixOf]
  have h3 : Go.HasPrefix (Go.TrimSpace t) "Qm" = false := by
    simp [Go.HasPrefix, ht, List.isPrefixOf]
  simp [h1, h2, h3]

/-- C9. With `t` the input stripped of surrounding whitespace,
`normalizeToFetchTarget` returns the text between "/ipfs/" and the next "/"
together with `t` when `t` starts with "/ipfs/" and that text is non-empty; it
returns `t` and "/ipfs/" followed by `t` when `t` does not start with "/ipfs/"
but starts with "bafy" or "Qm"; and it returns the empty target otherwise.  In
particular every "/ipns/..." name gets the empty target, and a `CidDiscovered`
carrying it makes `handleDiscovered` return with the world unchanged: no
FetchRequest is emitted. -/
theorem normalizeToFetchTarget_spec (s : String) (env : Env) (w : FetchEnqueuer)
    (world : World) (trace : Option String) (d : CidDiscoveredData) :
    (normalizeToFetchTarget s =
      if Go.HasPrefix (Go.TrimSpace s) "/ipfs/" = true ∧ ipfsRootOf (Go.TrimSpace s) ≠ "" then
        (ipfsRootOf (Go.TrimSpace s), Go.TrimSpace s)
      else if Go.HasPrefix (Go.TrimSpace s) "/ipfs/" = false ∧
          (Go.HasPrefix (Go.TrimSpace s) "bafy" = true ∨
            Go.HasPrefix (Go.TrimSpace s) "Qm" = true) then
        (Go.TrimSpace s, "/ipfs/" ++ Go.TrimSpace s)
      else ("", "")) ∧
    (Go.HasPrefix s "/ipns/" = true →
      normalizeToFetchTarget s = ("", "") ∧
      (d.Cid = s → handleDiscovered env w world (.envelope trace (some d)) = (world, none))) := by
  refine ⟨normalizeToFetchTarget_cases s, fun h => ?_⟩
  obtain ⟨r, hr⟩ := ipns_name_stays_ipns s h
  have hs : normalizeToFetchTarget s = ("", "") := by
    unfold Go.HasPrefix at h
    rw [List.isPrefixOf_iff_prefix] at h
    obtain ⟨r₀, hr₀⟩ := h
    exact ipns_shape_dropped s r₀ hr₀.symm
  refine ⟨hs, fun hd => ?_⟩
  have ht : normalizeToFetchTarget (Go.TrimSpace d.Cid) = ("", "") := by
    rw [hd]; exact ipns_shape_dropped _ r hr
  unfold handleDiscovered
  simp only [ht]
  split_ifs <;> rfl

/-- C9 (witness): the name "/ipns/k51abc". -/
theorem normalizeToFetchTarget_spec_witness :
    Go.HasPrefix "/ipns/k51abc" "/ipns/" = true ∧
    normalizeToFetchTarget "/ipns/k51abc" = ("", "") ∧
    handleDiscovered ⟨fun _ => .answered, fun _ => none⟩
        ⟨⟨"ipfsniffer:seen:fetch", 0⟩, ⟨0, 0, 0, 0, 0⟩, ⟨[], []⟩, 0⟩ ⟨[], 0, [], []⟩
        (.envelope none (some ⟨"/ipns/k51abc", "ipns-dht", "datastore_put:routing_key", "", ""⟩))
      = (⟨[], 0, [], []⟩, none) :=
  ⟨by decide,
   ((normalizeToFetchTarget_spec "/ipns/k51abc" ⟨fun _ => .answered, fun _ => none⟩
      ⟨⟨"ipfsniffer:seen:fetch", 0⟩, ⟨0, 0, 0, 0, 0⟩, ⟨[], []⟩, 0⟩ ⟨[], 0, [], []⟩ none
      ⟨"/ipns/k51abc", "ipns-dht", "datastore_put:routing_key", "", ""⟩).2 (by decide)).1,
   ((normalizeToFetchTarget_spec "/ipns/k51abc" ⟨fun _ => .answered, fun _ => none⟩
      ⟨⟨"ipfsniffer:seen:fetch", 0⟩, ⟨0, 0, 0, 0, 0⟩, ⟨[], []⟩, 0⟩ ⟨[], 0, [], []⟩ none
      ⟨"/ipns/k51abc", "ipns-dht", "datastore_put:routing_key", "", ""⟩).2 (by decide)).2 rfl⟩

/-- The scenarios of the normalisation, evaluated. -/
theorem normalizeToFetchTarget_examples :
    normalizeToFetchTarget "  /ipfs/Qmabc/x/y " = ("Qmabc", "/ipfs/Qmabc/x/y") ∧
    normalizeToFetchTarget "bafyxyz" = ("bafyxyz", "/ipfs/bafyxyz") ∧
    normalizeToFetchTarget "/ipfs//x" = ("", "") ∧
    normalizeToFetchTarget "k51abc" = ("", "") := by
  decide

/-! ### Dedup before publish -/

/-- The method `Seen` on a non-empty key, with the defaults resolved. -/
theorem seen_eq (d : redis.Dedupe) (reply : redis.Reply) (store : List String)
    (cid : String) (hc : cid ≠ "") :
    d.Seen reply store cid =
      match reply with
      | .failed e applied =>
        (if applied = true ∧ ((if d.Prefix = "" then "ipfsniffer:seen" else d.Prefix) ++ ":" ++ cid) ∉ store
          then ((if d.Prefix = "" then "ipfsniffer:seen" else d.Prefix) ++ ":" ++ cid) :: store
          else store, .error ("redis setnx: " ++ e))
      | .answered =>
        if ((if d.Prefix = "" then "ipfsniffer:seen" else d.Prefix) ++ ":" ++ cid) ∈ store
        then (store, .ok true)
        else (((if d.Prefix = "" then "ipfsniffer:seen" else d.Prefix) ++ ":" ++ cid) :: store, .ok false) := by
  unfold redis.Dedupe.Seen
  rw [if_neg hc]
  by_cases hp : d.Prefix = "" <;> by_cases ht : d.TTL = 0 <;> cases reply <;>
    simp [hp, ht, redis.Dedupe.key]

/-- `Seen` only adds to the store, and answers "not seen" only for a key that was
absent and is present afterwards. -/
theorem seen_spec (d : redis.Dedupe) (reply : redis.Reply) (store : List String)
    (cid : String) :
    (∀ k ∈ store, k ∈ (d.Seen reply store cid).1) ∧
    ((d.Seen reply store cid).2 = .ok false →
      ((if d.Prefix = "" then "ipfsniffer:seen" else d.Prefix) ++ ":" ++ cid) ∉ store ∧
      ((if d.Prefix = "" then "ipfsniffer:seen" else d.Prefix) ++ ":" ++ cid)
        ∈ (d.Seen reply store cid).1) := by
  by_cases hc : cid = ""
  · have : d.Seen reply store cid = (store, .error "cid required") := by
      unfold redis.Dedupe.Seen; rw [if_pos hc]
    rw [this]
    exact ⟨fun k hk => hk, fun h => by cases h⟩
  · rw [seen_eq d reply store cid hc]
    generalize (if d.Prefix = "" then "ipfsniffer:seen" else d.Prefix) ++ ":" ++ cid = key
    cases reply with
    | failed e applied =>
      refine ⟨fun k hk => ?_, fun h => by cases h⟩
      by_cases hm : applied = true ∧ key ∉ store
      · simp only [if_pos hm]; exact List.mem_cons_of_mem _ hk
      · simp only [if_neg hm]; exact hk
    | answered =>
      by_cases hm : key ∈ store
      · simp only [if_pos hm]
        exact ⟨fun k hk => hk, fun h => by cases h⟩
      · simp only [if_neg hm]
        exact ⟨fun k hk => List.mem_cons_of_mem _ hk, fun _ => ⟨hm, List.mem_cons_self _ _⟩⟩

/-- `enqueueFetch` only adds to the store and hands over at most one request, for a
key that was absent and is present afterwards. -/
theorem enqueueFetch_spec (env : Env) (w : FetchEnqueuer) (world : World)
    (trace : Option String) (rootCID path observedAt : String) :
    (∀ k ∈ world.store, k ∈ (enqueueFetch env w world trace rootCID path observedAt).1.store) ∧
    ((enqueueFetch env w world trace rootCID path observedAt).1.requests = world.requests ∨
      ∃ req, (enqueueFetch env w world trace rootCID path observedAt).1.requests
          = world.requests ++ [req] ∧
        req.RootCid = rootCID ∧ req.Path = path ∧
        markKey w rootCID path ∉ world.store ∧
        markKey w rootCID path
          ∈ (enqueueFetch env w world trace rootCID path observedAt).1.store) := by
  have hs := seen_spec w.Dedupe (env.redisReply world.redisCalls) world.store
    (rootCID ++ ":" ++ path)
  unfold enqueueFetch
  simp only []
  split
  · exact ⟨hs.1, Or.inl rfl⟩
  · exact ⟨hs.1, Or.inl rfl⟩
  · next heq =>
    have hk := hs.2 heq
    split
    · exact ⟨hs.1, Or.inr ⟨_, rfl, rfl, rfl, hk.1, hk.2⟩⟩
    · exact ⟨hs.1, Or.inr ⟨_, rfl, rfl, rfl, hk.1, hk.2⟩⟩

/-- `handleDiscovered` only adds to the store and hands over at most one request,
for a key that was absent and is present afterwards. -/
theorem handleDiscovered_spec (env : Env) (w : FetchEnqueuer) (world : World) (msg : Inbound) :
    (∀ k ∈ world.store, k ∈ (handleDiscovered env w world msg).1.store) ∧
    ((handleDiscovered env w world msg).1.requests = world.requests ∨
      ∃ req, (handleDiscovered env w world msg).1.requests = world.requests ++ [req] ∧
        markKey w req.RootCid req.Path ∉ world.store ∧
        markKey w req.RootCid req.Path ∈ (handleDiscovered env w world msg).1.store) := by
  unfold handleDiscovered
  split
  · exact ⟨fun k hk => hk, Or.inl rfl⟩
  · exact ⟨fun k hk => hk, Or.inl rfl⟩
  · next trace d =>
    simp only []
    split
    · exact ⟨fun k hk => hk, Or.inl rfl⟩
    · split
      · exact ⟨fun k hk => hk, Or.inl rfl⟩
      · split
        · exact ⟨fun k hk => hk, Or.inl rfl⟩
        · obtain ⟨h1, h2⟩ := enqueueFetch_spec env w world trace
            (normalizeToFetchTarget (Go.TrimSpace d.Cid)).1
            (normalizeToFetchTarget (Go.TrimSpace d.Cid)).2 d.ObservedAt
          refine ⟨h1, ?_⟩
          rcases h2 with h2 | ⟨req, h3, h4, h5, h6, h7⟩
          · exact Or.inl h2
          · exact Or.inr ⟨req, h3, by rw [h4, h5]; exact h6, by rw [h4, h5]; exact h7⟩

/-- The invariant of the message loop: the key of every request is marked, and
the keys of the requests are pairwise distinct. -/
theorem process_invariant (env : Env) (w : FetchEnqueuer) (msgs : List Inbound) :
    ∀ world : World,
      (∀ q ∈ world.requests, markKey w q.RootCid q.Path ∈ world.store) →
      (world.requests.map (fun q => markKey w q.RootCid q.Path)).Nodup →
      (∀ q ∈ (process env w world msgs).requests,
        markKey w q.RootCid q.Path ∈ (process env w world msgs).store) ∧
      ((process env w world msgs).requests.map (fun q => markKey w q.RootCid q.Path)).Nodup := by
  induction msgs with
  | nil => intro world h1 h2; exact ⟨h1, h2⟩
  | cons m rest ih =>
    intro world h1 h2
    rw [process]
    obtain ⟨hmono, hreq⟩ := handleDiscovered_spec env w world m
    apply ih
    · rcases hreq with hreq | ⟨req, hreq, _, hin⟩
      · rw [hreq]; exact fun q hq => hmono _ (h1 q hq)
      · rw [hreq]
        intro q hq
        rcases List.mem_append.mp hq with hq | hq
        · exact hmono _ (h1 q hq)
        · rw [List.mem_singleton.mp hq]; exact hin
    · rcases hreq with hreq | ⟨req, hreq, hnot, _⟩
      · rw [hreq]; exact h2
      · rw [hreq, List.map_append, List.nodup_append]
        refine ⟨h2, by simp, ?_⟩
        intro a ha hb
        simp only [List.map_cons, List.map_nil, List.mem_singleton] at hb
        obtain ⟨q, hq, hqa⟩ := List.mem_map.mp ha
        exact hnot (by rw [← hb, ← hqa]; exact h1 q hq)

/-- C10. Over every sequence of `cid.discovered` messages, whatever the store
held before and however the key-value store and the bus answer, the requests
handed to the bus have pairwise distinct `(root, path)` targets and the key of
each of them is marked in the store.  A call of `enqueueFetch` hands a request
to the bus only if the key "<root>:<path>" was not marked under the prefix, and
the key is marked in the store the call leaves behind, whether or not the
publish succeeded. -/
theorem fetch_request_at_most_once (env : Env) (w : FetchEnqueuer) (store : List String)
    (calls : Nat) (msgs : List Inbound) (world : World) (trace : Option String)
    (rootCID path observedAt : String) :
    ((process env w ⟨store, calls, [], []⟩ msgs).requests.map
      (fun q => (q.RootCid, q.Path))).Nodup ∧
    (∀ q ∈ (process env w ⟨store, calls, [], []⟩ msgs).requests,
      markKey w q.RootCid q.Path ∈ (process env w ⟨store, calls, [], []⟩ msgs).store) ∧
    ((enqueueFetch env w world trace rootCID path observedAt).1.requests ≠ world.requests →
      markKey w rootCID path ∉ world.store ∧
      markKey w rootCID path
        ∈ (enqueueFetch env w world trace rootCID path observedAt).1.store ∧
      ∃ req, (enqueueFetch env w world trace rootCID path observedAt).1.requests
          = world.requests ++ [req] ∧ req.RootCid = rootCID ∧ req.Path = path) := by
  obtain ⟨h1, h2⟩ := process_invariant env w msgs ⟨store, calls, [], []⟩
    (fun q hq => by cases hq) (by simp)
  refine ⟨?_, h1, fun hne => ?_⟩
  · have h3 : ((process env w ⟨store, calls, [], []⟩ msgs).requests.map
        (fun q => markKey w q.RootCid q.Path))
        = ((process env w ⟨store, calls, [], []⟩ msgs).requests.map
            (fun q => (q.RootCid, q.Path))).map (fun p => markKey w p.1 p.2) := by
      rw [List.map_map]; rfl
    rw [h3] at h2
    exact List.Nodup.of_map _ h2
  · rcases (enqueueFetch_spec env w world trace rootCID path observedAt).2 with h | ⟨req, h3, h4, h5, h6, h7⟩
    · exact absurd h hne
    · exact ⟨h6, h7, req, h3, h4, h5⟩

/-- C10 (witness): the same target discovered twice, the second time after a failed
publish of the first request. -/
theorem fetch_request_at_most_once_witness :
    ((process ⟨fun _ => .answered, fun _ => some "timeout"⟩
        ⟨⟨"ipfsniffer:seen:fetch", 0⟩, ⟨0, 0, 0, 0, 0⟩, ⟨[], []⟩, 0⟩ ⟨[], 0, [], []⟩
        [.envelope none (some ⟨"bafyabc", "pubsub", "", "", ""⟩),
         .envelope none (some ⟨"/ipfs/bafyabc", "pubsub", "", "", ""⟩)]).requests.map
      (fun q => (q.RootCid, q.Path))) = [("bafyabc", "/ipfs/bafyabc")] ∧
    (enqueueFetch ⟨fun _ => .answered, fun _ => some "timeout"⟩
        ⟨⟨"ipfsniffer:seen:fetch", 0⟩, ⟨0, 0, 0, 0, 0⟩, ⟨[], []⟩, 0⟩ ⟨[], 0, [], []⟩ none
        "bafyabc" "/ipfs/bafyabc" "").1.requests ≠ [] ∧
    "ipfsniffer:seen:fetch:bafyabc:/ipfs/bafyabc"
      ∈ (enqueueFetch ⟨fun _ => .answered, fun _ => some "timeout"⟩
        ⟨⟨"ipfsniffer:seen:fetch", 0⟩, ⟨0, 0, 0, 0, 0⟩, ⟨[], []⟩, 0⟩ ⟨[], 0, [], []⟩ none
        "bafyabc" "/ipfs/bafyabc" "").1.store :=
  ⟨by decide, by decide,
   ((fetch_request_at_most_once ⟨fun _ => .answered, fun _ => some "timeout"⟩
      ⟨⟨"ipfsniffer:seen:fetch", 0⟩, ⟨0, 0, 0, 0, 0⟩, ⟨[], []⟩, 0⟩ [] 0 [] ⟨[], 0, [], []⟩ none
      "bafyabc" "/ipfs/bafyabc" "").2.2 (by decide)).2.1⟩

end enqueue

/-! ## The stream server -/

namespace fetcher

/-- The data bytes of two sequences add up. -/
theorem dataBytes_append (a b : List Publication) :
    dataBytes (a ++ b) = dataBytes a + dataBytes b := by
  simp [dataBytes]

/-- A terminal publish after which `handle` returns has the shape of the loop. -/
theorem shape_terminal (env : StreamEnv) (maxBytes sent : Int) (log : List Publication)
    (subject : String) (c : StreamChunkData) (hE : c.Eof = true) (hD : c.Data = []) :
    LoopShape env maxBytes sent log
      ((publishChunk env log subject c).1, .returned (publishChunk env log subject c).2) := by
  refine ⟨[], [⟨subject, c⟩], by simp [publishChunk], by simp, Or.inr ⟨_, rfl, hE, hD⟩,
    by simp [dataBytes], by simp, ?_⟩
  intro _ hp e h
  simp only [publishChunk, hp, Outcome.returned.injEq] at h
  exact h.symm

/-- A return with an error, which a live context and succeeding publishes exclude. -/
theorem shape_stop (env : StreamEnv) (maxBytes sent : Int) (log : List Publication)
    (e : String)
    (hbad : (∀ k, env.ctxErr k = none) → (∀ k, env.publishErr k = none) → False) :
    LoopShape env maxBytes sent log (log, .returned (some e)) := by
  refine ⟨[], [], by simp, by simp, Or.inl rfl, by simp [dataBytes], ?_, ?_⟩
  · intro h; simp at h
  · intro hc hp; exact absurd (hbad hc hp) id

/-- A loop that has not returned yet has added nothing beyond its data chunks. -/
theorem shape_running (env : StreamEnv) (maxBytes sent : Int) (log : List Publication) :
    LoopShape env maxBytes sent log (log, .running) := by
  refine ⟨[], [], by simp, by simp, Or.inl rfl, by simp [dataBytes], ?_, ?_⟩
  · intro h; simp at h
  · intro _ _ e h; simp at h

/-- A data chunk within the budget, followed by a run of the shape, is of the shape. -/
theorem shape_prepend (env : StreamEnv) (maxBytes sent : Int) (log : List Publication)
    (d : Publication) (r : List Publication × Outcome)
    (hd : d.chunk.Eof = false ∧ d.chunk.Error = "" ∧ d.chunk.Data ≠ [])
    (hle : sent + (d.chunk.Data.length : Int) ≤ maxBytes)
    (h : LoopShape env maxBytes (sent + d.chunk.Data.length) (log ++ [d]) r) :
    LoopShape env maxBytes sent log r := by
  obtain ⟨ds, ts, h1, h2, h3, h4, h5, h6⟩ := h
  refine ⟨d :: ds, ts, by simp [h1], ?_, h3, ?_, h5, h6⟩
  · intro x hx
    rcases List.mem_cons.mp hx with hx | hx
    · rw [hx]; exact hd
    · exact h2 x hx
  · intro _
    have := h4 hle
    have hb : dataBytes (d :: ds) = d.chunk.Data.length + dataBytes ds := by simp [dataBytes]
    rw [hb]; push_cast; omega

/-- Every run of the loop has the shape: data chunks within `maxBytes`, then at
most one terminal message. -/
theorem streamLoop_shape {σ : Type} (env : StreamEnv) (rd : Reader σ) (subject streamID : String)
    (chunkSize maxBytes : Int) :
    ∀ (fuel : Nat) (s : σ) (sent seq : Int) (polls : Nat) (log : List Publication),
      LoopShape env maxBytes sent log
        (streamLoop env rd subject streamID chunkSize maxBytes fuel s sent seq polls log) := by
  intro fuel
  induction fuel with
  | zero =>
    intro s sent seq polls log
    exact shape_running env maxBytes sent log
  | succ fuel ih =>
    intro s sent seq polls log
    rw [streamLoop]
    split
    · next e he =>
      exact shape_stop env maxBytes sent log e (fun hc _ => by rw [hc] at he; cases he)
    · next he =>
      split
      · exact shape_terminal env maxBytes sent log subject _ rfl rfl
      · next hlt =>
        simp only []
        generalize hwant : (if maxBytes - sent < chunkSize then maxBytes - sent else chunkSize) = want
        generalize hr : rd.read s want.toNat = r
        have hlen : ((r.1.data.take want.toNat).length : Int) ≤ maxBytes - sent := by
          have h1 : (r.1.data.take want.toNat).length ≤ want.toNat := by
            rw [List.length_take]; exact Nat.min_le_left _ _
          have h2 : want ≤ maxBytes - sent := by
            rw [← hwant]; split <;> omega
          have h3 : (want.toNat : Int) ≤ maxBytes - sent := by
            have : 0 < maxBytes - sent := by omega
            omega
          omega
        by_cases hn : (r.1.data.take want.toNat).length > 0
        · rw [if_pos hn]
          have hd : (⟨subject, ⟨streamID, seq + 1, r.1.data.take want.toNat, false, ""⟩⟩ :
              Publication).chunk.Eof = false ∧
              (⟨subject, ⟨streamID, seq + 1, r.1.data.take want.toNat, false, ""⟩⟩ :
                Publication).chunk.Error = "" ∧
              (⟨subject, ⟨streamID, seq + 1, r.1.data.take want.toNat, false, ""⟩⟩ :
                Publication).chunk.Data ≠ [] :=
            ⟨rfl, rfl, fun h => by
              have h0 : r.1.data.take want.toNat = [] := h
              rw [h0] at hn
              exact absurd hn (by decide)⟩
          simp only [publishChunk]
          cases hp : env.publishErr log.length with
          | some e =>
            simp only []
            refine shape_prepend env maxBytes sent log _ _ hd (by show sent + ((r.1.data.take want.toNat).length : Int) ≤ maxBytes; omega) ?_
            exact shape_stop env maxBytes _ _ e (fun _ hq => by rw [hq] at hp; cases hp)
          | none =>
            simp only []
            refine shape_prepend env maxBytes sent log _ _ hd (by show sent + ((r.1.data.take want.toNat).length : Int) ≤ maxBytes; omega) ?_
            cases r.1.err with
            | none => exact ih _ _ _ _ _
            | some re =>
              cases re with
              | eof => exact shape_terminal env maxBytes _ _ subject _ rfl rfl
              | failure msg => exact shape_terminal env maxBytes _ _ subject _ rfl rfl
        · rw [if_neg hn]
          simp only []
          cases r.1.err with
          | none => exact ih _ _ _ _ _
          | some re =>
            cases re with
            | eof => exact shape_terminal env maxBytes _ _ subject _ rfl rfl
            | failure msg => exact shape_terminal env maxBytes _ _ subject _ rfl rfl

/-- Every run of `handle` on a decoded request has the shape of the loop, with
the clamped `max_bytes` as budget. -/
theorem handle_shape {σ : Type} (env : StreamEnv) (chunkSize : Int) (newID : String)
    (opened : String → Opened σ) (fuel : Nat) (data : Option StreamGetData) :
    LoopShape env
      (if (data.map (fun d => d.MaxBytes)).getD 0 ≤ 0 then 1
        else (data.map (fun d => d.MaxBytes)).getD 0) 0 []
      (StreamServer.handle env chunkSize newID opened fuel (.envelope data)) := by
  unfold StreamServer.handle
  simp only [sendErr]
  generalize (if (data.map (fun d => d.MaxBytes)).getD 0 ≤ 0 then 1
    else (data.map (fun d => d.MaxBytes)).getD 0) = M
  cases opened ((data.map (fun d => d.Path)).getD "") with
  | failed err => exact shape_terminal env M 0 [] _ ⟨newID, 1, [], true, err⟩ rfl rfl
  | notReadable => exact shape_terminal env M 0 [] _ ⟨newID, 1, [], true, "not readable"⟩ rfl rfl
  | readable rd start => exact streamLoop_shape env rd _ _ _ M fuel start 0 0 0 []

/-- C11. For every StreamGet that `handle` handles to completion while the context
stays live and every publish succeeds, `handle` returns without error and the
chunks it published are a run of non-terminal messages followed by exactly one
terminal message (eof = true or error ≠ ""), which is the last one. -/
theorem stream_ends_with_one_terminal {σ : Type} (env : StreamEnv)
    (hctx : ∀ k, env.ctxErr k = none) (hpub : ∀ k, env.publishErr k = none)
    (chunkSize : Int) (newID : String) (opened : String → Opened σ) (fuel : Nat)
    (data : Option StreamGetData) (err : Option String)
    (hdone : (StreamServer.handle env chunkSize newID opened fuel (.envelope data)).2
      = .returned err) :
    err = none ∧
    ∃ ds t, (StreamServer.handle env chunkSize newID opened fuel (.envelope data)).1 = ds ++ [t] ∧
      t.chunk.terminal = true ∧ ∀ d ∈ ds, d.chunk.terminal = false := by
  obtain ⟨ds, ts, h1, h2, h3, _, h5, h6⟩ := handle_shape env chunkSize newID opened fuel data
  have he : err = none := h6 hctx hpub err hdone
  subst he
  have hts := h5 hdone
  rcases h3 with h3 | ⟨t, h3, hE, _⟩
  · exact absurd h3 hts
  · refine ⟨rfl, ds, t, by rw [h1, h3]; simp, by simp [StreamChunkData.terminal, hE], ?_⟩
    intro d hd
    obtain ⟨e1, e2, _⟩ := h2 d hd
    simp [StreamChunkData.terminal, e1, e2]

/-- C11 (witness): a file of three bytes streamed in chunks of two. -/
theorem stream_ends_with_one_terminal_witness :
    (StreamServer.handle StreamEnv.quiet 2 "s-1"
      (fun _ => Opened.readable (fillingReader false) [1, 2, 3]) 10
      (.envelope (some ⟨"r", "/ipfs/r/f", 100⟩))).2 = .returned none ∧
    (none : Option String) = none ∧
    ∃ ds t, (StreamServer.handle StreamEnv.quiet 2 "s-1"
        (fun _ => Opened.readable (fillingReader false) [1, 2, 3]) 10
        (.envelope (some ⟨"r", "/ipfs/r/f", 100⟩))).1 = ds ++ [t] ∧
      t.chunk.terminal = true ∧ ∀ d ∈ ds, d.chunk.terminal = false :=
  ⟨by decide,
   stream_ends_with_one_terminal StreamEnv.quiet (fun _ => rfl) (fun _ => rfl) 2 "s-1"
    (fun _ => Opened.readable (fillingReader false) [1, 2, 3]) 10
    (some ⟨"r", "/ipfs/r/f", 100⟩) none (by decide)⟩

/-- C12 (failing input): chunks of two bytes, a reader that delivers four bytes in
two reads and then fails.  The data chunks carry seq 1 and 2, the terminal
message carries seq 1: seq does not increase, and the terminal seq is below the
seq of a data chunk. -/
theorem stream_error_terminal_restarts_seq :
    (StreamServer.handle StreamEnv.quiet 2 "s-1"
      (fun _ => Opened.readable scriptedReader
        [⟨[1, 2], none⟩, ⟨[3, 4], none⟩, ⟨[], some (.failure "block not found")⟩]) 10
      (.envelope (some ⟨"r", "/ipfs/r/f", 100⟩))).1.map
        (fun p => (p.chunk.Seq, p.chunk.Data, p.chunk.Eof, p.chunk.Error))
      = [(1, [1, 2], false, ""), (2, [3, 4], false, ""), (1, [], true, "block not found")] := by
  decide

/-- C13 (failing input): the extractor draws the identifier "e-1", subscribes to
"stream.chunk.e-1" and publishes its StreamGet, which carries no identifier; the
server draws its own identifier "s-1" and publishes every chunk on
"stream.chunk.s-1", a subject the extractor did not subscribe to. -/
theorem chunks_miss_the_subscribed_subject :
    (extractor.streamReader 0 "e-1" "r" "/ipfs/r/f" 100).1 = "stream.chunk.e-1" ∧
    (StreamServer.handle StreamEnv.quiet 2 "s-1"
      (fun _ => Opened.readable (fillingReader false) [1, 2, 3]) 10
      (.envelope (some (extractor.streamReader 0 "e-1" "r" "/ipfs/r/f" 100).2))).1.map
        (fun p => p.subject)
      = ["stream.chunk.s-1", "stream.chunk.s-1", "stream.chunk.s-1"] ∧
    ∀ p ∈ (StreamServer.handle StreamEnv.quiet 2 "s-1"
      (fun _ => Opened.readable (fillingReader false) [1, 2, 3]) 10
      (.envelope (some (extractor.streamReader 0 "e-1" "r" "/ipfs/r/f" 100).2))).1,
      p.subject ≠ (extractor.streamReader 0 "e-1" "r" "/ipfs/r/f" 100).1 := by
  decide

/-- A sequence of chunks with bytes that carries no byte is empty. -/
theorem dataBytes_eq_zero (l : List Publication)
    (h : ∀ d ∈ l, d.chunk.Data ≠ []) (h0 : dataBytes l = 0) : l = [] := by
  cases l with
  | nil => rfl
  | cons a l =>
    have ha := h a (List.mem_cons_self _ _)
    have : 0 < a.chunk.Data.length := List.length_pos.mpr ha
    unfold dataBytes at h0
    rw [List.map_cons, List.sum_cons] at h0
    omega

/-- Once the data chunks of a run sum to the budget, only the terminal message can
follow. -/
theorem after_budget_terminal (ds ts pre rest : List Publication) (M : Int)
    (hds : ∀ d ∈ ds, d.chunk.Eof = false ∧ d.chunk.Error = "" ∧ d.chunk.Data ≠ [])
    (hts : ts = [] ∨ ∃ t, ts = [t] ∧ t.chunk.Eof = true ∧ t.chunk.Data = [])
    (hle : (dataBytes ds : Int) ≤ M)
    (heq : ds ++ ts = pre ++ rest) (hpre : (dataBytes pre : Int) = M) :
    rest.length ≤ 1 ∧ ∀ t ∈ rest, t.chunk.Eof = true ∧ t.chunk.Data = [] := by
  have hsuf : ∃ c, ts = c ++ rest := by
    rcases List.append_eq_append_iff.mp heq with ⟨a, h1, h2⟩ | ⟨c, h1, h2⟩
    · -- pre = ds ++ a, ts = a ++ rest
      exact ⟨a, h2⟩
    · -- ds = pre ++ c, rest = c ++ ts
      have hb : dataBytes ds = dataBytes pre + dataBytes c := by rw [h1, dataBytes_append]
      have hc0 : dataBytes c = 0 := by
        have : (dataBytes ds : Int) = dataBytes pre + dataBytes c := by rw [hb]; push_cast; rfl
        omega
      have hc : c = [] := dataBytes_eq_zero c
        (fun d hd => (hds d (by rw [h1]; exact List.mem_append_right _ hd)).2.2) hc0
      exact ⟨[], by rw [h2, hc]; simp⟩
  obtain ⟨c, hc⟩ := hsuf
  rcases hts with hts | ⟨t, hts, hE, hD⟩
  · rw [hts] at hc
    have : rest = [] := by
      have := congrArg List.length hc
      simp at this
      exact List.length_eq_zero.mp (by omega)
    rw [this]; simp
  · rw [hts] at hc
    have hlen := congrArg List.length hc
    simp at hlen
    refine ⟨by omega, ?_⟩
    intro x hx
    have : x ∈ [t] := by rw [hc]; exact List.mem_append_right _ hx
    rw [List.mem_singleton.mp this]
    exact ⟨hE, hD⟩

/-- C15. Whatever the reader, the context and the bus do and however long the loop
has run, the data bytes published for one StreamGet never exceed the request's
`max_bytes` when it is positive; once that many bytes are out, at most one more
message follows, and it is terminal with eof = true and no data; it does follow
when `handle` returns without error.  A request with `max_bytes ≤ 0` is served
exactly as the same request with `max_bytes = 1`, so at most one data byte is
published. -/
theorem stream_data_within_max_bytes {σ : Type} (env : StreamEnv) (chunkSize : Int)
    (newID : String) (opened : String → Opened σ) (fuel : Nat) (req : StreamGetData) :
    (0 < req.MaxBytes →
      (dataBytes (StreamServer.handle env chunkSize newID opened fuel
        (.envelope (some req))).1 : Int) ≤ req.MaxBytes ∧
      (∀ pre rest, (StreamServer.handle env chunkSize newID opened fuel
          (.envelope (some req))).1 = pre ++ rest → (dataBytes pre : Int) = req.MaxBytes →
        rest.length ≤ 1 ∧ ∀ t ∈ rest, t.chunk.Eof = true ∧ t.chunk.Data = [])) ∧
    ((StreamServer.handle env chunkSize newID opened fuel (.envelope (some req))).2
        = .returned none →
      ∃ ds t, (StreamServer.handle env chunkSize newID opened fuel (.envelope (some req))).1
          = ds ++ [t] ∧ t.chunk.Eof = true ∧ t.chunk.Data = []) ∧
    (req.MaxBytes ≤ 0 →
      StreamServer.handle env chunkSize newID opened fuel (.envelope (some req))
        = StreamServer.handle env chunkSize newID opened fuel
            (.envelope (some { req with MaxBytes := 1 })) ∧
      dataBytes (StreamServer.handle env chunkSize newID opened fuel
        (.envelope (some req))).1 ≤ 1) := by
  obtain ⟨ds, ts, h1, h2, h3, h4, h5, _⟩ :=
    handle_shape env chunkSize newID opened fuel (some req)
  simp only [Option.map_some', Option.getD_some, List.nil_append] at h1 h4
  have hbytes : dataBytes (StreamServer.handle env chunkSize newID opened fuel
      (.envelope (some req))).1 = dataBytes ds := by
    rw [h1, dataBytes_append]
    rcases h3 with h3 | ⟨t, h3, _, hD⟩
    · rw [h3]; simp [dataBytes]
    · rw [h3]; simp [dataBytes, hD]
  refine ⟨fun hpos => ?_, fun hret => ?_, fun hneg => ?_⟩
  · rw [if_neg (by omega)] at h4
    have hle : (dataBytes ds : Int) ≤ req.MaxBytes := by have := h4 (by omega); omega
    refine ⟨by rw [hbytes]; exact hle, fun pre rest heq hpre => ?_⟩
    exact after_budget_terminal ds ts pre rest req.MaxBytes h2 h3 hle (by rw [← h1]; exact heq) hpre
  · rcases h3 with h3 | ⟨t, h3, hE, hD⟩
    · exact absurd h3 (h5 hret)
    · exact ⟨ds, t, by rw [h1, h3], hE, hD⟩
  · rw [if_pos hneg] at h4
    refine ⟨?_, ?_⟩
    · unfold StreamServer.handle
      simp only [Option.map_some', Option.getD_some, if_pos hneg]
      rfl
    · rw [hbytes]
      have := h4 (by omega)
      omega

/-- C15 (witness): `max_bytes = 3` on a file of five bytes, and `max_bytes = 0`. -/
theorem stream_data_within_max_bytes_witness :
    (dataBytes (StreamServer.handle StreamEnv.quiet 2 "s-1"
        (fun _ => Opened.readable (fillingReader false) [1, 2, 3, 4, 5]) 10
        (.envelope (some ⟨"r", "/ipfs/r/f", 3⟩))).1 : Int) ≤ 3 ∧
    (∃ ds t, (StreamServer.handle StreamEnv.quiet 2 "s-1"
        (fun _ => Opened.readable (fillingReader false) [1, 2, 3, 4, 5]) 10
        (.envelope (some ⟨"r", "/ipfs/r/f", 3⟩))).1 = ds ++ [t] ∧
      t.chunk.Eof = true ∧ t.chunk.Data = []) ∧
    dataBytes (StreamServer.handle StreamEnv.quiet 2 "s-1"
        (fun _ => Opened.readable (fillingReader false) [1, 2, 3, 4, 5]) 10
        (.envelope (some ⟨"r", "/ipfs/r/f", 0⟩))).1 ≤ 1 :=
  ⟨((stream_data_within_max_bytes StreamEnv.quiet 2 "s-1"
      (fun _ => Opened.readable (fillingReader false) [1, 2, 3, 4, 5]) 10
      ⟨"r", "/ipfs/r/f", 3⟩).1 (by decide)).1,
   (stream_data_within_max_bytes StreamEnv.quiet 2 "s-1"
      (fun _ => Opened.readable (fillingReader false) [1, 2, 3, 4, 5]) 10
      ⟨"r", "/ipfs/r/f", 3⟩).2.1 (by decide),
   ((stream_data_within_max_bytes StreamEnv.quiet 2 "s-1"
      (fun _ => Opened.readable (fillingReader false) [1, 2, 3, 4, 5]) 10
      ⟨"r", "/ipfs/r/f", 0⟩).2.2 (by decide)).2⟩


/-- No pieces of no data. -/
theorem piecesAux_nil (size fuel : Nat) : piecesAux size fuel [] = [] := by
  cases fuel <;> simp [piecesAux]

/-- The pieces do not depend on the bound once it covers the data. -/
theorem piecesAux_fuel (size : Nat) (hsize : 0 < size) :
    ∀ (f₁ f₂ : Nat) (l : List Nat), l.length ≤ f₁ → l.length ≤ f₂ →
      piecesAux size f₁ l = piecesAux size f₂ l := by
  intro f₁
  induction f₁ with
  | zero =>
    intro f₂ l h1 _
    have : l = [] := List.length_eq_zero.mp (by omega)
    rw [this, piecesAux_nil, piecesAux_nil]
  | succ f₁ ih =>
    intro f₂ l h1 h2
    cases f₂ with
    | zero =>
      have : l = [] := List.length_eq_zero.mp (by omega)
      rw [this, piecesAux_nil, piecesAux_nil]
    | succ f₂ =>
      rw [piecesAux, piecesAux]
      by_cases hl : l = []
      · rw [if_pos hl, if_pos hl]
      · rw [if_neg hl, if_neg hl]
        have hpos : 0 < l.length := List.length_pos.mpr hl
        have hd : (l.drop size).length ≤ l.length - 1 := by
          rw [List.length_drop]; omega
        rw [ih f₂ (l.drop size) (by omega) (by omega)]

/-- No pieces of no data. -/
theorem pieces_nil (size : Nat) : pieces size [] = [] := rfl

/-- The first piece and the pieces of the rest. -/
theorem pieces_cons (size : Nat) (hsize : 0 < size) (l : List Nat) (hl : l ≠ []) :
    pieces size l = l.take size :: pieces size (l.drop size) := by
  have hpos : 0 < l.length := List.length_pos.mpr hl
  unfold pieces
  obtain ⟨n, hn⟩ : ∃ n, l.length = n + 1 := ⟨l.length - 1, by omega⟩
  rw [hn, piecesAux, if_neg hl]
  have hd : (l.drop size).length ≤ n := by rw [List.length_drop]; omega
  rw [piecesAux_fuel size hsize n (l.drop size).length (l.drop size) hd (le_refl _)]

/-- The loop on a filling reader publishes the pieces of the remaining data and
then the terminal message. -/
theorem streamLoop_filling (env : StreamEnv) (hctx : ∀ k, env.ctxErr k = none)
    (hpub : ∀ k, env.publishErr k = none) (eager : Bool) (subject streamID : String)
    (chunkSize maxBytes : Int) (hC : 0 < chunkSize) :
    ∀ (fuel : Nat) (rest : List Nat) (sent seq : Int) (polls : Nat) (log : List Publication),
      rest.length + 2 ≤ fuel → sent + rest.length ≤ maxBytes →
      streamLoop env (fillingReader eager) subject streamID chunkSize maxBytes fuel rest sent
          seq polls log
        = (log ++ dataChunks subject streamID seq (pieces chunkSize.toNat rest) ++
            [⟨subject, ⟨streamID, seq + (pieces chunkSize.toNat rest).length + 1, [], true, ""⟩⟩],
           .returned none) := by
  have hCn : 0 < chunkSize.toNat := by omega
  intro fuel
  induction fuel with
  | zero => intro rest sent seq polls log h; omega
  | succ fuel ih =>
    intro rest sent seq polls log hfuel hsent
    rw [streamLoop, hctx]
    simp only []
    by_cases hge : sent ≥ maxBytes
    · have hr : rest = [] := List.length_eq_zero.mp (by omega)
      subst hr
      rw [if_pos hge]
      simp [sendEOF, publishChunk, hpub, pieces_nil, dataChunks]
    · rw [if_neg hge]
      by_cases hr : rest = []
      · subst hr
        simp [fillingReader, sendEOF, publishChunk, hpub, pieces_nil, dataChunks]
      · have hpos : 0 < rest.length := List.length_pos.mpr hr
        have hw : (if maxBytes - sent < chunkSize then maxBytes - sent else chunkSize).toNat
              = chunkSize.toNat ∨
            rest.length ≤
              (if maxBytes - sent < chunkSize then maxBytes - sent else chunkSize).toNat ∧
            rest.length ≤ chunkSize.toNat := by
          split
          · right; omega
          · left; rfl
        generalize (if maxBytes - sent < chunkSize then maxBytes - sent else chunkSize) = want
          at hw ⊢
        have hw1 : rest.take want.toNat = rest.take chunkSize.toNat := by
          rcases hw with hw | ⟨h1, h2⟩
          · rw [hw]
          · rw [List.take_of_length_le h1, List.take_of_length_le h2]
        have hw2 : rest.drop want.toNat = rest.drop chunkSize.toNat := by
          rcases hw with hw | ⟨h1, h2⟩
          · rw [hw]
          · rw [List.drop_of_length_le h1, List.drop_of_length_le h2]
        have hw3 : (rest.take chunkSize.toNat).take want.toNat = rest.take chunkSize.toNat := by
          rw [← hw1, List.take_take, Nat.min_self]
        have hne : rest.take chunkSize.toNat ≠ [] := by
          intro h
          have := congrArg List.length h
          rw [List.length_take, List.length_nil] at this
          omega
        have hlen : 0 < (rest.take chunkSize.toNat).length := List.length_pos.mpr hne
        have hsum : (rest.take chunkSize.toNat).length + (rest.drop chunkSize.toNat).length
            = rest.length := by
          rw [List.length_take, List.length_drop]; omega
        have hread : (fillingReader eager).read rest want.toNat
            = (⟨rest.take chunkSize.toNat,
                if eager && (rest.drop chunkSize.toNat).isEmpty then some .eof else none⟩,
               rest.drop chunkSize.toNat) := by
          simp only [fillingReader, hw1, hw2, if_neg hne]
        rw [hread]
        simp only [hw3, if_pos hlen, publishChunk, hpub]
        rw [pieces_cons _ hCn rest hr]
        by_cases heof : (eager && (rest.drop chunkSize.toNat).isEmpty) = true
        · rw [if_pos heof]
          have hd : rest.drop chunkSize.toNat = [] := by
            simp only [Bool.and_eq_true, List.isEmpty_iff] at heof
            exact heof.2
          simp [sendEOF, publishChunk, hpub, hd, pieces_nil, dataChunks]
        · rw [if_neg heof]
          simp only []
          rw [ih (rest.drop chunkSize.toNat) _ _ _ _ (by omega) (by omega)]
          simp only [dataChunks, List.length_cons, List.append_assoc, List.singleton_append,
            List.cons_append, List.nil_append, Prod.mk.injEq, and_true]
          have hseq : ∀ n : Nat, seq + 1 + (n : Int) + 1 = seq + ((n + 1 : Nat) : Int) + 1 :=
            fun n => by push_cast; omega
          rw [hseq]

/-- The pieces concatenate to the data, there are `⌈L/size⌉` of them, none is
empty or longer than `size`, and all but the last have `size` bytes. -/
theorem pieces_spec (size : Nat) (hsize : 0 < size) :
    ∀ (n : Nat) (l : List Nat), l.length = n →
      (pieces size l).flatten = l ∧
      (pieces size l).length = (l.length + size - 1) / size ∧
      (∀ pc ∈ pieces size l, 0 < pc.length ∧ pc.length ≤ size) ∧
      (∀ pc ∈ (pieces size l).dropLast, pc.length = size) := by
  intro n
  induction n using Nat.strong_induction_on with
  | _ n ih =>
    intro l hn
    by_cases hl : l = []
    · subst hl
      refine ⟨by simp [pieces_nil], ?_, by simp [pieces_nil], by simp [pieces_nil]⟩
      simp only [pieces_nil, List.length_nil, Nat.zero_add]
      exact (Nat.div_eq_of_lt (by omega)).symm
    · have hpos : 0 < l.length := List.length_pos.mpr hl
      have hdl : (l.drop size).length = l.length - size := List.length_drop _ _
      obtain ⟨h1, h2, h3, h4⟩ := ih (l.drop size).length (by omega) (l.drop size) rfl
      rw [pieces_cons size hsize l hl]
      refine ⟨?_, ?_, ?_, ?_⟩
      · rw [List.flatten_cons, h1, List.take_append_drop]
      · rw [List.length_cons, h2, hdl]
        by_cases hle : l.length ≤ size
        · have e1 : (l.length - size + size - 1) / size = 0 :=
            Nat.div_eq_of_lt (by omega)
          have e2 : (l.length + size - 1) / size = 1 :=
            Nat.div_eq_of_lt_le (by omega) (by omega)
          rw [e1, e2]
        · have e : l.length + size - 1 = (l.length - size + size - 1) + size := by omega
          rw [e, Nat.add_div_right _ hsize]
      · intro pc hpc
        rcases List.mem_cons.mp hpc with hpc | hpc
        · rw [hpc, List.length_take]; omega
        · exact h3 pc hpc
      · intro pc hpc
        by_cases hps : pieces size (l.drop size) = []
        · rw [hps] at hpc; simp at hpc
        · rw [List.dropLast_cons_of_ne_nil hps] at hpc
          rcases List.mem_cons.mp hpc with hpc | hpc
          · have hdne : l.drop size ≠ [] := by
              intro h; rw [h, pieces_nil] at hps; exact hps rfl
            have : 0 < (l.drop size).length := List.length_pos.mpr hdne
            rw [hpc, List.length_take]; omega
          · exact h4 pc hpc

/-- The `i`-th data chunk carries the `i`-th piece with seq `seq + i + 1`. -/
theorem dataChunks_getElem? (subject streamID : String) :
    ∀ (ps : List (List Nat)) (seq : Int) (i : Nat),
      (dataChunks subject streamID seq ps)[i]?
        = ps[i]?.map (fun pc => ⟨subject, ⟨streamID, seq + i + 1, pc, false, ""⟩⟩) := by
  intro ps
  induction ps with
  | nil => intro seq i; simp [dataChunks]
  | cons pc ps ih =>
    intro seq i
    cases i with
    | zero => simp [dataChunks]
    | succ i =>
      simp only [dataChunks, List.getElem?_cons_succ, ih]
      congr 1
      funext pc
      have : seq + 1 + (i : Int) + 1 = seq + ((i + 1 : Nat) : Int) + 1 := by push_cast; omega
      rw [this]

/-- C14. For a file served by a reader that fills each requested buffer until the
data runs out, with a live context and succeeding publishes, chunk size `C > 0`
and `max_bytes` at least the length `L` of the file, `handle` returns without
error once its loop has run `L + 2` iterations, and what it published is: the
pieces of the file of `C` bytes each (the last one possibly shorter, none empty)
as data chunks with eof = false, the `i`-th with seq `i`; then one terminal
message with eof = true, no data and the next seq.  The pieces concatenate to
the file and there are `⌈L/C⌉` of them. -/
theorem stream_of_whole_file (env : StreamEnv) (hctx : ∀ k, env.ctxErr k = none)
    (hpub : ∀ k, env.publishErr k = none) (chunkSize : Int) (hC : 0 < chunkSize)
    (file : List Nat) (maxBytes : Int) (hmax : (file.length : Int) ≤ maxBytes) (eager : Bool)
    (newID rootCID p : String) (fuel : Nat) (hfuel : file.length + 2 ≤ fuel) :
    StreamServer.handle env chunkSize newID
        (fun _ => Opened.readable (fillingReader eager) file) fuel
        (.envelope (some ⟨rootCID, p, maxBytes⟩))
      = (dataChunks (nats.StreamChunkSubject newID) newID 0 (pieces chunkSize.toNat file) ++
          [⟨nats.StreamChunkSubject newID,
            ⟨newID, (pieces chunkSize.toNat file).length + 1, [], true, ""⟩⟩],
         .returned none) ∧
    (∀ i : Nat,
      (dataChunks (nats.StreamChunkSubject newID) newID 0 (pieces chunkSize.toNat file))[i]?
      = (pieces chunkSize.toNat file)[i]?.map
          (fun pc => (⟨nats.StreamChunkSubject newID, ⟨newID, (i : Int) + 1, pc, false, ""⟩⟩ :
            Publication))) ∧
    (pieces chunkSize.toNat file).flatten = file ∧
    (pieces chunkSize.toNat file).length
      = (file.length + chunkSize.toNat - 1) / chunkSize.toNat ∧
    (∀ pc ∈ pieces chunkSize.toNat file, 0 < pc.length ∧ pc.length ≤ chunkSize.toNat) ∧
    (∀ pc ∈ (pieces chunkSize.toNat file).dropLast, pc.length = chunkSize.toNat) := by
  have hCn : 0 < chunkSize.toNat := by omega
  obtain ⟨h1, h2, h3, h4⟩ := pieces_spec chunkSize.toNat hCn file.length file rfl
  refine ⟨?_, fun i => ?_, h1, h2, h3, h4⟩
  · unfold StreamServer.handle
    simp only [Option.map_some', Option.getD_some]
    rw [streamLoop_filling env hctx hpub eager _ _ chunkSize _ hC fuel file 0 0 0 [] hfuel
      (by split <;> omega)]
    simp
  · rw [dataChunks_getElem?]
    simp

/-- C14 (witness): scenario E6, a file of 80 KiB in chunks of 32 KiB (the default
chunk size): three data chunks of 32768, 32768 and 16384 bytes with seq 1, 2, 3,
then the terminal message with seq 4. -/
theorem stream_of_whole_file_witness :
    effectiveChunkSize 0 = 32768 ∧
    StreamServer.handle StreamEnv.quiet 32768 "s-1"
        (fun _ => Opened.readable (fillingReader false) (List.replicate 81920 0)) 81922
        (.envelope (some ⟨"r", "/ipfs/r/f", 81920⟩))
      = ([⟨"stream.chunk.s-1", ⟨"s-1", 1, List.replicate 32768 0, false, ""⟩⟩,
          ⟨"stream.chunk.s-1", ⟨"s-1", 2, List.replicate 32768 0, false, ""⟩⟩,
          ⟨"stream.chunk.s-1", ⟨"s-1", 3, List.replicate 16384 0, false, ""⟩⟩,
          ⟨"stream.chunk.s-1", ⟨"s-1", 4, [], true, ""⟩⟩],
         .returned none) := by
  have hne : ∀ n : Nat, n ≠ 0 → List.replicate n (0 : Nat) ≠ [] := by
    intro n hn h
    have := congrArg List.length h
    rw [List.length_replicate] at this
    exact hn this
  have hp : pieces (32768 : Int).toNat (List.replicate 81920 0)
      = [List.replicate 32768 0, List.replicate 32768 0, List.replicate 16384 0] := by
    have e : (32768 : Int).toNat = 32768 := rfl
    rw [e, pieces_cons 32768 (by decide) _ (hne _ (by decide)), List.take_replicate,
      List.drop_replicate,
      pieces_cons 32768 (by decide) _ (hne _ (by decide)), List.take_replicate,
      List.drop_replicate,
      pieces_cons 32768 (by decide) _ (hne _ (by decide)), List.take_replicate,
      List.drop_replicate]
    rfl
  refine ⟨by decide, ?_⟩
  rw [(stream_of_whole_file StreamEnv.quiet (fun _ => rfl) (fun _ => rfl) 32768 (by decide)
    (List.replicate 81920 0) 81920 (by rw [List.length_replicate]; decide) false "s-1" "r"
    "/ipfs/r/f" 81922 (by rw [List.length_replicate])).1, hp]
  rfl


end fetcher

/-! ## The indexer -/

namespace indexer

/-- A payload that `codec.Unmarshal` decodes is not empty. -/
theorem unmarshal_ok_nonempty {α : Type} (pu : List Nat → Except String α) (b : List Nat)
    (h : ∃ m, codec.Unmarshal pu b = .ok m) : b ≠ [] := by
  rintro rfl
  obtain ⟨m, hm⟩ := h
  simp [codec.Unmarshal] at hm

/-- A non-empty payload handed to `PublishDLQ` for `index.request` reaches the bus
on `index.request.dlq`. -/
theorem publishDLQ_nonempty (busErr : Option String) (log : List (String × List Nat))
    (payload : List Nat) (h : payload ≠ []) :
    (nats.PublishDLQ busErr log nats.SubjectIndexRequest payload).1 =
      log ++ [(nats.DLQSubject nats.SubjectIndexRequest, payload)] := by
  have hs : nats.DLQSubject nats.SubjectIndexRequest ≠ "" := by decide
  have hl : payload.length ≠ 0 := fun h0 => h (List.length_eq_zero.mp h0)
  simp only [nats.PublishDLQ, nats.Publish, if_neg hs, if_neg hl]

/-- On decodable messages the first loop of `flushBatch` makes one item per
message, in order, and hands nothing to the bus. -/
theorem prepare_decodable (env : Env) : ∀ (msgs : List Msg) (items : List bulkItem)
    (body : List BulkAction) (dlq : List (String × List Nat)),
    (∀ m ∈ msgs, ∃ d, codec.Unmarshal env.protoUnmarshal m.Data = .ok d) →
    (prepare env msgs items body dlq).1.map bulkItem.msg = items.map bulkItem.msg ++ msgs ∧
    (prepare env msgs items body dlq).2.2 = dlq
  | [], items, body, dlq, _ => by simp [prepare]
  | m :: rest, items, body, dlq, h => by
    obtain ⟨d, hd⟩ := h m (List.mem_cons_self _ _)
    have hrest : ∀ m ∈ rest, ∃ d, codec.Unmarshal env.protoUnmarshal m.Data = .ok d :=
      fun x hx => h x (List.mem_cons_of_mem _ hx)
    rw [prepare, hd]
    cases d with
    | none =>
      have ih := prepare_decodable env rest (items ++ [⟨m, ""⟩]) body dlq hrest
      simpa using ih
    | some d =>
      have ih := prepare_decodable env rest (items ++ [⟨m, d.DocId⟩])
        (body ++ [⟨d.Index, d.DocId, d.Document⟩]) dlq hrest
      simpa using ih

/-- The last loop of `flushBatch` acknowledges every item and hands to the bus
the payloads of the rejected ones, in order. -/
theorem settle_spec (env : Env) : ∀ (its : List bulkItem)
    (entries : List (List (String × BulkRespItem))) (acks : List Msg)
    (dlq : List (String × List Nat)),
    its.length = entries.length → (∀ it ∈ its, it.msg.Data ≠ []) →
    settle env its entries acks dlq =
      (acks ++ its.map bulkItem.msg,
       dlq ++ (rejected (its.map bulkItem.msg) entries).map
         (fun m => (nats.DLQSubject nats.SubjectIndexRequest, m.Data)))
  | [], [], acks, dlq, _, _ => by simp [settle, rejected]
  | [], _ :: _, _, _, h, _ => by simp at h
  | _ :: _, [], _, _, h, _ => by simp at h
  | it :: its, entry :: entries, acks, dlq, h, hne => by
    have hlen : its.length = entries.length := by simpa using h
    have hrest : ∀ x ∈ its, x.msg.Data ≠ [] := fun x hx => hne x (List.mem_cons_of_mem _ hx)
    have hit : it.msg.Data ≠ [] := hne it (List.mem_cons_self _ _)
    rw [settle]
    by_cases hs : (firstItem entry).Status ≥ 200 ∧ (firstItem entry).Status < 300
    · rw [if_pos hs, settle_spec env its entries _ dlq hlen hrest]
      have hs2 : 200 ≤ (firstItem entry).Status ∧ (firstItem entry).Status < 300 := hs
      simp [rejected, hs2]
    · rw [if_neg hs, publishDLQ_nonempty _ _ _ hit, settle_spec env its entries _ _ hlen hrest]
      have hs2 : ¬ (200 ≤ (firstItem entry).Status ∧ (firstItem entry).Status < 300) := hs
      simp [rejected, hs2]

/-- C16: for a batch of decodable messages and a bulk response with HTTP 2xx (when
it carries an HTTP status at all) that reports errors and has one entry per
message, `flushBatch` returns every message of the batch for acknowledgement, in
order, and hands to the bus on `index.request.dlq` exactly the payloads of the
messages whose entry has a status outside 200-299, in batch order; the closure
`flush` of the run loop then acknowledges the whole batch and empties it. -/
theorem bulk_partial_failure (env : Env) (reply : List BulkAction → BulkReply)
    (dlq : List (String × List Nat)) (msgs : List Msg) (resp : BulkResp)
    (hdec : ∀ m ∈ msgs, ∃ d, codec.Unmarshal env.protoUnmarshal m.Data = .ok d)
    (hreply : reply (prepare env msgs [] [] dlq).2.1 = .response resp)
    (h2xx : ∀ code, resp.StatusCode = some code → 200 ≤ code ∧ code < 300)
    (herr : resp.Errors = true)
    (hlen : resp.Items.length = msgs.length) :
    flushBatch env reply dlq msgs =
      (dlq ++ (rejected msgs resp.Items).map
          (fun m => (nats.DLQSubject nats.SubjectIndexRequest, m.Data)), .ok msgs) ∧
    ∀ st : RunState, st.batch = msgs → st.dlq = dlq → env.bulk st.bulkCalls.length = reply →
      flush env st =
        (⟨[], st.acked ++ msgs,
          dlq ++ (rejected msgs resp.Items).map
            (fun m => (nats.DLQSubject nats.SubjectIndexRequest, m.Data)),
          if msgs = [] then st.bulkCalls else st.bulkCalls ++ [msgs]⟩, none) := by
  have hp := prepare_decodable env msgs [] [] dlq hdec
  have hcode : resp.StatusCode.filter (fun code => code < 200 || code ≥ 300) = none := by
    cases hc : resp.StatusCode with
    | none => rfl
    | some code =>
      have := h2xx code hc
      simp only [Option.filter]
      rw [if_neg]
      simp only [Bool.or_eq_true, decide_eq_true_eq, not_or, not_lt, ge_iff_le]
      omega
  have hmap : (prepare env msgs [] [] dlq).1.map bulkItem.msg = msgs := by simpa using hp.1
  have hilen : (prepare env msgs [] [] dlq).1.length = msgs.length := by
    rw [← hmap, List.length_map, hmap]
  have hne : ∀ it ∈ (prepare env msgs [] [] dlq).1, it.msg.Data ≠ [] := by
    intro it hit
    have : it.msg ∈ msgs := by
      rw [← hmap]; exact List.mem_map_of_mem _ hit
    exact unmarshal_ok_nonempty _ _ (hdec _ this)
  have hflush : flushBatch env reply dlq msgs =
      (dlq ++ (rejected msgs resp.Items).map
          (fun m => (nats.DLQSubject nats.SubjectIndexRequest, m.Data)), .ok msgs) := by
    simp only [flushBatch, hreply, hcode, herr, Bool.not_true, Bool.false_eq_true, if_false]
    rw [if_neg (by rw [hilen]; exact fun h => h hlen)]
    rw [settle_spec env _ _ _ _ (by rw [hilen, hlen]) hne, hmap, hp.2]
    simp
  refine ⟨hflush, ?_⟩
  intro st hb hd hr
  unfold flush
  by_cases h0 : msgs = []
  · subst h0
    have : st.batch.length = 0 := by rw [hb]; rfl
    rw [if_pos this, if_pos rfl]
    cases st
    simp only [rejected] at *
    simp_all
  · have : st.batch.length ≠ 0 := by
      rw [hb]; exact fun h => h0 (List.length_eq_zero.mp h)
    rw [if_neg this, if_neg h0]
    simp only [hb, hd, hr, hflush, ne_eq, not_true_eq_false, if_false]

/-- Three messages, the entry of the middle one with status 400: all three are
returned for acknowledgement and the payload of the second alone goes to
`index.request.dlq`. -/
theorem bulk_partial_failure_witness :
    flushBatch ⟨exampleDecoder, fun _ _ => .failed "unused", fun _ => none⟩
      (fun _ => .response ⟨some 200, true,
        [[("index", ⟨201, none⟩)],
         [("index", ⟨400, some ("mapper_parsing_exception", "failed to parse")⟩)],
         [("index", ⟨201, none⟩)]]⟩) []
      [⟨1, [1, 1]⟩, ⟨2, [1, 2]⟩, ⟨3, [1, 3]⟩] =
    ([("index.request.dlq", [1, 2])], .ok [⟨1, [1, 1]⟩, ⟨2, [1, 2]⟩, ⟨3, [1, 3]⟩]) :=
  (bulk_partial_failure ⟨exampleDecoder, fun _ _ => .failed "unused", fun _ => none⟩
      (fun _ => .response ⟨some 200, true,
        [[("index", ⟨201, none⟩)],
         [("index", ⟨400, some ("mapper_parsing_exception", "failed to parse")⟩)],
         [("index", ⟨201, none⟩)]]⟩) []
      [⟨1, [1, 1]⟩, ⟨2, [1, 2]⟩, ⟨3, [1, 3]⟩] _
      (by
        intro m hm
        simp only [List.mem_cons, List.mem_singleton, List.not_mem_nil, or_false] at hm
        rcases hm with rfl | rfl | rfl <;> exact ⟨_, rfl⟩)
      rfl
      (by intro code h; cases h; decide)
      rfl rfl).1

/-- C17: a batch of a message whose payload does not decode and a valid one, the
bulk call answering HTTP 200 with `errors` set and one entry for the one document
submitted: `flushBatch` hands the malformed payload to the bus on
`index.request.dlq` and returns the error "bulk items mismatch: got 1 want 2", so
that no message of the batch, the malformed one included, is returned for
acknowledgement, and the run loop acknowledges none and keeps the batch. -/
theorem malformed_message_fails_the_batch :
    flushBatch ⟨exampleDecoder, fun _ _ => .failed "unused", fun _ => none⟩
      (fun _ => .response ⟨some 200, true,
        [[("index", ⟨400, some ("mapper_parsing_exception", "failed to parse")⟩)]]⟩) []
      [⟨1, [255]⟩, ⟨2, [1, 2]⟩] =
    ([("index.request.dlq", [255])], .error (.itemsMismatch 1 2)) ∧
    (prepare ⟨exampleDecoder, fun _ _ => .failed "unused", fun _ => none⟩
      [⟨1, [255]⟩, ⟨2, [1, 2]⟩] [] [] []).2.1.length = 1 ∧
    Worker.Run ⟨exampleDecoder, fun _ _ => .response ⟨some 200, true,
        [[("index", ⟨400, some ("mapper_parsing_exception", "failed to parse")⟩)]]⟩,
        fun _ => none⟩ 2 [.message ⟨1, [255]⟩, .message ⟨2, [1, 2]⟩] =
      (⟨[⟨1, [255]⟩, ⟨2, [1, 2]⟩], [], [("index.request.dlq", [255])],
        [[⟨1, [255]⟩, ⟨2, [1, 2]⟩]]⟩, none) :=
  ⟨rfl, rfl, rfl⟩

/-- C18: with `BulkMax = 2`, the first bulk call failing and three messages
delivered, the second bulk call is made for a batch of three messages: the failed
flush leaves the batch in place and the next message is appended to it. -/
theorem failed_flush_outgrows_bulk_max :
    (Worker.Run ⟨exampleDecoder,
        fun n _ => if n = 0 then .failed "connection refused" else .response ⟨some 200, false, []⟩,
        fun _ => none⟩ 2
      [.message ⟨1, [1, 1]⟩, .message ⟨2, [1, 2]⟩, .message ⟨3, [1, 3]⟩]).1.bulkCalls =
      [[⟨1, [1, 1]⟩, ⟨2, [1, 2]⟩], [⟨1, [1, 1]⟩, ⟨2, [1, 2]⟩, ⟨3, [1, 3]⟩]] ∧
    (prepare ⟨exampleDecoder, fun _ _ => .failed "unused", fun _ => none⟩
      [⟨1, [1, 1]⟩, ⟨2, [1, 2]⟩, ⟨3, [1, 3]⟩] [] [] []).2.1.length = 3 ∧
    effectiveBulkMax 2 = 2 :=
  ⟨rfl, rfl, rfl⟩

end indexer

/-! ## The sniffing datastore wrapper -/

namespace dhtsniff

/-- One `PublishCID` statement leaves the calls on the inner datastore alone. -/
theorem publish_calls (env : ipnssniff.Env) (sn : ipnssniff.Sniffer) (w : World)
    (c source detail : String) : (publish env sn w c source detail).calls = w.calls := rfl

/-- The fallback leaves the calls on the inner datastore alone. -/
theorem fallback_calls (lib : Lib) (env : ipnssniff.Env) (sn : ipnssniff.Sniffer) (w : World)
    (op ns cand : String) : (fallback lib env sn w op ns cand).calls = w.calls := by
  unfold fallback
  generalize extractCIDStrings lib.cidDecode (Go.ToLower lib.lowerTable cand) = found
  induction found generalizing w with
  | nil => rfl
  | cons c rest ih => rw [List.foldl_cons, ih, publish_calls]

/-- The hook `sniffKey` leaves the calls on the inner datastore alone. -/
theorem sniffKey_calls {ρ : Type} (lib : Lib) (env : ipnssniff.Env)
    (s : PublishingDatastore ρ) (w : World) (op : String) (key : Key) (value : List Nat) :
    (s.sniffKey lib env w op key value).calls = w.calls := by
  unfold PublishingDatastore.sniffKey
  cases s.Sniff with
  | none => rfl
  | some sn =>
    simp only []
    cases lib.keyList key with
    | nil => rfl
    | cons ns t =>
      cases t with
      | nil => rfl
      | cons cand rest =>
        simp only []
        by_cases hns : ¬ (ns = "providers" ∨ ns = "provider" ∨ ns = "ipns" ∨ ns = "pk")
        · rw [if_pos hns]
        · rw [if_neg hns]
          by_cases hc : cand = ""
          · rw [if_pos hc]
          · rw [if_neg hc]
            cases lib.base32Decode cand with
            | none => exact fallback_calls _ _ _ _ _ _ _
            | some byts =>
              simp only []
              cases lib.cidFromBytes byts with
              | some id => rfl
              | none =>
                simp only []
                by_cases hi : ns = "ipns"
                · rw [if_pos hi, fallback_calls]
                  split
                  · split
                    · rw [publish_calls]; split <;> rfl
                    · split <;> rfl
                  · split <;> rfl
                · rw [if_neg hi, fallback_calls]

/-- C19: each of `Get`, `Has`, `GetSize`, `Query`, `Put` and `Delete` of the
wrapper makes exactly one call on the inner datastore, with the arguments it was
given, and returns what the inner datastore answers to that call, whatever the
sniffer is (absent, unconfigured or configured), whatever the key-value store
replies (also errors) and whatever the bus does with a publish (also failures). -/
theorem wrapper_delegates_once {ρ : Type} (lib : Lib) (env : ipnssniff.Env)
    (s : PublishingDatastore ρ) (w : World) (key : Key) (value : List Nat) (q : Query) :
    ((s.Get lib env w key).2 = s.Inner w.calls (.get key) ∧
      (s.Get lib env w key).1.calls = w.calls ++ [.get key]) ∧
    ((s.Has lib env w key).2 = s.Inner w.calls (.has key) ∧
      (s.Has lib env w key).1.calls = w.calls ++ [.has key]) ∧
    ((s.GetSize lib env w key).2 = s.Inner w.calls (.getSize key) ∧
      (s.GetSize lib env w key).1.calls = w.calls ++ [.getSize key]) ∧
    ((s.Query lib env w q).2 = s.Inner w.calls (.query q) ∧
      (s.Query lib env w q).1.calls = w.calls ++ [.query q]) ∧
    ((s.Put lib env w key value).2 = s.Inner w.calls (.put key value) ∧
      (s.Put lib env w key value).1.calls = w.calls ++ [.put key value]) ∧
    ((s.Delete lib env w key).2 = s.Inner w.calls (.delete key) ∧
      (s.Delete lib env w key).1.calls = w.calls ++ [.delete key]) := by
  have hq : (if q.Prefix ≠ "" then s.sniffKey lib env w "query" (lib.newKey q.Prefix) []
      else w).calls = w.calls := by
    split
    · exact sniffKey_calls _ _ _ _ _ _ _
    · rfl
  refine ⟨⟨?_, ?_⟩, ⟨?_, ?_⟩, ⟨?_, ?_⟩, ⟨?_, ?_⟩, ⟨?_, ?_⟩, ⟨?_, ?_⟩⟩ <;>
    simp only [PublishingDatastore.Get, PublishingDatastore.Has, PublishingDatastore.GetSize,
      PublishingDatastore.Query, PublishingDatastore.Put, PublishingDatastore.Delete,
      PublishingDatastore.delegate, sniffKey_calls, hq]

/-- The text "dht:<cid>" is not empty. -/
theorem dht_key_nonempty (c : String) : "dht" ++ ":" ++ c ≠ "" := by
  intro h
  have := congrArg String.length h
  rw [String.length_append, String.length_append] at this
  have h3 : "dht".length = 3 := by decide
  have h0 : "".length = 0 := by decide
  omega

/-- What one `PublishCID` of a CID with source "dht" does to the events accepted
by the bus: nothing or one event more; one more when the sniffer is configured,
the store answers, the mark is not yet there and the bus accepts; nothing when
the store answers and the mark is there. -/
theorem publishCID_events (env : ipnssniff.Env) (sn : ipnssniff.Sniffer)
    (w : ipnssniff.World) (c detail : String) :
    ((sn.PublishCID env w c "dht" detail "").1.events = w.events ∨
      (sn.PublishCID env w c "dht" detail "").1.events =
        w.events ++ [⟨c, "dht", detail, "", env.now w.attempts⟩]) ∧
    (sn.NATS = true → sn.Redis = true → env.redisReply w.redisCalls = .answered →
      markKey sn "dht" c ∉ w.store → env.publishErr w.attempts = none →
      (sn.PublishCID env w c "dht" detail "").1.events =
        w.events ++ [⟨c, "dht", detail, "", env.now w.attempts⟩]) ∧
    (env.redisReply w.redisCalls = .answered → markKey sn "dht" c ∈ w.store →
      (sn.PublishCID env w c "dht" detail "").1.events = w.events) := by
  have hk := dht_key_nonempty c
  unfold ipnssniff.Sniffer.PublishCID
  by_cases hcfg : sn.NATS = false ∨ sn.Redis = false
  · rw [if_pos hcfg]
    refine ⟨Or.inl rfl, ?_, fun _ _ => rfl⟩
    intro h1 h2
    rcases hcfg with h | h
    · rw [h1] at h; exact absurd h (by decide)
    · rw [h2] at h; exact absurd h (by decide)
  · rw [if_neg hcfg]
    simp only []
    generalize hd : (if (if sn.Dedupe.Prefix = "" then
        ({ sn.Dedupe with Prefix := "ipfsniffer:seen:cid" } : redis.Dedupe) else sn.Dedupe).TTL = 0
      then ({ (if sn.Dedupe.Prefix = "" then
        ({ sn.Dedupe with Prefix := "ipfsniffer:seen:cid" } : redis.Dedupe) else sn.Dedupe) with
          TTL := 24 * 3600 * 1000000000 } : redis.Dedupe)
      else (if sn.Dedupe.Prefix = "" then
        ({ sn.Dedupe with Prefix := "ipfsniffer:seen:cid" } : redis.Dedupe) else sn.Dedupe)) = d
    have hpre : d.Prefix = (if sn.Dedupe.Prefix = "" then "ipfsniffer:seen:cid"
        else sn.Dedupe.Prefix) := by
      rw [← hd]
      by_cases hp : sn.Dedupe.Prefix = "" <;> simp only [hp, if_true, if_false] <;> split <;> rfl
    have hpne : d.Prefix ≠ "" := by
      rw [hpre]
      by_cases hp : sn.Dedupe.Prefix = ""
      · rw [if_pos hp]; decide
      · rw [if_neg hp]; exact hp
    have hmark : ∀ d2 : redis.Dedupe, d2.Prefix = d.Prefix →
        d2.key ("dht" ++ ":" ++ c) = markKey sn "dht" c := by
      intro d2 h2
      simp only [redis.Dedupe.key, markKey, h2, hpre]
    unfold redis.Dedupe.Seen
    rw [if_neg hk]
    simp only [if_neg hpne]
    generalize hd2 : (if d.TTL = 0 then ({ d with TTL := 24 * 3600 * 1000000000 } : redis.Dedupe)
      else d) = d2
    have hp2 : d2.Prefix = d.Prefix := by
      rw [← hd2]; split <;> rfl
    rw [hmark d2 hp2]
    cases hr : env.redisReply w.redisCalls with
    | failed e applied => simp
    | answered =>
      by_cases hin : markKey sn "dht" c ∈ w.store
      · simp [hin]
      · cases hpub : env.publishErr w.attempts <;> simp [hin]

/-- C20, as the code has it: `sniffKey` changes nothing for a key whose first
segment is not one of providers, provider, ipns, pk; for a key with an admitted
first segment `ns` and a non-empty second segment that base32-decodes to the
bytes of a CID, it makes the one call `PublishCID(cid, "dht",
"datastore_<op>:<ns>", "")`, so that the bus accepts at most one event, exactly
the event (cid, "dht", "datastore_<op>:<ns>") when the sniffer is configured,
the store answers, the mark "dht:<cid>" is not yet in the store and the bus
accepts the publish, and no event when the store answers and the mark is there. -/
theorem sniffKey_namespace_filter {ρ : Type} (lib : Lib) (env : ipnssniff.Env)
    (s : PublishingDatastore ρ) (w : World) (op : String) (key : Key) (value : List Nat) :
    (¬ sniffedNamespace ((lib.keyList key).headD "") → s.sniffKey lib env w op key value = w) ∧
    (∀ (sn : ipnssniff.Sniffer) (ns cand : String) (rest : List String) (byts : List Nat)
        (id : String),
      s.Sniff = some sn → lib.keyList key = ns :: cand :: rest → sniffedNamespace ns → cand ≠ "" →
      lib.base32Decode cand = some byts → lib.cidFromBytes byts = some id →
      s.sniffKey lib env w op key value =
        { w with sniff :=
            (sn.PublishCID env w.sniff id "dht" ("datastore_" ++ op ++ ":" ++ ns) "").1 } ∧
      ((s.sniffKey lib env w op key value).sniff.events = w.sniff.events ∨
        (s.sniffKey lib env w op key value).sniff.events = w.sniff.events ++
          [⟨id, "dht", "datastore_" ++ op ++ ":" ++ ns, "", env.now w.sniff.attempts⟩]) ∧
      (sn.NATS = true → sn.Redis = true → env.redisReply w.sniff.redisCalls = .answered →
        markKey sn "dht" id ∉ w.sniff.store → env.publishErr w.sniff.attempts = none →
        (s.sniffKey lib env w op key value).sniff.events = w.sniff.events ++
          [⟨id, "dht", "datastore_" ++ op ++ ":" ++ ns, "", env.now w.sniff.attempts⟩]) ∧
      (env.redisReply w.sniff.redisCalls = .answered → markKey sn "dht" id ∈ w.sniff.store →
        (s.sniffKey lib env w op key value).sniff.events = w.sniff.events)) := by
  constructor
  · intro hna
    unfold PublishingDatastore.sniffKey
    cases s.Sniff with
    | none => rfl
    | some sn =>
      simp only []
      cases hk : lib.keyList key with
      | nil => rfl
      | cons ns t =>
        cases t with
        | nil => rfl
        | cons cand rest =>
          rw [hk] at hna
          have h2 : ¬ (ns = "providers" ∨ ns = "provider" ∨ ns = "ipns" ∨ ns = "pk") := hna
          simp only []
          rw [if_pos h2]
  · intro sn ns cand rest byts id hs hk hns hc hb hcid
    have heq : s.sniffKey lib env w op key value =
        { w with sniff :=
            (sn.PublishCID env w.sniff id "dht" ("datastore_" ++ op ++ ":" ++ ns) "").1 } := by
      unfold PublishingDatastore.sniffKey
      rw [hs]
      simp only [hk]
      have h2 : ¬ ¬ (ns = "providers" ∨ ns = "provider" ∨ ns = "ipns" ∨ ns = "pk") :=
        not_not_intro hns
      rw [if_neg h2, if_neg hc]
      simp only [hb, hcid]
      rfl
    have hev := publishCID_events env sn w.sniff id ("datastore_" ++ op ++ ":" ++ ns)
    refine ⟨heq, ?_, ?_, ?_⟩
    · rw [heq]; exact hev.1
    · rw [heq]; exact hev.2.1
    · rw [heq]; exact hev.2.2

/-- A PUT on "/providers/AFKQAAA/peer" in a fresh world gives the one event
("bafkqaaa", "dht", "datastore_put:providers"); a PUT on "/peers/x" gives none. -/
theorem sniffKey_namespace_filter_witness :
    ((⟨fun _ _ => (), some ⟨true, true, ⟨"", 0⟩⟩⟩ : PublishingDatastore Unit).sniffKey
        exampleLib exampleEnv ⟨⟨[], 0, 0, [], []⟩, []⟩ "put" ⟨"/providers/AFKQAAA/peer"⟩
        [1]).sniff.events = [⟨"bafkqaaa", "dht", "datastore_put:providers", "", "t"⟩] ∧
    (⟨fun _ _ => (), some ⟨true, true, ⟨"", 0⟩⟩⟩ : PublishingDatastore Unit).sniffKey
        exampleLib exampleEnv ⟨⟨[], 0, 0, [], []⟩, []⟩ "put" ⟨"/peers/x"⟩ [1] =
      ⟨⟨[], 0, 0, [], []⟩, []⟩ :=
  ⟨((sniffKey_namespace_filter exampleLib exampleEnv
      (⟨fun _ _ => (), some ⟨true, true, ⟨"", 0⟩⟩⟩ : PublishingDatastore Unit)
      ⟨⟨[], 0, 0, [], []⟩, []⟩ "put" ⟨"/providers/AFKQAAA/peer"⟩ [1]).2
      ⟨true, true, ⟨"", 0⟩⟩ "providers" "AFKQAAA" ["peer"] [1, 85, 0, 0] "bafkqaaa"
      rfl (by decide) (Or.inl rfl) (by decide) (by decide) (by decide)).2.2.1
      rfl rfl rfl (by decide) rfl,
   (sniffKey_namespace_filter exampleLib exampleEnv
      (⟨fun _ _ => (), some ⟨true, true, ⟨"", 0⟩⟩⟩ : PublishingDatastore Unit)
      ⟨⟨[], 0, 0, [], []⟩, []⟩ "put" ⟨"/peers/x"⟩ [1]).1 (by decide)⟩

/-- C20, the sentence as written fails: the same PUT on "/providers/AFKQAAA/peer"
a second time, the key admitted and its second segment decoding to the bytes of
a CID, publishes no event, the mark of the first being in the store. -/
theorem repeated_put_publishes_no_event :
    exampleLib.keyList ⟨"/providers/AFKQAAA/peer"⟩ = ["providers", "AFKQAAA", "peer"] ∧
    (exampleLib.base32Decode "AFKQAAA").bind exampleLib.cidFromBytes = some "bafkqaaa" ∧
    ((⟨fun _ _ => (), some ⟨true, true, ⟨"", 0⟩⟩⟩ : PublishingDatastore Unit).sniffKey
        exampleLib exampleEnv ⟨⟨[], 0, 0, [], []⟩, []⟩ "put" ⟨"/providers/AFKQAAA/peer"⟩
        [1]).sniff =
      ⟨["ipfsniffer:seen:cid:dht:bafkqaaa"], 1, 1,
        [⟨"bafkqaaa", "dht", "datastore_put:providers", "", "t"⟩], []⟩ ∧
    ((⟨fun _ _ => (), some ⟨true, true, ⟨"", 0⟩⟩⟩ : PublishingDatastore Unit).sniffKey
        exampleLib exampleEnv
        ⟨⟨["ipfsniffer:seen:cid:dht:bafkqaaa"], 1, 1,
          [⟨"bafkqaaa", "dht", "datastore_put:providers", "", "t"⟩], []⟩, []⟩
        "put" ⟨"/providers/AFKQAAA/peer"⟩ [1]).sniff =
      ⟨["ipfsniffer:seen:cid:dht:bafkqaaa"], 2, 1,
        [⟨"bafkqaaa", "dht", "datastore_put:providers", "", "t"⟩], []⟩ := by
  decide

end dhtsniff

/-! ## The content filter -/

namespace filter

/-- Lowering a text gives the empty text only for the empty text. -/
theorem toLower_eq_empty (tbl : Char → Char) (s : String) :
    Go.ToLower tbl s = "" ↔ s = "" := by
  constructor
  · intro h
    have h1 : (Go.ToLower tbl s).data = [] := by rw [h]
    simp only [Go.ToLower, List.map_eq_nil_iff] at h1
    exact String.ext (by rw [h1])
  · intro h
    subst h
    rfl

/-- The three ways `Decide` can answer, by the rule that fires first. -/
theorem Decide_cases (tbl : Char → Char) (path mime : String) (sizeBytes : Int) (p : Policy) :
    (p.MaxFileBytes > 0 ∧ sizeBytes > p.MaxFileBytes →
      Decide tbl path mime sizeBytes p = ⟨false, "too_large"⟩) ∧
    (¬ (p.MaxFileBytes > 0 ∧ sizeBytes > p.MaxFileBytes) →
      p.SkipExt.any (fun s => decide (Go.ToLower tbl s = Go.ToLower tbl (Go.Ext path)) &&
        decide (Go.ToLower tbl (Go.Ext path) ≠ "")) = true →
      Decide tbl path mime sizeBytes p = ⟨false, "ext_denied"⟩) ∧
    (¬ (p.MaxFileBytes > 0 ∧ sizeBytes > p.MaxFileBytes) →
      p.SkipExt.any (fun s => decide (Go.ToLower tbl s = Go.ToLower tbl (Go.Ext path)) &&
        decide (Go.ToLower tbl (Go.Ext path) ≠ "")) = false →
      p.SkipMimePrefix.any (fun pref =>
        decide (Go.ToLower tbl (Go.TrimSpace pref) ≠ "") &&
          Go.HasPrefix (Go.ToLower tbl (Go.TrimSpace mime))
            (Go.ToLower tbl (Go.TrimSpace pref))) = true →
      Decide tbl path mime sizeBytes p = ⟨false, "mime_denied"⟩) ∧
    (¬ (p.MaxFileBytes > 0 ∧ sizeBytes > p.MaxFileBytes) →
      p.SkipExt.any (fun s => decide (Go.ToLower tbl s = Go.ToLower tbl (Go.Ext path)) &&
        decide (Go.ToLower tbl (Go.Ext path) ≠ "")) = false →
      p.SkipMimePrefix.any (fun pref =>
        decide (Go.ToLower tbl (Go.TrimSpace pref) ≠ "") &&
          Go.HasPrefix (Go.ToLower tbl (Go.TrimSpace mime))
            (Go.ToLower tbl (Go.TrimSpace pref))) = false →
      Decide tbl path mime sizeBytes p = ⟨true, ""⟩) := by
  refine ⟨?_, ?_, ?_, ?_⟩
  · intro h; unfold Decide; rw [if_pos h]
  · intro h he; unfold Decide; rw [if_neg h]; simp only [he, if_true]
  · intro h he hm; unfold Decide; rw [if_neg h]
    simp only [he, hm, if_true, Bool.false_eq_true, if_false]
  · intro h he hm; unfold Decide; rw [if_neg h]
    simp only [he, hm, Bool.false_eq_true, if_false]

/-- C22: `Decide` answers "not allowed, too_large" exactly when `MaxFileBytes` is
positive and the size exceeds it, whatever the path, the mime and the skip lists;
so with `MaxFileBytes = 10` the size 11 is too_large and the size 10 is not. -/
theorem decide_too_large_iff (tbl : Char → Char) (path mime : String) (sizeBytes : Int)
    (p : Policy) :
    (Decide tbl path mime sizeBytes p = ⟨false, "too_large"⟩ ↔
      (p.MaxFileBytes > 0 ∧ sizeBytes > p.MaxFileBytes)) ∧
    ((Decide tbl path mime sizeBytes p).SkipReason = "too_large" ↔
      (p.MaxFileBytes > 0 ∧ sizeBytes > p.MaxFileBytes)) ∧
    Decide tbl path mime 11 { p with MaxFileBytes := 10 } = ⟨false, "too_large"⟩ ∧
    (Decide tbl path mime 10 { p with MaxFileBytes := 10 }).SkipReason ≠ "too_large" := by
  have key : ∀ (size : Int) (q : Policy),
      (Decide tbl path mime size q).SkipReason = "too_large" ↔
        (q.MaxFileBytes > 0 ∧ size > q.MaxFileBytes) := by
    intro size q
    have hc := Decide_cases tbl path mime size q
    constructor
    · intro h
      by_contra hn
      cases he : q.SkipExt.any (fun s =>
          decide (Go.ToLower tbl s = Go.ToLower tbl (Go.Ext path)) &&
          decide (Go.ToLower tbl (Go.Ext path) ≠ "")) with
      | true => rw [hc.2.1 hn he] at h; exact absurd h (by decide)
      | false =>
        cases hm : q.SkipMimePrefix.any (fun pref =>
            decide (Go.ToLower tbl (Go.TrimSpace pref) ≠ "") &&
              Go.HasPrefix (Go.ToLower tbl (Go.TrimSpace mime))
                (Go.ToLower tbl (Go.TrimSpace pref))) with
        | true => rw [hc.2.2.1 hn he hm] at h; exact absurd h (by decide)
        | false => rw [hc.2.2.2 hn he hm] at h; exact absurd h (by decide)
    · intro h; rw [hc.1 h]
  refine ⟨⟨fun h => (key _ _).mp (by rw [h]), fun h => (Decide_cases tbl path mime _ p).1 h⟩,
    key _ _, ?_, ?_⟩
  · exact (Decide_cases tbl path mime 11 _).1 (show (10 : Int) > 0 ∧ (11 : Int) > 10 by decide)
  · intro h
    have := (key 10 { p with MaxFileBytes := 10 }).mp h
    exact absurd this.2 (show ¬ ((10 : Int) > 10) by decide)

/-- C23: when the size rule does not apply, `Decide` answers ext_denied exactly
when the extension of the path is not empty and its lowercase form equals the
lowercase form of some entry of `SkipExt`; a path with an empty extension is
never ext_denied, whatever `SkipExt` holds. -/
theorem decide_ext_denied_iff (tbl : Char → Char) (path mime : String) (sizeBytes : Int)
    (p : Policy) (hsize : ¬ (p.MaxFileBytes > 0 ∧ sizeBytes > p.MaxFileBytes)) :
    ((Decide tbl path mime sizeBytes p).SkipReason = "ext_denied" ↔
      (Go.Ext path ≠ "" ∧ ∃ s ∈ p.SkipExt, Go.ToLower tbl s = Go.ToLower tbl (Go.Ext path))) ∧
    (Decide tbl path mime sizeBytes p = ⟨false, "ext_denied"⟩ ↔
      (Go.Ext path ≠ "" ∧ ∃ s ∈ p.SkipExt, Go.ToLower tbl s = Go.ToLower tbl (Go.Ext path))) ∧
    (Go.Ext path = "" → (Decide tbl path mime sizeBytes p).SkipReason ≠ "ext_denied") := by
  have hc := Decide_cases tbl path mime sizeBytes p
  have hany : p.SkipExt.any (fun s =>
        decide (Go.ToLower tbl s = Go.ToLower tbl (Go.Ext path)) &&
        decide (Go.ToLower tbl (Go.Ext path) ≠ "")) = true ↔
      (Go.Ext path ≠ "" ∧ ∃ s ∈ p.SkipExt, Go.ToLower tbl s = Go.ToLower tbl (Go.Ext path)) := by
    rw [List.any_eq_true]
    constructor
    · rintro ⟨s, hs, h⟩
      simp only [Bool.and_eq_true, decide_eq_true_eq] at h
      exact ⟨fun h0 => h.2 ((toLower_eq_empty tbl _).mpr h0), s, hs, h.1⟩
    · rintro ⟨hne, s, hs, h⟩
      refine ⟨s, hs, ?_⟩
      simp only [Bool.and_eq_true, decide_eq_true_eq]
      exact ⟨h, fun h0 => hne ((toLower_eq_empty tbl _).mp h0)⟩
  have key : (Decide tbl path mime sizeBytes p).SkipReason = "ext_denied" ↔
      (Go.Ext path ≠ "" ∧ ∃ s ∈ p.SkipExt, Go.ToLower tbl s = Go.ToLower tbl (Go.Ext path)) := by
    rw [← hany]
    constructor
    · intro h
      cases he : p.SkipExt.any (fun s =>
          decide (Go.ToLower tbl s = Go.ToLower tbl (Go.Ext path)) &&
          decide (Go.ToLower tbl (Go.Ext path) ≠ "")) with
      | true => rfl
      | false =>
        cases hm : p.SkipMimePrefix.any (fun pref =>
            decide (Go.ToLower tbl (Go.TrimSpace pref) ≠ "") &&
              Go.HasPrefix (Go.ToLower tbl (Go.TrimSpace mime))
                (Go.ToLower tbl (Go.TrimSpace pref))) with
        | true => rw [hc.2.2.1 hsize he hm] at h; exact absurd h (by decide)
        | false => rw [hc.2.2.2 hsize he hm] at h; exact absurd h (by decide)
    · intro h; rw [hc.2.1 hsize h]
  refine ⟨key, ⟨fun h => key.mp (by rw [h]), fun h => hc.2.1 hsize (hany.mpr h)⟩, ?_⟩
  intro h0 h
  exact (key.mp h).1 h0

/-- The path "/x/F.PNG" is ext_denied by the entry ".png" and by the entry ".Png";
the path "/x/file" has no extension and is allowed although `SkipExt` holds the
empty text. -/
theorem decide_ext_denied_iff_witness :
    Decide id "/x/F.PNG" "" 1 ⟨[".zip", ".Png"], [], 10⟩ = ⟨false, "ext_denied"⟩ ∧
    (Decide id "/x/file" "" 1 ⟨["", ".zip"], [], 10⟩).SkipReason ≠ "ext_denied" :=
  ⟨(decide_ext_denied_iff id "/x/F.PNG" "" 1 ⟨[".zip", ".Png"], [], 10⟩ (by decide)).2.1.mpr
      ⟨by decide, ".Png", by decide, by decide⟩,
   (decide_ext_denied_iff id "/x/file" "" 1 ⟨["", ".zip"], [], 10⟩ (by decide)).2.2 (by decide)⟩

/-- C24, the sentence as written fails: the entry "" of `SkipMimePrefix` is a
prefix of the lowercased mime "text/plain" and the file is allowed; the entry
"Image/" is not a prefix of the lowercased mime "image/png" and the file is
mime_denied; in both the size rule and the extension rule do not apply. -/
theorem mime_prefix_not_literal :
    Go.HasPrefix (Go.ToLower id "text/plain") "" = true ∧
    Decide id "/x/f.txt" "text/plain" 1 ⟨[], [""], 10⟩ = ⟨true, ""⟩ ∧
    Go.HasPrefix (Go.ToLower id "image/png") "Image/" = false ∧
    Decide id "/x/f.bin" "image/png" 1 ⟨[], ["Image/"], 10⟩ = ⟨false, "mime_denied"⟩ := by
  decide

/-- C24, as the code has it: when neither the size rule nor the extension rule
applies, `Decide` answers mime_denied exactly when some entry of
`SkipMimePrefix`, trimmed and lowercased, is not empty and is a prefix of the
trimmed and lowercased mime, and otherwise answers allowed with an empty
skip reason. -/
theorem decide_mime_denied_iff (tbl : Char → Char) (path mime : String) (sizeBytes : Int)
    (p : Policy) (hsize : ¬ (p.MaxFileBytes > 0 ∧ sizeBytes > p.MaxFileBytes))
    (hext : ¬ (Go.Ext path ≠ "" ∧
      ∃ s ∈ p.SkipExt, Go.ToLower tbl s = Go.ToLower tbl (Go.Ext path))) :
    ((Decide tbl path mime sizeBytes p).SkipReason = "mime_denied" ↔
      ∃ pref ∈ p.SkipMimePrefix, Go.ToLower tbl (Go.TrimSpace pref) ≠ "" ∧
        Go.HasPrefix (Go.ToLower tbl (Go.TrimSpace mime))
          (Go.ToLower tbl (Go.TrimSpace pref)) = true) ∧
    ((∃ pref ∈ p.SkipMimePrefix, Go.ToLower tbl (Go.TrimSpace pref) ≠ "" ∧
        Go.HasPrefix (Go.ToLower tbl (Go.TrimSpace mime))
          (Go.ToLower tbl (Go.TrimSpace pref)) = true) →
      Decide tbl path mime sizeBytes p = ⟨false, "mime_denied"⟩) ∧
    ((¬ ∃ pref ∈ p.SkipMimePrefix, Go.ToLower tbl (Go.TrimSpace pref) ≠ "" ∧
        Go.HasPrefix (Go.ToLower tbl (Go.TrimSpace mime))
          (Go.ToLower tbl (Go.TrimSpace pref)) = true) →
      Decide tbl path mime sizeBytes p = ⟨true, ""⟩) := by
  have hc := Decide_cases tbl path mime sizeBytes p
  have he : p.SkipExt.any (fun s =>
        decide (Go.ToLower tbl s = Go.ToLower tbl (Go.Ext path)) &&
        decide (Go.ToLower tbl (Go.Ext path) ≠ "")) = false := by
    cases h : p.SkipExt.any (fun s =>
        decide (Go.ToLower tbl s = Go.ToLower tbl (Go.Ext path)) &&
        decide (Go.ToLower tbl (Go.Ext path) ≠ "")) with
    | false => rfl
    | true =>
      exfalso
      apply hext
      rw [List.any_eq_true] at h
      obtain ⟨s, hs, h⟩ := h
      simp only [Bool.and_eq_true, decide_eq_true_eq] at h
      exact ⟨fun h0 => h.2 ((toLower_eq_empty tbl _).mpr h0), s, hs, h.1⟩
  have hany : p.SkipMimePrefix.any (fun pref =>
        decide (Go.ToLower tbl (Go.TrimSpace pref) ≠ "") &&
          Go.HasPrefix (Go.ToLower tbl (Go.TrimSpace mime))
            (Go.ToLower tbl (Go.TrimSpace pref))) = true ↔
      ∃ pref ∈ p.SkipMimePrefix, Go.ToLower tbl (Go.TrimSpace pref) ≠ "" ∧
        Go.HasPrefix (Go.ToLower tbl (Go.TrimSpace mime))
          (Go.ToLower tbl (Go.TrimSpace pref)) = true := by
    rw [List.any_eq_true]
    constructor
    · rintro ⟨s, hs, h⟩
      simp only [Bool.and_eq_true, decide_eq_true_eq] at h
      exact ⟨s, hs, h⟩
    · rintro ⟨s, hs, h⟩
      refine ⟨s, hs, ?_⟩
      simp only [Bool.and_eq_true, decide_eq_true_eq]
      exact h
  have hyes := fun h => hc.2.2.1 hsize he (hany.mpr h)
  have hno : (¬ ∃ pref ∈ p.SkipMimePrefix, Go.ToLower tbl (Go.TrimSpace pref) ≠ "" ∧
        Go.HasPrefix (Go.ToLower tbl (Go.TrimSpace mime))
          (Go.ToLower tbl (Go.TrimSpace pref)) = true) →
      Decide tbl path mime sizeBytes p = ⟨true, ""⟩ := by
    intro h
    apply hc.2.2.2 hsize he
    cases hm : p.SkipMimePrefix.any (fun pref =>
        decide (Go.ToLower tbl (Go.TrimSpace pref) ≠ "") &&
          Go.HasPrefix (Go.ToLower tbl (Go.TrimSpace mime))
            (Go.ToLower tbl (Go.TrimSpace pref))) with
    | false => rfl
    | true => exact absurd (hany.mp hm) h
  refine ⟨⟨?_, fun h => by rw [hyes h]⟩, hyes, hno⟩
  intro h
  by_contra hn
  rw [hno hn] at h
  exact absurd h (by decide)

/-- The mime " Image/PNG " is mime_denied by the entry " IMAGE/ "; the mime
"text/plain" is allowed by the entries "" and "image/". -/
theorem decide_mime_denied_iff_witness :
    Decide id "/x/f.bin" " Image/PNG " 1 ⟨[".zip"], [" IMAGE/ "], 10⟩ = ⟨false, "mime_denied"⟩ ∧
    Decide id "/x/f.bin" "text/plain" 1 ⟨[".zip"], ["", "image/"], 10⟩ = ⟨true, ""⟩ :=
  ⟨(decide_mime_denied_iff id "/x/f.bin" " Image/PNG " 1 ⟨[".zip"], [" IMAGE/ "], 10⟩
      (by decide) (by decide)).2.1 ⟨" IMAGE/ ", by decide, by decide, by decide⟩,
   (decide_mime_denied_iff id "/x/f.bin" "text/plain" 1 ⟨[".zip"], ["", "image/"], 10⟩
      (by decide) (by decide)).2.2 (by decide)⟩

end filter

/-! ## The fetcher and the mime rule -/

namespace fetcher

/-- With the empty mime `Decide` never answers mime_denied. -/
theorem decide_empty_mime (tbl : Char → Char) (path : String) (sizeBytes : Int)
    (p : filter.Policy) : (filter.Decide tbl path "" sizeBytes p).SkipReason ≠ "mime_denied" := by
  have hm : p.SkipMimePrefix.any (fun pref =>
        decide (Go.ToLower tbl (Go.TrimSpace pref) ≠ "") &&
          Go.HasPrefix (Go.ToLower tbl (Go.TrimSpace ""))
            (Go.ToLower tbl (Go.TrimSpace pref))) = false := by
    rw [List.any_eq_false]
    intro pref _
    simp only [Bool.and_eq_true, decide_eq_true_eq, not_and]
    intro hne
    have hd : (Go.ToLower tbl (Go.TrimSpace pref)).data ≠ [] := by
      intro h0
      exact hne (String.ext (by rw [h0]))
    have he : (Go.ToLower tbl (Go.TrimSpace "")).data = [] := rfl
    unfold Go.HasPrefix
    rw [he]
    cases hq : (Go.ToLower tbl (Go.TrimSpace pref)).data with
    | nil => exact absurd hq hd
    | cons a l => simp [List.isPrefixOf]
  have hc := filter.Decide_cases tbl path "" sizeBytes p
  by_cases hs : p.MaxFileBytes > 0 ∧ sizeBytes > p.MaxFileBytes
  · rw [hc.1 hs]; decide
  · cases he : p.SkipExt.any (fun s =>
        decide (Go.ToLower tbl s = Go.ToLower tbl (Go.Ext path)) &&
        decide (Go.ToLower tbl (Go.Ext path) ≠ "")) with
    | true => rw [hc.2.1 hs he]; decide
    | false => rw [hc.2.2.2 hs he hm]; decide

/-- The skip reasons the fetcher sets itself are not "mime_denied". -/
theorem own_reasons_ne_mime :
    ("limit_exceeded" : String) ≠ "mime_denied" ∧ ("too_large" : String) ≠ "mime_denied" ∧
    ("" : String) ≠ "mime_denied" := by
  decide

/-- The file branch emits one result, without mime when the prepared record has
no mime and no skip reason. -/
theorem traverseFile_noMime (env : Env) (st : traverseState) (lim : traverseLimits)
    (pol : filter.Policy) (d : FetchResultData) (reader : Option (List Nat × Option String))
    (hm : d.Mime = "") (hs : d.SkipReason = "") :
    ∃ d', (traverseFile env st lim pol d reader).1.emitted = st.emitted ++ [d'] ∧ NoMime d' := by
  have hd : NoMime d := ⟨hm, by rw [hs]; decide⟩
  have hdec := decide_empty_mime env.lowerTable d.Path d.SizeBytes pol
  unfold traverseFile
  simp only []
  split
  · exact ⟨_, rfl, hm, hdec⟩
  · split
    · exact ⟨_, rfl, hm, own_reasons_ne_mime.2.1⟩
    · split
      · split
        · exact ⟨_, rfl, hd⟩
        · split
          · exact ⟨_, rfl, hm, own_reasons_ne_mime.1⟩
          · split
            · exact ⟨_, rfl, hm, hd.2⟩
            · split
              · exact ⟨_, rfl, hm, hd.2⟩
              · exact ⟨_, rfl, hd⟩
      · exact ⟨_, rfl, hd⟩

/-- The entry of `traverse` emits results without mime when the rest does. -/
theorem enter_noMime (env : Env) (rootCID basePath : String) (depth : Int)
    (st : traverseState) (lim : traverseLimits)
    (body : traverseState → traverseState × Option String)
    (hbody : ∀ st', st'.emitted = st.emitted →
      ∃ rs, (body st').1.emitted = st.emitted ++ rs ∧ ∀ d ∈ rs, NoMime d) :
    ∃ rs, (enter env rootCID basePath depth st lim body).1.emitted = st.emitted ++ rs ∧
      ∀ d ∈ rs, NoMime d := by
  unfold enter
  split
  · exact ⟨[], by simp, by simp⟩
  · simp only []
    split
    · refine ⟨[depthSkip rootCID basePath], rfl, ?_⟩
      intro d hd
      rw [List.mem_singleton.mp hd]
      exact ⟨rfl, own_reasons_ne_mime.1⟩
    · exact hbody _ rfl

mutual

/-- The rest of `traverse` emits results without mime. -/
theorem traverseNode_noMime (env : Env) (rootCID : String) :
    ∀ (node : Node) (basePath : String) (depth : Int) (st : traverseState)
      (lim : traverseLimits) (pol : filter.Policy),
      ∃ rs, (traverseNode env rootCID basePath node depth st lim pol).1.emitted
          = st.emitted ++ rs ∧ ∀ d ∈ rs, NoMime d
  | .file size data readErr, basePath, depth, st, lim, pol => by
    rw [traverseNode]
    simp only []
    split
    · exact ⟨[totalSkip rootCID basePath], rfl, by
        intro d hd; rw [List.mem_singleton.mp hd]; exact ⟨rfl, own_reasons_ne_mime.1⟩⟩
    · obtain ⟨d', h1, h2⟩ := traverseFile_noMime env
        (if (Node.file size data readErr).size.getD 0 > 0 then
          { st with totalBytes := Go.wrap64 (st.totalBytes + (Node.file size data readErr).size.getD 0) }
          else st) lim pol
        (baseResult env rootCID basePath "file" ((Node.file size data readErr).size.getD 0))
        (some (data, readErr)) rfl rfl
      refine ⟨[d'], ?_, by intro d hd; rw [List.mem_singleton.mp hd]; exact h2⟩
      rw [h1]; split <;> rfl
  | .other size, basePath, depth, st, lim, pol => by
    rw [traverseNode]
    simp only []
    split
    · exact ⟨[totalSkip rootCID basePath], rfl, by
        intro d hd; rw [List.mem_singleton.mp hd]; exact ⟨rfl, own_reasons_ne_mime.1⟩⟩
    · obtain ⟨d', h1, h2⟩ := traverseFile_noMime env
        (if (Node.other size).size.getD 0 > 0 then
          { st with totalBytes := Go.wrap64 (st.totalBytes + (Node.other size).size.getD 0) }
          else st) lim pol
        (baseResult env rootCID basePath "file" ((Node.other size).size.getD 0)) none rfl rfl
      refine ⟨[d'], ?_, by intro d hd; rw [List.mem_singleton.mp hd]; exact h2⟩
      rw [h1]; split <;> rfl
  | .dir size entries iterErr, basePath, depth, st, lim, pol => by
    rw [traverseNode]
    simp only []
    split
    · exact ⟨[totalSkip rootCID basePath], rfl, by
        intro d hd; rw [List.mem_singleton.mp hd]; exact ⟨rfl, own_reasons_ne_mime.1⟩⟩
    · obtain ⟨rs, h1, h2⟩ := traverseEntries_noMime env rootCID entries basePath depth
        (if (Node.dir size entries iterErr).size.getD 0 > 0 then
          { st with totalBytes := Go.wrap64 (st.totalBytes + (Node.dir size entries iterErr).size.getD 0) }
          else st) lim pol []
      have hst : (if (Node.dir size entries iterErr).size.getD 0 > 0 then
          { st with totalBytes := Go.wrap64 (st.totalBytes + (Node.dir size entries iterErr).size.getD 0) }
          else st).emitted = st.emitted := by split <;> rfl
      rw [hst] at h1
      have hlast : ∀ (x : FetchResultData), NoMime x → ∀ d ∈ rs ++ [x], NoMime d := by
        intro x hx d hd
        rcases List.mem_append.mp hd with h | h
        · exact h2 d h
        · rw [List.mem_singleton.mp h]; exact hx
      split
      · next st1 names e heq =>
        rw [heq] at h1
        exact ⟨rs, h1, h2⟩
      · next st1 names heq =>
        rw [heq] at h1
        exact ⟨rs ++ [_], by rw [emit_emitted, h1, List.append_assoc],
          hlast _ ⟨rfl, own_reasons_ne_mime.2.2⟩⟩
      · next st1 names heq =>
        rw [heq] at h1
        split
        · exact ⟨rs ++ [_], by rw [emit_emitted, h1, List.append_assoc],
            hlast _ ⟨rfl, own_reasons_ne_mime.2.2⟩⟩
        · exact ⟨rs ++ [_], by rw [emit_emitted, h1, List.append_assoc],
            hlast _ ⟨rfl, own_reasons_ne_mime.2.2⟩⟩

/-- The loop over the entries emits results without mime. -/
theorem traverseEntries_noMime (env : Env) (rootCID : String) :
    ∀ (entries : List (String × Node)) (basePath : String) (depth : Int) (st : traverseState)
      (lim : traverseLimits) (pol : filter.Policy) (names : List String),
      ∃ rs, (traverseEntries env rootCID basePath entries depth st lim pol names).1.emitted
          = st.emitted ++ rs ∧ ∀ d ∈ rs, NoMime d
  | [], basePath, depth, st, lim, pol, names => by
    rw [traverseEntries]
    exact ⟨[], by simp, by simp⟩
  | (name, child) :: rest, basePath, depth, st, lim, pol, names => by
    rw [traverseEntries]
    obtain ⟨rs₁, h1, h2⟩ := enter_noMime env rootCID (childPath basePath name)
      (Go.wrap64 (depth + 1)) st lim
      (fun st => traverseNode env rootCID (childPath basePath name) child
        (Go.wrap64 (depth + 1)) st lim pol)
      (fun st' hst' => by
        have := traverseNode_noMime env rootCID child (childPath basePath name)
          (Go.wrap64 (depth + 1)) st' lim pol
        rwa [hst'] at this)
    split
    · next st1 e heq =>
      rw [heq] at h1
      split
      · exact ⟨rs₁, h1, h2⟩
      · exact ⟨rs₁, h1, h2⟩
    · next st1 heq =>
      rw [heq] at h1
      obtain ⟨rs₂, h3, h4⟩ := traverseEntries_noMime env rootCID rest basePath depth st1
        lim pol (names ++ [name])
      refine ⟨rs₁ ++ rs₂, by rw [h3, h1, List.append_assoc], ?_⟩
      intro d hd
      rcases List.mem_append.mp hd with h | h
      · exact h2 d h
      · exact h4 d h

end

/-- C29: for every tree, limits, policy, context and bus, every result that
`traverse` emits has an empty mime and a skip reason other than "mime_denied":
the filter is called with the empty mime, which no non-empty prefix matches. The
same holds for everything `handleMsg` emits for a request. -/
theorem traverse_never_mime_denied (env : Env) (rootCID basePath : String) (node : Node)
    (depth : Int) (st : traverseState) (lim : traverseLimits) (pol : filter.Policy) :
    (∃ rs, (traverse env rootCID basePath node depth st lim pol).1.emitted = st.emitted ++ rs ∧
      ∀ d ∈ rs, d.Mime = "" ∧ d.SkipReason ≠ "mime_denied") ∧
    (∀ d ∈ (traverse env rootCID basePath node depth traverseState.fresh lim pol).1.emitted,
      d.Mime = "" ∧ d.SkipReason ≠ "mime_denied") ∧
    (∀ d ∈ (handleMsg env rootCID basePath node lim pol).1.emitted,
      d.Mime = "" ∧ d.SkipReason ≠ "mime_denied") := by
  have ht : ∀ (p : String) (st : traverseState),
      ∃ rs, (traverse env rootCID p node depth st lim pol).1.emitted = st.emitted ++ rs ∧
        ∀ d ∈ rs, NoMime d := by
    intro p st
    unfold traverse
    exact enter_noMime env rootCID p depth st lim _
      (fun st' hst' => by
        have := traverseNode_noMime env rootCID node p depth st' lim pol
        rwa [hst'] at this)
  have ht0 : ∀ (p : String) (st : traverseState),
      ∃ rs, (traverse env rootCID p node 0 st lim pol).1.emitted = st.emitted ++ rs ∧
        ∀ d ∈ rs, NoMime d := by
    intro p st
    unfold traverse
    exact enter_noMime env rootCID p 0 st lim _
      (fun st' hst' => by
        have := traverseNode_noMime env rootCID node p 0 st' lim pol
        rwa [hst'] at this)
  refine ⟨ht basePath st, ?_, ?_⟩
  · obtain ⟨rs, h1, h2⟩ := ht basePath traverseState.fresh
    intro d hd
    rw [h1] at hd
    exact h2 d (by simpa [traverseState.fresh] using hd)
  · unfold handleMsg
    simp only []
    generalize (if basePath = "" then "/ipfs/" ++ rootCID else basePath) = p
    by_cases hg : lim.maxDepth > 0 ∧ depthOfPath p > lim.maxDepth
    · rw [if_pos hg]
      intro d hd
      rw [emit_emitted] at hd
      have : d = pathDepthSkip rootCID p := by
        simpa [traverseState.fresh] using hd
      rw [this]
      exact ⟨rfl, own_reasons_ne_mime.1⟩
    · rw [if_neg hg]
      obtain ⟨rs, h1, h2⟩ := ht0 p traverseState.fresh
      split
      · next st1 e heq =>
        rw [heq] at h1
        intro d hd
        rw [emit_emitted, h1] at hd
        rcases List.mem_append.mp hd with h | h
        · exact h2 d (by simpa [traverseState.fresh] using h)
        · rw [List.mem_singleton.mp h]; exact ⟨rfl, own_reasons_ne_mime.1⟩
      · next st1 heq =>
        rw [heq] at h1
        intro d hd
        rw [h1] at hd
        exact h2 d (by simpa [traverseState.fresh] using hd)

end fetcher

/-! ## The byte total of an inlined file -/

namespace fetcher

/-- C28: a file of known size `S > 0` that passes the filter, visited with a live
context within the depth bound when the running total is `T ≥ 0`, with
`max_total_bytes = M > 0`, `T + S ≤ M` and `inline_max_bytes = N > 0`, its reader
delivering without error the bytes asked of it. When `T + S = M` the one result
is skipped(limit_exceeded) with content mode "none" and the total is `T + S`.
Otherwise the one result is ok, its inlined content is the first
`k = min(N, M - T - S, length of the file)` bytes of the file (mode "none" when
`k = 0`), and the total afterwards is `T + S + k`: the file is charged with its
reported size and again with the bytes read. -/
theorem inlined_file_charged_twice (env : Env) (rootCID basePath : String) (S : Int)
    (data : List Nat) (readErr : Option String) (depth : Int) (st : traverseState)
    (lim : traverseLimits) (pol : filter.Policy)
    (hctx : env.ctxErr st.polls = none)
    (hdepth : ¬ (lim.maxDepth > 0 ∧ depth > lim.maxDepth))
    (hS : 0 < S) (hT : 0 ≤ st.totalBytes)
    (hM : 0 < lim.maxTotalBytes) (hM64 : lim.maxTotalBytes < 2 ^ 63)
    (hfit : st.totalBytes + S ≤ lim.maxTotalBytes)
    (hN : 0 < lim.inlineMaxBytes)
    (hallow : (filter.Decide env.lowerTable basePath "" S pol).Allowed = true)
    (hfile : ¬ (lim.maxFileBytes > 0 ∧ S > lim.maxFileBytes))
    (hread : readErr = none ∨
      min lim.inlineMaxBytes (lim.maxTotalBytes - st.totalBytes - S) ≤ data.length) :
    (st.totalBytes + S = lim.maxTotalBytes →
      (traverse env rootCID basePath (.file (some S) data readErr) depth st lim pol).1.emitted =
        st.emitted ++ [{ baseResult env rootCID basePath "file" S with
          Status := "skipped", SkipReason := "limit_exceeded",
          Error := "max_total_bytes exceeded" }] ∧
      (traverse env rootCID basePath (.file (some S) data readErr) depth st lim pol).1.totalBytes =
        st.totalBytes + S) ∧
    (st.totalBytes + S < lim.maxTotalBytes →
      (traverse env rootCID basePath (.file (some S) data readErr) depth st lim pol).1.emitted =
        st.emitted ++ [{ baseResult env rootCID basePath "file" S with
          Content := some
            (if 0 < min (min lim.inlineMaxBytes
                (lim.maxTotalBytes - st.totalBytes - S)).toNat data.length then
              ⟨"inline", Go.b64EncodeToString (data.take (min (min lim.inlineMaxBytes
                (lim.maxTotalBytes - st.totalBytes - S)).toNat data.length))⟩
            else ⟨"none", ""⟩) }] ∧
      (traverse env rootCID basePath (.file (some S) data readErr) depth st lim pol).1.totalBytes =
        st.totalBytes + S + (min (min lim.inlineMaxBytes
          (lim.maxTotalBytes - st.totalBytes - S)).toNat data.length : Nat)) := by
  have hw : Go.wrap64 (st.totalBytes + S) = st.totalBytes + S :=
    wrap64_of_range _ (by omega) (by omega)
  have hrem : Go.wrap64 (lim.maxTotalBytes - (st.totalBytes + S)) =
      lim.maxTotalBytes - st.totalBytes - S := by
    rw [wrap64_of_range _ (by omega) (by omega)]; omega
  have hgate : ¬ (S > 0 ∧ lim.maxTotalBytes > 0 ∧ st.totalBytes + S > lim.maxTotalBytes) := by
    omega
  have hnode : traverse env rootCID basePath (.file (some S) data readErr) depth st lim pol =
      traverseFile env { st with polls := st.polls + 1, totalBytes := st.totalBytes + S } lim pol
        (baseResult env rootCID basePath "file" S) (some (data, readErr)) := by
    unfold traverse enter
    rw [hctx]
    simp only []
    rw [if_neg hdepth, traverseNode]
    simp only [Node.size, Option.getD_some, hw]
    rw [if_neg hgate, if_pos hS]
  rw [hnode]
  have hdec : (!(filter.Decide env.lowerTable
      (baseResult env rootCID basePath "file" S).Path ""
      (baseResult env rootCID basePath "file" S).SizeBytes pol).Allowed) = false := by
    simp only [baseResult, hallow, Bool.not_true]
  have hfile2 : ¬ (lim.maxFileBytes > 0 ∧
      (baseResult env rootCID basePath "file" S).SizeBytes > lim.maxFileBytes) := hfile
  unfold traverseFile
  simp only [hdec, Bool.false_eq_true, if_false]
  rw [if_neg hfile2, if_pos hN]
  simp only [hrem]
  constructor
  · intro heq
    have h0 : lim.maxTotalBytes > 0 ∧ lim.maxTotalBytes - st.totalBytes - S ≤ 0 := by omega
    rw [if_pos h0]
    exact ⟨rfl, rfl⟩
  · intro hlt
    have h0 : ¬ (lim.maxTotalBytes > 0 ∧ lim.maxTotalBytes - st.totalBytes - S ≤ 0) := by omega
    rw [if_neg h0]
    have hbud : (if lim.maxTotalBytes > 0 ∧
          lim.maxTotalBytes - st.totalBytes - S < lim.inlineMaxBytes
        then lim.maxTotalBytes - st.totalBytes - S else lim.inlineMaxBytes) =
        min lim.inlineMaxBytes (lim.maxTotalBytes - st.totalBytes - S) := by
      split <;> omega
    rw [hbud]
    generalize hB : min lim.inlineMaxBytes (lim.maxTotalBytes - st.totalBytes - S) = B at hread ⊢
    have hBpos : 0 < B := by omega
    obtain ⟨n, rfl⟩ : ∃ n : Nat, B = n := ⟨B.toNat, by omega⟩
    have hwrap : ∀ k : Nat, k ≤ n →
        Go.wrap64 (st.totalBytes + S + k) = st.totalBytes + S + k := by
      intro k hk
      exact wrap64_of_range _ (by omega) (by omega)
    have hn : 0 < n := by omega
    unfold readUpToN
    rw [if_neg (by omega)]
    simp only [Int.toNat_ofNat]
    by_cases hle : (n : Int) ≤ data.length
    · rw [if_pos hle]
      have hk : min n data.length = n := by omega
      have hlen : (data.take n).length = n := by rw [List.length_take]; exact hk
      simp only [hk, hlen, hn, if_true, gt_iff_lt]
      rw [hwrap n (le_refl n)]
      exact ⟨rfl, rfl⟩
    · rw [if_neg hle]
      have hnone : readErr = none := by
        rcases hread with h | h
        · exact h
        · exact absurd h hle
      subst hnone
      have hk : min n data.length = data.length := by omega
      simp only [hk, List.take_length]
      rw [hwrap data.length (by omega)]
      by_cases hpos : 0 < data.length
      · simp only [hpos, if_true, gt_iff_lt]
        exact ⟨rfl, rfl⟩
      · simp only [hpos, if_false, gt_iff_lt]
        exact ⟨rfl, rfl⟩

/-- A file of three bytes reporting size 3, from a fresh total, with
`max_total_bytes = 10` and `inline_max_bytes = 5`: all three bytes are inlined and
the total is 6; with `max_total_bytes = 3` the file is skipped. -/
theorem inlined_file_charged_twice_witness :
    (traverse Env.quiet "r" "/ipfs/r/f.txt" (.file (some 3) [104, 105, 10] none) 0
        traverseState.fresh ⟨10, 0, 0, 0, 5⟩ noPolicy).1.totalBytes = 6 ∧
    (traverse Env.quiet "r" "/ipfs/r/f.txt" (.file (some 3) [104, 105, 10] none) 0
        traverseState.fresh ⟨3, 0, 0, 0, 5⟩ noPolicy).1.emitted =
      [{ baseResult Env.quiet "r" "/ipfs/r/f.txt" "file" 3 with
          Status := "skipped", SkipReason := "limit_exceeded",
          Error := "max_total_bytes exceeded" }] :=
  ⟨((inlined_file_charged_twice Env.quiet "r" "/ipfs/r/f.txt" 3 [104, 105, 10] none 0
      traverseState.fresh ⟨10, 0, 0, 0, 5⟩ noPolicy rfl (by decide) (by decide) (by decide)
      (by decide) (by decide) (by decide) (by decide) (by decide) (by decide)
      (Or.inl rfl)).2 (by decide)).2,
   ((inlined_file_charged_twice Env.quiet "r" "/ipfs/r/f.txt" 3 [104, 105, 10] none 0
      traverseState.fresh ⟨3, 0, 0, 0, 5⟩ noPolicy rfl (by decide) (by decide) (by decide)
      (by decide) (by decide) (by decide) (by decide) (by decide) (by decide)
      (Or.inl rfl)).1 (by decide)).1⟩

end fetcher

/-! ## Extraction of identifiers from a payload -/

namespace cidutil

/-- An element is in the distinct elements of a list exactly when it is in the list. -/
theorem mem_keepFirst (x : String) : ∀ l : List String, x ∈ keepFirst l ↔ x ∈ l
  | [] => by simp [keepFirst]
  | a :: l => by
    have ih := mem_keepFirst x l
    by_cases h : x = a
    · subst h; simp [keepFirst]
    · simp [keepFirst, List.mem_filter, ih, h]

/-- The distinct elements of a list have no duplicate. -/
theorem nodup_keepFirst : ∀ l : List String, (keepFirst l).Nodup
  | [] => by simp [keepFirst]
  | a :: l => by
    have ih := nodup_keepFirst l
    rw [keepFirst, List.nodup_cons]
    exact ⟨by simp [List.mem_filter], ih.filter _⟩

/-- The distinct elements of a list are a subsequence of it. -/
theorem keepFirst_sublist : ∀ l : List String, (keepFirst l).Sublist l
  | [] => by simp [keepFirst]
  | a :: l => by
    rw [keepFirst]
    exact ((List.filter_sublist _).trans (keepFirst_sublist l)).cons₂ a

/-- The loop of `ExtractCIDStrings` appends to `out` the distinct decodable
candidates not yet in it, in order of first occurrence. -/
theorem extractLoop_spec (cidDecode : String → Bool) : ∀ (tokens : List String)
    (out : List String),
    extractLoop cidDecode (tokens.map (fun t => [t, t])) out =
      out ++ (keepFirst (tokens.filter cidDecode)).filter (fun x => decide (x ∉ out))
  | [], out => by simp [extractLoop, keepFirst]
  | t :: ts, out => by
    have ih := extractLoop_spec cidDecode ts
    rw [List.map_cons, extractLoop]
    have h2 : ¬ ([t, t].length < 2) := by simp
    have hget : [t, t].getD 1 "" = t := rfl
    rw [if_neg h2, hget]
    by_cases hin : t ∈ out
    · rw [if_pos hin, ih out]
      congr 1
      by_cases hd : cidDecode t = true
      · rw [List.filter_cons_of_pos hd, keepFirst, List.filter_cons_of_neg (by simpa using hin),
          List.filter_filter]
        apply List.filter_congr
        intro x _
        by_cases hx : x = t
        · subst hx; simp [hin]
        · simp [hx]
      · rw [List.filter_cons_of_neg hd]
    · rw [if_neg hin]
      by_cases hd : cidDecode t = true
      · have hd2 : ¬ (cidDecode t = false) := by rw [hd]; decide
        rw [if_neg hd2, ih (out ++ [t]), List.filter_cons_of_pos hd, keepFirst,
          List.filter_cons_of_pos (by simpa using hin), List.filter_filter, List.append_assoc]
        congr 1
        rw [List.singleton_append]
        congr 1
        apply List.filter_congr
        intro x _
        by_cases hx : x = t
        · subst hx; simp
        · simp [hx]
      · have hd2 : cidDecode t = false := by
          cases h : cidDecode t
          · rfl
          · exact absurd h hd
        rw [if_pos hd2, ih out, List.filter_cons_of_neg hd]

/-- The result of `ExtractCIDStrings` in terms of the tokens. -/
theorem extract_eq (cidDecode : String → Bool) (s : String) :
    ExtractCIDStrings cidDecode s = keepFirst ((cidLikeTokens s).filter cidDecode) := by
  have hmap : FindAllStringSubmatch s = (cidLikeTokens s).map (fun t => [t, t]) := by
    simp [FindAllStringSubmatch, cidLikeTokens, List.map_map, Function.comp_def]
  have hloop : extractLoop cidDecode (FindAllStringSubmatch s) [] =
      keepFirst ((cidLikeTokens s).filter cidDecode) := by
    rw [hmap, extractLoop_spec]
    simp
  unfold ExtractCIDStrings
  by_cases h0 : s = ""
  · rw [if_pos h0]
    subst h0
    rfl
  · rw [if_neg h0]
    by_cases h1 : (FindAllStringSubmatch s).length = 0
    · rw [if_pos h1]
      have : cidLikeTokens s = [] := by
        rw [hmap, List.length_map] at h1
        exact List.length_eq_zero.mp h1
      rw [this]
      rfl
    · rw [if_neg h1, hloop]

/-- C25: `ExtractCIDStrings` returns the distinct tokens of the input that match
the CID-like pattern and decode as a CID, each once and in order of first
occurrence: the result has no duplicate, a text is in it exactly when it is a
matching token that decodes, and it is a subsequence of the matching tokens. So
the payload of the test, which repeats one CID and ends with a token that does
not decode, gives that one CID. -/
theorem extract_distinct_decodable (cidDecode : String → Bool) (s : String) :
    ExtractCIDStrings cidDecode s = keepFirst ((cidLikeTokens s).filter cidDecode) ∧
    (ExtractCIDStrings cidDecode s).Nodup ∧
    (∀ x, x ∈ ExtractCIDStrings cidDecode s ↔ (x ∈ cidLikeTokens s ∧ cidDecode x = true)) ∧
    (ExtractCIDStrings cidDecode s).Sublist (cidLikeTokens s) ∧
    cidLikeTokens ("hello " ++ testCid ++ " something " ++ testCid ++ " and " ++ testCid ++ "more")
      = [testCid, testCid, testCid ++ "more"] ∧
    (cidDecode testCid = true → cidDecode (testCid ++ "more") = false →
      ExtractCIDStrings cidDecode
        ("hello " ++ testCid ++ " something " ++ testCid ++ " and " ++ testCid ++ "more")
        = [testCid]) := by
  have htok : cidLikeTokens
      ("hello " ++ testCid ++ " something " ++ testCid ++ " and " ++ testCid ++ "more")
      = [testCid, testCid, testCid ++ "more"] := by
    set_option maxRecDepth 100000 in decide!
  refine ⟨extract_eq cidDecode s, ?_, ?_, ?_, htok, ?_⟩
  · rw [extract_eq]; exact nodup_keepFirst _
  · intro x
    rw [extract_eq, mem_keepFirst, List.mem_filter]
  · rw [extract_eq]
    exact (keepFirst_sublist _).trans (List.filter_sublist _)
  · intro h1 h2
    rw [extract_eq, htok]
    simp [List.filter, h1, h2, keepFirst]

/-- The payload of the test with a parser that accepts the CID of the test only. -/
theorem extract_distinct_decodable_witness :
    ExtractCIDStrings (fun x => x == testCid)
      ("hello " ++ testCid ++ " something " ++ testCid ++ " and " ++ testCid ++ "more")
      = [testCid] :=
  (extract_distinct_decodable (fun x => x == testCid) "").2.2.2.2.2 (by decide) (by decide)

/-- A rune of the class is a word character. -/
theorem isWordChar_of_inClass (c : Char) (h : inClass c = true) : isWordChar c = true := by
  unfold inClass at h
  unfold isWordChar
  simp only [Bool.or_eq_true, Bool.and_eq_true, decide_eq_true_eq] at h ⊢
  rcases h with h | h
  · exact Or.inl (Or.inr h)
  · exact Or.inl (Or.inl (Or.inl h))

/-- The runes before the end of the leading run of a class are in the class. -/
theorem getElem?_lt_takeWhile (p : Char → Bool) : ∀ (l : List Char) (i : Nat),
    i < (l.takeWhile p).length → ∃ c, l[i]? = some c ∧ p c = true
  | [], i, h => by simp at h
  | a :: l, i, h => by
    by_cases ha : p a = true
    · rw [List.takeWhile_cons_of_pos ha] at h
      cases i with
      | zero => exact ⟨a, by simp, ha⟩
      | succ i =>
        have := getElem?_lt_takeWhile p l i (by simpa using h)
        simpa using this
    · rw [List.takeWhile_cons_of_neg ha] at h
      simp at h

/-- What `matchEnd` finds: at least 10 runes, at most the runes taken, with the
closing boundary. -/
theorem matchEnd_spec (rest : List Char) : ∀ (k j : Nat), matchEnd rest k = some j →
    10 ≤ j ∧ j ≤ k ∧ ∃ i, j = i + 1 ∧ wordBoundary rest[i]? rest[i + 1]? = true
  | 0, j, h => by simp [matchEnd] at h
  | k + 1, j, h => by
    rw [matchEnd] at h
    split at h
    · exact absurd h (by simp)
    · next h10 =>
      split at h
      · next hb =>
        have hj : k + 1 = j := by simpa using h
        subst hj
        exact ⟨by omega, le_refl _, k, rfl, hb⟩
      · obtain ⟨h1, h2, h3⟩ := matchEnd_spec rest k j h
        exact ⟨h1, by omega, h3⟩

/-- What `matchAt` finds: at least 10 runes of the class, no word character
before them and none after them. -/
theorem matchAt_spec (before : Option Char) (rest : List Char) (j : Nat)
    (h : matchAt before rest = some j) :
    10 ≤ j ∧ j ≤ (rest.takeWhile inClass).length ∧ isWordAt before = false ∧
      isWordAt rest[j]? = false := by
  unfold matchAt at h
  split at h
  · next hb =>
    obtain ⟨h1, h2, i, hi, hbi⟩ := matchEnd_spec rest _ j h
    subst hi
    refine ⟨h1, h2, ?_, ?_⟩
    · obtain ⟨c, hc, hp⟩ := getElem?_lt_takeWhile inClass rest 0 (by omega)
      have hhead : rest.head? = some c := by
        cases rest with
        | nil => simp at hc
        | cons a l => simpa using hc
      have hw1 : isWordAt (some c) = true := isWordChar_of_inClass c hp
      rw [hhead] at hb
      unfold wordBoundary at hb
      rw [hw1] at hb
      cases hw : isWordAt before
      · rfl
      · rw [hw] at hb; exact absurd hb (by decide)
    · obtain ⟨c, hc, hp⟩ := getElem?_lt_takeWhile inClass rest i (by omega)
      have hw1 : isWordAt (some c) = true := isWordChar_of_inClass c hp
      rw [hc] at hbi
      unfold wordBoundary at hbi
      rw [hw1] at hbi
      cases hw : isWordAt rest[i + 1]?
      · rfl
      · rw [hw] at hbi; exact absurd hbi (by decide)
  · exact absurd h (by simp)

/-- The first runes of a list, up to the end of the leading run of a class, are
in the class. -/
theorem take_le_takeWhile (p : Char → Bool) (l : List Char) (j : Nat)
    (h : j ≤ (l.takeWhile p).length) : ∀ c ∈ l.take j, p c = true := by
  intro c hc
  obtain ⟨i, hi, hget⟩ := List.getElem_of_mem hc
  rw [List.length_take] at hi
  obtain ⟨c2, hc2, hp⟩ := getElem?_lt_takeWhile p l i (by omega)
  have : (l.take j)[i]? = some c2 := by
    rw [List.getElem?_take_of_lt (by omega)]; exact hc2
  rw [List.getElem?_eq_getElem (by rw [List.length_take]; omega), hget] at this
  rw [Option.some.inj this]
  exact hp

/-- Every match the search finds is a run of at least 10 runes of the class with
no word character next to it on either side. -/
theorem scan_spec : ∀ (rest pre : List Char) (skip : Nat) (before : Option Char)
    (m : List Char), before = pre.getLast? → m ∈ scan skip before rest →
    ∃ a b, pre ++ rest = a ++ m ++ b ∧ isWordAt a.getLast? = false ∧
      isWordAt b.head? = false ∧ (∀ c ∈ m, inClass c = true) ∧ 10 ≤ m.length
  | [], pre, skip, before, m, _, hm => by
    cases skip <;> simp [scan] at hm
  | c :: cs, pre, skip, before, m, hb, hm => by
    have hnext : ∀ k, m ∈ scan k (some c) cs →
        ∃ a b, pre ++ c :: cs = a ++ m ++ b ∧ isWordAt a.getLast? = false ∧
          isWordAt b.head? = false ∧ (∀ c ∈ m, inClass c = true) ∧ 10 ≤ m.length := by
      intro k hk
      have := scan_spec cs (pre ++ [c]) k (some c) m (by simp) hk
      simpa using this
    cases skip with
    | succ skip =>
      rw [scan] at hm
      exact hnext _ hm
    | zero =>
      rw [scan] at hm
      split at hm
      · next k hk =>
        rcases List.mem_cons.mp hm with h | h
        · obtain ⟨h1, h2, h3, h4⟩ := matchAt_spec before (c :: cs) k hk
          have hlen : k ≤ (c :: cs).length :=
            le_trans h2 (List.takeWhile_sublist _).length_le
          refine ⟨pre, (c :: cs).drop k, ?_, ?_, ?_, ?_, ?_⟩
          · rw [h, List.append_assoc, List.take_append_drop]
          · rw [← hb]; exact h3
          · rw [List.head?_drop]; exact h4
          · rw [h]; exact take_le_takeWhile inClass _ _ h2
          · rw [h, List.length_take]; omega
        · exact hnext _ h
      · exact hnext _ hm

/-- C30: every text `ExtractCIDStrings` returns is a whole word of the input (it
occurs in the input with no word character next to it on either side), consists
of the characters a-z and 0-9 only and has at least 10 of them; so it holds no
uppercase letter and does not begin with "Qm", whatever the payload and whatever
the CID parser accepts. -/
theorem extracted_are_lowercase_words (cidDecode : String → Bool) (s x : String)
    (hx : x ∈ ExtractCIDStrings cidDecode s) :
    (∃ pre post, s.data = pre ++ x.data ++ post ∧ isWordAt pre.getLast? = false ∧
      isWordAt post.head? = false) ∧
    (∀ c ∈ x.data, (0x61 ≤ c.toNat ∧ c.toNat ≤ 0x7A) ∨ (0x30 ≤ c.toNat ∧ c.toNat ≤ 0x39)) ∧
    10 ≤ x.length ∧
    (∀ c ∈ x.data, ¬ (0x41 ≤ c.toNat ∧ c.toNat ≤ 0x5A)) ∧
    Go.HasPrefix x "Qm" = false := by
  have hmem : x ∈ cidLikeTokens s := by
    rw [extract_eq, mem_keepFirst, List.mem_filter] at hx
    exact hx.1
  unfold cidLikeTokens at hmem
  obtain ⟨m, hm, rfl⟩ := List.mem_map.mp hmem
  obtain ⟨a, b, h1, h2, h3, h4, h5⟩ := scan_spec s.data [] 0 none m rfl hm
  have hcls : ∀ c ∈ m, (0x61 ≤ c.toNat ∧ c.toNat ≤ 0x7A) ∨ (0x30 ≤ c.toNat ∧ c.toNat ≤ 0x39) := by
    intro c hc
    have := h4 c hc
    unfold inClass at this
    simpa only [Bool.or_eq_true, Bool.and_eq_true, decide_eq_true_eq] using this
  refine ⟨⟨a, b, by simpa using h1, h2, h3⟩, hcls, h5, ?_, ?_⟩
  · intro c hc hup
    rcases hcls c hc with h | h <;> omega
  · cases m with
    | nil => simp at h5
    | cons c0 rest =>
      have h0 := hcls c0 (List.mem_cons_self _ _)
      have hne : ('Q' == c0) = false := by
        rw [beq_eq_false_iff_ne]
        intro hq
        rw [← hq] at h0
        revert h0
        decide
      show List.isPrefixOf ['Q', 'm'] (c0 :: rest) = false
      simp [List.isPrefixOf, hne]

/-- The payload "get bafkqaaa2345 QmYwAPJzv5CZ": the one text returned is the word
"bafkqaaa2345", which stands between two spaces. -/
theorem extracted_are_lowercase_words_witness :
    ExtractCIDStrings (fun _ => true) "get bafkqaaa2345 QmYwAPJzv5CZ" = ["bafkqaaa2345"] ∧
    10 ≤ "bafkqaaa2345".length ∧ Go.HasPrefix "bafkqaaa2345" "Qm" = false :=
  ⟨by decide,
   (extracted_are_lowercase_words (fun _ => true) "get bafkqaaa2345 QmYwAPJzv5CZ"
      "bafkqaaa2345" (by decide)).2.2.1,
   (extracted_are_lowercase_words (fun _ => true) "get bafkqaaa2345 QmYwAPJzv5CZ"
      "bafkqaaa2345" (by decide)).2.2.2.2⟩

end cidutil

/-! ## The client of the extraction service -/

namespace tika

/-- C26 (failing input): `max_text_bytes = 2^63 - 1`, the service answering 200
with the body "hello world". The limit `maxTextBytes+1` wraps to `-2^63`, the
limited reader delivers nothing, and `ExtractText` returns the empty text, not
truncated, without error, where the first min(11, m) = 11 bytes are expected. -/
theorem extractText_max_int64_reads_nothing :
    Go.wrap64 (9223372036854775807 + 1) = -9223372036854775808 ∧
    (Client.ExtractText exampleEnv ⟨"http://tika:9998"⟩ [60, 62] 0 9223372036854775807).2 =
      .ok ⟨[], false⟩ ∧
    (Client.ExtractText exampleEnv ⟨"http://tika:9998"⟩ [60, 62] 0 9223372036854775806).2 =
      .ok ⟨[104, 101, 108, 108, 111, 32, 119, 111, 114, 108, 100], false⟩ := by
  decide!

/-- Below the largest `int64` the contract holds: for `0 < m < 2^63 - 1`, a URL the
library accepts, a 2xx response and a body that is read without error (or is
longer than `m`), `ExtractText` makes one request and returns the first
min(|b|, m) bytes of the body, truncated exactly when |b| > m; with `m ≤ 0` or an
empty base URL it returns an error and makes no request. -/
theorem extractText_clamps (env : Env) (c : Client) (r : List Nat) (timeout m : Int) :
    (c.BaseURL = "" ∨ m ≤ 0 →
      (c.ExtractText env r timeout m).1 = [] ∧
      ∃ e, (c.ExtractText env r timeout m).2 = .failed e) ∧
    (∀ resp, c.BaseURL ≠ "" → 0 < m → m < 2 ^ 63 - 1 →
      env.newRequestErr (c.BaseURL ++ "/tika") = none →
      env.roundTrip ⟨"PUT", c.BaseURL ++ "/tika", "text/plain", r,
        if timeout > 0 then some timeout else none⟩ = .ok resp →
      200 ≤ resp.StatusCode → resp.StatusCode < 300 →
      (resp.BodyErr = none ∨ m < resp.Body.length) →
      c.ExtractText env r timeout m =
        ([⟨"PUT", c.BaseURL ++ "/tika", "text/plain", r,
            if timeout > 0 then some timeout else none⟩],
         .ok ⟨resp.Body.take m.toNat, decide (m < resp.Body.length)⟩)) := by
  constructor
  · intro h
    unfold Client.ExtractText
    by_cases hb : c.BaseURL = ""
    · rw [if_pos hb]; exact ⟨rfl, _, rfl⟩
    · rw [if_neg hb]
      have hm : m ≤ 0 := by
        rcases h with h | h
        · exact absurd h hb
        · exact h
      rw [if_pos hm]; exact ⟨rfl, _, rfl⟩
  · intro resp hb hm hmax hurl hrt h200 h300 hbody
    have hw : Go.wrap64 (m + 1) = m + 1 :=
      fetcher.wrap64_of_range _ (by omega) (by omega)
    unfold Client.ExtractText
    rw [if_neg hb, if_neg (by omega), hurl]
    simp only [hrt]
    rw [if_neg (by omega), hw]
    unfold readAllLimited
    rw [if_neg (by omega)]
    by_cases hle : m + 1 ≤ resp.Body.length
    · rw [if_pos hle]
      have hlen : ((resp.Body.take (m + 1).toNat).length : Int) = m + 1 := by
        rw [List.length_take]; omega
      simp only [hlen]
      rw [if_pos (by omega)]
      have ht : (resp.Body.take (m + 1).toNat).take m.toNat = resp.Body.take m.toNat := by
        rw [List.take_take]
        congr 1
        omega
      have hd : decide (m < resp.Body.length) = true := by
        rw [decide_eq_true_eq]; omega
      rw [ht, hd]
    · rw [if_neg hle]
      have hnone : resp.BodyErr = none := by
        rcases hbody with h | h
        · exact h
        · omega
      rw [hnone]
      simp only []
      rw [if_neg (by omega)]
      have ht : resp.Body.take m.toNat = resp.Body := by
        apply List.take_of_length_le
        omega
      have hd : decide (m < resp.Body.length) = false := by
        rw [decide_eq_false_iff_not]; omega
      rw [ht, hd]

/-- The scenario of the test `TestExtractText_SuccessAndTruncate`: "hello world"
with `max_text_bytes = 5` gives "hello", truncated. -/
theorem extractText_clamps_witness :
    Client.ExtractText exampleEnv ⟨"http://tika:9998"⟩ [60, 62] 0 5 =
      ([⟨"PUT", "http://tika:9998/tika", "text/plain", [60, 62], none⟩],
       .ok ⟨[104, 101, 108, 108, 111], true⟩) :=
  (extractText_clamps exampleEnv ⟨"http://tika:9998"⟩ [60, 62] 0 5).2 _
    (by decide) (by decide) (by decide) rfl rfl (by decide) (by decide) (Or.inl rfl)

end tika

/-! ## The sort parameter of a search -/

namespace search

/-- Dropping a leading run twice is dropping it once. -/
theorem dropWhile_dropWhile (f : Char → Bool) : ∀ l : List Char,
    (l.dropWhile f).dropWhile f = l.dropWhile f
  | [] => rfl
  | c :: cs => by
    by_cases h : f c = true
    · rw [List.dropWhile_cons_of_pos h]; exact dropWhile_dropWhile f cs
    · rw [List.dropWhile_cons_of_neg h, List.dropWhile_cons_of_neg h]

/-- A prefix of a list that starts outside a class starts outside it. -/
theorem dropWhile_prefix (f : Char → Bool) (t w v : List Char) (hv : v.dropWhile f = v)
    (h : t ++ w = v) : t.dropWhile f = t := by
  cases t with
  | nil => rfl
  | cons x t =>
    subst h
    by_cases hx : f x = true
    · exfalso
      rw [List.cons_append, List.dropWhile_cons_of_pos hx] at hv
      have h1 := (List.dropWhile_suffix f (l := t ++ w)).length_le
      rw [hv] at h1
      simp at h1
    · rw [List.dropWhile_cons_of_neg hx]

/-- Trimming a trimmed text changes nothing. -/
theorem trimSpace_idem (s : String) : Go.TrimSpace (Go.TrimSpace s) = Go.TrimSpace s := by
  unfold Go.TrimSpace
  congr 1
  show Go.trimSpaceRunes (Go.trimSpaceRunes s.data) = Go.trimSpaceRunes s.data
  generalize s.data = l
  unfold Go.trimSpaceRunes
  have hu : (((l.dropWhile Go.isSpace).reverse.dropWhile Go.isSpace).dropWhile Go.isSpace) =
      (l.dropWhile Go.isSpace).reverse.dropWhile Go.isSpace := dropWhile_dropWhile _ _
  obtain ⟨w, hw⟩ := List.dropWhile_suffix Go.isSpace (l := (l.dropWhile Go.isSpace).reverse)
  have hpre : ((l.dropWhile Go.isSpace).reverse.dropWhile Go.isSpace).reverse ++ w.reverse =
      l.dropWhile Go.isSpace := by
    rw [← List.reverse_append, hw, List.reverse_reverse]
  have h1 := dropWhile_prefix Go.isSpace _ _ _ (dropWhile_dropWhile Go.isSpace l) hpre
  rw [h1, List.reverse_reverse, hu]

/-- The text ":" occurs in a text exactly when the rune ':' does. -/
theorem contains_colon (s : String) : Go.Contains s ":" = true ↔ ':' ∈ s.data := by
  unfold Go.Contains
  show Go.containsRunes [':'] s.data = true ↔ _
  generalize s.data = l
  induction l with
  | nil => simp [Go.containsRunes, List.isPrefixOf]
  | cons c cs ih =>
    rw [Go.containsRunes, Bool.or_eq_true, ih]
    simp only [List.isPrefixOf, Bool.and_true, beq_iff_eq, List.mem_cons]

/-- The split of a text at its first ':'. -/
theorem splitN2_colon (s : String) (a b : List Char) (hs : s.data = a ++ ':' :: b)
    (ha : ':' ∉ a) : Go.SplitN2 s ':' = [String.mk a, String.mk b] := by
  unfold Go.SplitN2
  rw [hs]
  have hspan : ∀ (a : List Char), ':' ∉ a →
      (a ++ ':' :: b).span (fun c => c != ':') = (a, ':' :: b) := by
    intro a
    induction a with
    | nil => intro _; simp [List.span_eq_take_drop]
    | cons x a ih =>
      intro hx
      have hx1 : x ≠ ':' := fun h => hx (by rw [h]; exact List.mem_cons_self _ _)
      have hx2 : ':' ∉ a := fun h => hx (List.mem_cons_of_mem _ h)
      have := ih hx2
      rw [List.span_eq_take_drop] at this ⊢
      simp only [Prod.mk.injEq] at this
      have hp : (x != ':') = true := by simpa using hx1
      simp only [List.cons_append, List.takeWhile_cons, List.dropWhile_cons, hp, if_true,
        this.1, this.2]
  rw [hspan a ha]

/-- The tail of `parseSort` on the field and the direction it has parsed. -/
theorem parseSort_tail (tbl : Char → Char) (p : SearchParams) (f d : String)
    (hS : Go.TrimSpace p.SortParam ≠ "")
    (hf : Go.TrimSpace (if Go.Contains (Go.TrimSpace p.SortParam) ":" then
        (Go.SplitN2 (Go.TrimSpace p.SortParam) ':').getD 0 "" else Go.TrimSpace p.SortParam) = f)
    (hd : Go.ToLower tbl (Go.TrimSpace (if Go.Contains (Go.TrimSpace p.SortParam) ":" then
        (Go.SplitN2 (Go.TrimSpace p.SortParam) ':').getD 1 "" else "asc")) = d) :
    ((f = "processed_at" ∨ f = "size_bytes") ∧ (d = "asc" ∨ d = "desc") →
      parseSort tbl p = .ok [⟨f, d⟩]) ∧
    (¬ ((f = "processed_at" ∨ f = "size_bytes") ∧ (d = "asc" ∨ d = "desc")) →
      ∃ e, parseSort tbl p = .error e) := by
  have hunf : parseSort tbl p =
      (if f = "" then .error .fieldRequired
       else if ¬ (f = "processed_at" ∨ f = "size_bytes") then .error (.unsupportedField f)
       else if d ≠ "asc" ∧ d ≠ "desc" then .error .dirInvalid
       else .ok [⟨f, d⟩]) := by
    unfold parseSort
    rw [if_neg (fun h => hS h.1)]
    simp only [if_neg hS]
    rw [hf, hd]
  rw [hunf]
  constructor
  · rintro ⟨h1, h2⟩
    have hne : f ≠ "" := by
      rcases h1 with h | h <;> rw [h] <;> decide
    rw [if_neg hne, if_neg (not_not_intro h1)]
    have hdd : ¬ (d ≠ "asc" ∧ d ≠ "desc") := by
      rintro ⟨ha, hb⟩
      rcases h2 with h | h
      · exact ha h
      · exact hb h
    rw [if_neg hdd]
  · intro hn
    by_cases h0 : f = ""
    · rw [if_pos h0]; exact ⟨_, rfl⟩
    · rw [if_neg h0]
      by_cases h1 : f = "processed_at" ∨ f = "size_bytes"
      · rw [if_neg (not_not_intro h1)]
        have hdd : d ≠ "asc" ∧ d ≠ "desc" :=
          ⟨fun h => hn ⟨h1, Or.inl h⟩, fun h => hn ⟨h1, Or.inr h⟩⟩
        rw [if_pos hdd]; exact ⟨_, rfl⟩
      · rw [if_pos h1]; exact ⟨_, rfl⟩

/-- C27, the sentence as written fails: the sort "size_bytes", which names no
direction, and the sort " processed_at : DESC ", whose direction is "DESC"
between blanks, are both accepted, as size_bytes ascending and processed_at
descending. -/
theorem sort_accepted_beyond_the_four_forms :
    parseSort id ⟨"x", 0, 10, "", "", "", "", "", "size_bytes"⟩ =
      .ok [⟨"size_bytes", "asc"⟩] ∧
    parseSort id ⟨"x", 0, 10, "", "", "", "", "", " processed_at : DESC "⟩ =
      .ok [⟨"processed_at", "desc"⟩] :=
  ⟨rfl, rfl⟩

/-- C27, as the code has it. With `s` the sort parameter stripped of surrounding
whitespace: for an empty `s`, `parseSort` yields processed_at:desc when the
stripped `q` is empty and no sort clause otherwise. For a non-empty `s`, the field
is the text before the first ":" of `s`, stripped (all of `s` when it has no
":"), and the direction is the text after that ":", stripped and lowercased
("asc" when `s` has no ":"); `parseSort` yields the one clause for that field and
direction when the field is processed_at or size_bytes and the direction is asc
or desc, and an error otherwise. No other sort clause is ever produced, and
`Search` on a configured client returns every error of `parseSort` joined to
`ErrBadRequest`, which `IsBadRequest` recognises. -/
theorem parseSort_spec (tbl : Char → Char) (p : SearchParams) :
    (Go.TrimSpace p.SortParam = "" → Go.TrimSpace p.Q = "" →
      parseSort tbl p = .ok [⟨"processed_at", "desc"⟩]) ∧
    (Go.TrimSpace p.SortParam = "" → Go.TrimSpace p.Q ≠ "" → parseSort tbl p = .ok []) ∧
    (∀ a b : String, Go.TrimSpace p.SortParam = a ++ ":" ++ b → ':' ∉ a.data →
      ((Go.TrimSpace a = "processed_at" ∨ Go.TrimSpace a = "size_bytes") ∧
        (Go.ToLower tbl (Go.TrimSpace b) = "asc" ∨ Go.ToLower tbl (Go.TrimSpace b) = "desc") →
        parseSort tbl p = .ok [⟨Go.TrimSpace a, Go.ToLower tbl (Go.TrimSpace b)⟩]) ∧
      (¬ ((Go.TrimSpace a = "processed_at" ∨ Go.TrimSpace a = "size_bytes") ∧
        (Go.ToLower tbl (Go.TrimSpace b) = "asc" ∨ Go.ToLower tbl (Go.TrimSpace b) = "desc")) →
        ∃ e, parseSort tbl p = .error e)) ∧
    (Go.TrimSpace p.SortParam ≠ "" → ':' ∉ (Go.TrimSpace p.SortParam).data →
      ((Go.TrimSpace p.SortParam = "processed_at" ∨ Go.TrimSpace p.SortParam = "size_bytes") →
        parseSort tbl p = .ok [⟨Go.TrimSpace p.SortParam, "asc"⟩]) ∧
      (¬ (Go.TrimSpace p.SortParam = "processed_at" ∨ Go.TrimSpace p.SortParam = "size_bytes") →
        ∃ e, parseSort tbl p = .error e)) ∧
    (∀ clauses, parseSort tbl p = .ok clauses →
      clauses = [] ∨ ∃ f d, clauses = [⟨f, d⟩] ∧ (f = "processed_at" ∨ f = "size_bytes") ∧
        (d = "asc" ∨ d = "desc")) ∧
    (∀ (H : Type) (ErrBadRequest : Error) (api : String → SearchBody → Except Error (ApiResponse H))
        (c : Client) (e : SortError),
      c.OS = true → c.Index ≠ "" → parseSort tbl p.Normalize = .error e →
      (∃ err, Client.Search tbl ErrBadRequest api c p = .error err ∧
        err = .join ErrBadRequest (.sort e) ∧ IsBadRequest ErrBadRequest err = true)) := by
  refine ⟨?_, ?_, ?_, ?_, ?_, ?_⟩
  · intro hs hq
    unfold parseSort
    rw [if_neg (fun h => h.2 hq)]
    simp only [hs, if_true]
    rfl
  · intro hs hq
    unfold parseSort
    rw [if_pos ⟨hs, hq⟩]
  · intro a b hab hna
    have hS : Go.TrimSpace p.SortParam ≠ "" := by
      rw [hab]
      intro h
      have := congrArg String.length h
      simp [String.length_append] at this
      exact absurd this.1.2 (by decide)
    have hdata : (Go.TrimSpace p.SortParam).data = a.data ++ ':' :: b.data := by
      rw [hab]; simp [String.data_append]
    have hc : Go.Contains (Go.TrimSpace p.SortParam) ":" = true := by
      rw [contains_colon, hdata]; simp
    have hsp := splitN2_colon _ _ _ hdata hna
    exact parseSort_tail tbl p _ _ hS (by rw [if_pos hc, hsp]; rfl) (by rw [if_pos hc, hsp]; rfl)
  · intro hS hnc
    have hc : ¬ (Go.Contains (Go.TrimSpace p.SortParam) ":" = true) := by
      rw [contains_colon]; exact hnc
    have ht := parseSort_tail tbl p (Go.TrimSpace p.SortParam) "asc" hS
      (by rw [if_neg hc, trimSpace_idem]) (by rw [if_neg hc]; rfl)
    exact ⟨fun h => ht.1 ⟨h, Or.inl rfl⟩, fun h => ht.2 (fun hh => h hh.1)⟩
  · intro clauses h
    by_cases hs : Go.TrimSpace p.SortParam = ""
    · by_cases hq : Go.TrimSpace p.Q = ""
      · have h1 : parseSort tbl p = .ok [⟨"processed_at", "desc"⟩] := by
          unfold parseSort
          rw [if_neg (fun h => h.2 hq)]
          simp only [hs, if_true]
          rfl
        rw [h1] at h
        cases h
        exact Or.inr ⟨_, _, rfl, Or.inl rfl, Or.inr rfl⟩
      · have h1 : parseSort tbl p = .ok [] := by
          unfold parseSort
          rw [if_pos ⟨hs, hq⟩]
        rw [h1] at h
        cases h
        exact Or.inl rfl
    · have ht := parseSort_tail tbl p _ _ hs rfl rfl
      by_cases hacc : (Go.TrimSpace (if Go.Contains (Go.TrimSpace p.SortParam) ":" then
            (Go.SplitN2 (Go.TrimSpace p.SortParam) ':').getD 0 ""
            else Go.TrimSpace p.SortParam) = "processed_at" ∨
          Go.TrimSpace (if Go.Contains (Go.TrimSpace p.SortParam) ":" then
            (Go.SplitN2 (Go.TrimSpace p.SortParam) ':').getD 0 ""
            else Go.TrimSpace p.SortParam) = "size_bytes") ∧
          (Go.ToLower tbl (Go.TrimSpace (if Go.Contains (Go.TrimSpace p.SortParam) ":" then
            (Go.SplitN2 (Go.TrimSpace p.SortParam) ':').getD 1 "" else "asc")) = "asc" ∨
          Go.ToLower tbl (Go.TrimSpace (if Go.Contains (Go.TrimSpace p.SortParam) ":" then
            (Go.SplitN2 (Go.TrimSpace p.SortParam) ':').getD 1 "" else "asc")) = "desc")
      · rw [ht.1 hacc] at h
        cases h
        exact Or.inr ⟨_, _, rfl, hacc.1, hacc.2⟩
      · obtain ⟨e, he⟩ := ht.2 hacc
        rw [he] at h
        cases h
  · intro H ErrBadRequest api c e hos hidx he
    refine ⟨_, ?_, rfl, ?_⟩
    · unfold Client.Search
      rw [if_neg (by rw [hos]; decide), if_neg hidx, he]
    · unfold IsBadRequest
      rw [Error.Is]
      have hself : ∀ x : Error, x.Is x = true := by
        intro x
        cases x <;> simp [Error.Is]
      simp [hself]

/-- The four canonical forms are accepted, an unknown field and an unknown
direction are refused, and `Search` reports the refusal as a bad request. -/
theorem parseSort_spec_witness :
    parseSort id ⟨"x", 0, 10, "", "", "", "", "", "size_bytes:desc"⟩ =
      .ok [⟨"size_bytes", "desc"⟩] ∧
    (∃ e, parseSort id ⟨"x", 0, 10, "", "", "", "", "", "nope:asc"⟩ = .error e) ∧
    (∃ e, parseSort id ⟨"x", 0, 10, "", "", "", "", "", "size_bytes:up"⟩ = .error e) ∧
    (∃ err, Client.Search id (.text "bad request")
        (fun _ _ => .ok (⟨some 200, 0, []⟩ : ApiResponse Unit)) ⟨true, "idx"⟩
        ⟨"x", 0, 10, "", "", "", "", "", "nope:asc"⟩ = .error err ∧
      err = .join (.text "bad request") (.sort (.unsupportedField "nope")) ∧
      IsBadRequest (.text "bad request") err = true) :=
  ⟨((parseSort_spec id ⟨"x", 0, 10, "", "", "", "", "", "size_bytes:desc"⟩).2.2.1
      "size_bytes" "desc" rfl (by decide)).1 ⟨Or.inr rfl, Or.inr rfl⟩,
   ((parseSort_spec id ⟨"x", 0, 10, "", "", "", "", "", "nope:asc"⟩).2.2.1
      "nope" "asc" rfl (by decide)).2 (by decide),
   ((parseSort_spec id ⟨"x", 0, 10, "", "", "", "", "", "size_bytes:up"⟩).2.2.1
      "size_bytes" "up" rfl (by decide)).2 (by decide),
   (parseSort_spec id ⟨"x", 0, 10, "", "", "", "", "", "nope:asc"⟩).2.2.2.2.2
      Unit (.text "bad request") (fun _ _ => .ok ⟨some 200, 0, []⟩) ⟨true, "idx"⟩
      (.unsupportedField "nope") rfl (by decide) rfl⟩

end search

/-! ## The validator wrapper -/

namespace ipnssniff

/-- A read after a write. -/
theorem mapGet_mapSet (k : String) (v : Option Validator) (k' : String) : ∀ m : Table,
    mapGet (mapSet m k v) k' = if k' = k then some v else mapGet m k'
  | [] => by
    by_cases h : k' = k
    · have hb : (k' == k) = true := by rw [beq_iff_eq]; exact h
      simp only [mapSet, mapGet, List.lookup, hb, if_pos h]
    · have hb : (k' == k) = false := by rw [beq_eq_false_iff_ne]; exact h
      simp only [mapSet, mapGet, List.lookup, hb, if_neg h]
  | (k0, v0) :: rest => by
    have ih := mapGet_mapSet k v k' rest
    unfold mapGet at ih ⊢
    rw [mapSet]
    by_cases h0 : k0 = k
    · rw [if_pos h0]
      subst h0
      by_cases h : k' = k0
      · have hb : (k' == k0) = true := by rw [beq_iff_eq]; exact h
        simp only [List.lookup, hb, if_pos h]
      · have hb : (k' == k0) = false := by rw [beq_eq_false_iff_ne]; exact h
        simp only [List.lookup, hb, if_neg h]
    · rw [if_neg h0]
      by_cases h1 : k' = k0
      · have hb : (k' == k0) = true := by rw [beq_iff_eq]; exact h1
        have hk : ¬ k' = k := fun e => h0 (h1.symm.trans e)
        simp only [List.lookup, hb, if_neg hk]
      · have hb : (k' == k0) = false := by rw [beq_eq_false_iff_ne]; exact h1
        simp only [List.lookup, hb, ih]

/-- A key that is not bound reads as absent. -/
theorem mapGet_of_not_mem (k : String) : ∀ m : Table, k ∉ m.map Prod.fst → mapGet m k = none
  | [], _ => rfl
  | (k0, v0) :: rest, h => by
    have h0 : k ≠ k0 := fun e => h (by rw [e]; exact List.mem_cons_self _ _)
    have h1 : k ∉ rest.map Prod.fst := fun e => h (List.mem_cons_of_mem _ e)
    have hne : (k == k0) = false := by rw [beq_eq_false_iff_ne]; exact h0
    have ih := mapGet_of_not_mem k rest h1
    unfold mapGet at ih ⊢
    simp only [List.lookup, hne, ih]

/-- The copy loop binds every key of the source to its value there and leaves
the other keys of the target alone. -/
theorem mapGet_copyInto (k : String) : ∀ (nv out : Table), (nv.map Prod.fst).Nodup →
    mapGet (copyInto out nv) k =
      match mapGet nv k with
      | some v => some v
      | none => mapGet out k
  | [], out, _ => rfl
  | (k0, v0) :: rest, out, h => by
    rw [List.map_cons, List.nodup_cons] at h
    rw [copyInto, mapGet_copyInto k rest _ h.2, mapGet_mapSet]
    by_cases hk : k = k0
    · subst hk
      rw [mapGet_of_not_mem k rest h.1]
      simp [mapGet, List.lookup]
    · have hne : (k == k0) = false := by rw [beq_eq_false_iff_ne]; exact hk
      rw [if_neg hk]
      have : mapGet ((k0, v0) :: rest) k = mapGet rest k := by
        simp only [mapGet, List.lookup, hne]
      rw [this]

/-- C21: `WrapIPNSValidator` on a namespaced validator, a map that binds each
namespace once, allocates a new table and returns it: every table that existed
before, the one passed in included, is left as it was; the new table binds
exactly the namespaces of the one passed in; every entry other than "ipns" is
the original handler itself; the entry "ipns", when present and not nil, is a
sniffing validator whose inner validator is the original ipns handler, and is
unchanged when nil or absent. A nil validator is returned as nil. -/
theorem wrap_overlays_ipns_entry (heap : List Table) (addr : Nat) (sniff : Option Sniffer)
    (haddr : addr < heap.length) (hkeys : ((heap.getD addr []).map Prod.fst).Nodup) :
    (∃ out, WrapIPNSValidator heap (some (.namespaced addr)) sniff =
        (heap ++ [out], some (.namespaced heap.length)) ∧
      heap.length ≠ addr ∧
      (∀ a, a < heap.length → (heap ++ [out]).getD a [] = heap.getD a []) ∧
      (∀ k, (mapGet out k).isSome = (mapGet (heap.getD addr []) k).isSome) ∧
      (∀ k, k ≠ "ipns" → mapGet out k = mapGet (heap.getD addr []) k) ∧
      (∀ v, mapGet (heap.getD addr []) "ipns" = some (some v) →
        mapGet out "ipns" = some (some (.sniffing v sniff))) ∧
      (mapGet (heap.getD addr []) "ipns" = some none → mapGet out "ipns" = some none) ∧
      (mapGet (heap.getD addr []) "ipns" = none → mapGet out "ipns" = none)) ∧
    WrapIPNSValidator heap none sniff = (heap, none) := by
  refine ⟨?_, rfl⟩
  have hcopy : ∀ k, mapGet (copyInto [] (heap.getD addr [])) k = mapGet (heap.getD addr []) k := by
    intro k
    rw [mapGet_copyInto k _ _ hkeys]
    cases mapGet (heap.getD addr []) k <;> rfl
  have hframe : ∀ (out : Table) (a : Nat), a < heap.length →
      (heap ++ [out]).getD a [] = heap.getD a [] := by
    intro out a ha
    simp [List.getD, List.getElem?_append_left ha]
  unfold WrapIPNSValidator
  simp only []
  cases hip : mapGet (heap.getD addr []) "ipns" with
  | none =>
    rw [hcopy "ipns", hip]
    refine ⟨_, rfl, by omega, hframe _, ?_, ?_, ?_, ?_, ?_⟩
    · intro k; rw [hcopy]
    · intro k _; rw [hcopy]
    · intro v hv; cases hv
    · intro hv; cases hv
    · intro _; rw [hcopy, hip]
  | some o =>
    cases o with
    | none =>
      rw [hcopy "ipns", hip]
      refine ⟨_, rfl, by omega, hframe _, ?_, ?_, ?_, ?_, ?_⟩
      · intro k; rw [hcopy]
      · intro k _; rw [hcopy]
      · intro v hv; cases hv
      · intro _; rw [hcopy, hip]
      · intro hv; cases hv
    | some v =>
      rw [hcopy "ipns", hip]
      refine ⟨_, rfl, by omega, hframe _, ?_, ?_, ?_, ?_, ?_⟩
      · intro k
        rw [mapGet_mapSet]
        by_cases hk : k = "ipns"
        · rw [if_pos hk, hk, hip]; rfl
        · rw [if_neg hk, hcopy]
      · intro k hk
        rw [mapGet_mapSet, if_neg hk, hcopy]
      · intro v2 hv
        cases hv
        rw [mapGet_mapSet, if_pos rfl]
      · intro hv; cases hv
      · intro hv; cases hv

/-- A table with the handlers of "pk" and "ipns": the new table keeps the handler
of "pk" and binds "ipns" to a sniffing validator around the handler of "ipns";
the old table stays at its address. -/
theorem wrap_overlays_ipns_entry_witness :
    WrapIPNSValidator [[("pk", some (.host 1)), ("ipns", some (.host 2))]]
        (some (.namespaced 0)) (some ⟨true, true, ⟨"", 0⟩⟩) =
      ([[("pk", some (.host 1)), ("ipns", some (.host 2))],
        [("pk", some (.host 1)),
         ("ipns", some (.sniffing (.host 2) (some ⟨true, true, ⟨"", 0⟩⟩)))]],
       some (.namespaced 1)) ∧
    WrapIPNSValidator [[("pk", some (.host 1)), ("ipns", some (.host 2))]] none
        (some ⟨true, true, ⟨"", 0⟩⟩) =
      ([[("pk", some (.host 1)), ("ipns", some (.host 2))]], none) :=
  ⟨by decide,
   (wrap_overlays_ipns_entry [[("pk", some (.host 1)), ("ipns", some (.host 2))]] 0
      (some ⟨true, true, ⟨"", 0⟩⟩) (by decide) (by decide)).2⟩

end ipnssniff

end IPFSniffer
